import Mathlib

/-!
# The diff block list of `diff.c`

A shallow embedding of the diff engine of `src/src/diff.c`: the block list
(`first_diff`), the edit tracker `diff_mark_adjust`, the normalizer
`diff_check_unchanged`, the line comparator `diff_cmp` and the parser of the
differ's output `diff_read`.

Conventions of the embedding.

* `linenr_T` and `long` are unbounded `Int`.  Where the code stores a number read
  from text in an `int` (`count_orig` and `count_new` of `diff_read`,
  `diff_context_new` of `diffopt_changed`) the value is converted with
  `int_of_long`, for an `int` of 32 bits.  The other `int`s hold slot numbers and
  numbers of lines of a buffer, which are below 2^31, and are `Int` or `Nat`.
* The singly linked list `first_diff` is a `List diff_T`; the `df_next` link of a
  block is its position in the list.  The arrays `df_lnum[DB_COUNT]` and
  `df_count[DB_COUNT]` are functions on slot numbers, of which only the slots
  `0 .. DB_COUNT - 1` are ever read or written.
* A line of text is a `List Char` without the terminating NUL.
* What the C code obtains from other files of the editor (memory allocation,
  the text of the buffers, the width of a multi-byte character) is collected in
  the record `Host`, over which every statement is quantified.
-/

namespace VimDiff

/-! ## Data model -/

/-- The number of buffers that can take part in a diff (`#define DB_COUNT 4`). -/
def DB_COUNT : Nat := 4

/-- Modelled from the spec: the sentinel `MAXLNUM` of `vim.h` (not under `src/`), the
"end of buffer / open upper bound" of an adjustment notification; `0x7fffffff`. -/
def MAXLNUM : Int := 2147483647

/-- A buffer handle (`buf_T *`); only its identity matters. -/
abbrev buf_T := Nat

/-- The block `struct diffblock`, without its `df_next` link. -/
structure diff_T where
  df_lnum : Nat → Int
  df_count : Nat → Int

/-- Assignment `dp->df_lnum[i] = v`. -/
def diff_T.setLnum (d : diff_T) (i : Nat) (v : Int) : diff_T :=
  { d with df_lnum := fun j => if j = i then v else d.df_lnum j }

/-- Assignment `dp->df_count[i] = v`. -/
def diff_T.setCount (d : diff_T) (i : Nat) (v : Int) : diff_T :=
  { d with df_count := fun j => if j = i then v else d.df_count j }

/-- The static variables of `diff.c`. -/
structure DiffState where
  first_diff : List diff_T
  diffbuf : Nat → Option buf_T
  diff_invalid : Bool
  diff_busy : Bool
  diff_context : Int
  diff_flags : Nat

/-- The window `win_T` (declared outside `src/`), with the fields that `diff.c` reads or
writes. -/
structure win_T where
  w_buffer : buf_T
  w_p_diff : Bool
  w_topline : Int
  w_topfill : Int

/-- The collaborators of `diff.c` that live in other files of the editor.

* `alloc`: the result of `alloc(sizeof(diff_T))`, either `NULL` (`none`) or a block
  whose contents are arbitrary (the same answer for every call within one operation);
* `strsave_ok`: whether `vim_strsave` of a line returns a copy (`true`) or `NULL`;
* `ml_get_buf`: the text of line `lnum` of a buffer;
* `mb_ptr2len_check`: the byte length of the character at the start of a string;
* `ml_line_count`: the field `b_ml.ml_line_count` of a buffer;
* `hasFoldingWin`: whether the line of the window is in a closed fold;
* `fold_first`: the first line of that closed fold, which `hasFoldingWin` stores
  through its argument `firstp`;
* `vim_tempname_ok`: whether `vim_tempname` of the given letter returns a name;
* `buf_write_ok`: whether `buf_write` of the buffer to a temporary file succeeds;
* `diff_output`: the lines of the output file that the diff command (run with `-b`,
  with `-i`) or `'diffexpr'` leaves for the two buffers, `none` if it cannot be opened;
* `u_save_ok`: whether `u_save(top, bot)` succeeds;
* `buflist_findpat`: the buffer number for a pattern, negative if there is none;
* `buflist_findnr`: the buffer with a number, or `NULL`. -/
structure Host where
  alloc : Option diff_T
  strsave_ok : List Char → Bool
  ml_get_buf : buf_T → Int → List Char
  mb_ptr2len_check : List Char → Nat
  ml_line_count : buf_T → Int
  hasFoldingWin : win_T → Int → Bool
  fold_first : win_T → Int → Int
  vim_tempname_ok : Char → Bool
  buf_write_ok : buf_T → Bool
  diff_output : Bool → Bool → buf_T → buf_T → Option (List (List Char))
  u_save_ok : Int → Int → Bool
  buflist_findpat : List Char → Int
  buflist_findnr : Int → Option buf_T

/-- The byte `NUL` that ends a C string; a line of a buffer does not contain it. -/
def NUL : Char := Char.ofNat 0

def DIFF_FILLER : Nat := 1
def DIFF_ICASE : Nat := 2
def DIFF_IWHITE : Nat := 4

/-! ## Loops over the slots -/

/-- The search loop `for (i = start; i < start + n; ++i) if (p i) break;`: the value of
`i` after the loop. -/
def find_idx (p : Nat → Bool) : Nat → Nat → Nat
  | 0, i => i
  | n + 1, i => if p i then i else find_idx p n (i + 1)

/-- The update loop `for (i = lo; i < hi; ++i) if (c i) { ... }` whose body rewrites
`df_lnum[i]` and `df_count[i]` of one block from their current values. -/
def for_slots (lo hi : Nat) (c : Nat → Bool) (f : Nat → Int → Int → Int × Int)
    (d : diff_T) : diff_T :=
  (List.range' lo (hi - lo)).foldl
    (fun d i =>
      if c i then
        ((d.setLnum i (f i (d.df_lnum i) (d.df_count i)).1).setCount i
          (f i (d.df_lnum i) (d.df_count i)).2)
      else d)
    d

/-- The test `diffbuf[i] != NULL`. -/
def participating (diffbuf : Nat → Option buf_T) (i : Nat) : Bool :=
  (diffbuf i).isSome

/-- The function `diff_buf_idx`: the slot of `buf`, or `DB_COUNT`. -/
def diff_buf_idx (diffbuf : Nat → Option buf_T) (buf : buf_T) : Nat :=
  find_idx (fun idx => diffbuf idx == some buf) DB_COUNT 0

/-- The call `ml_get_buf(diffbuf[i], lnum, FALSE)`. -/
def ml_get_slot (H : Host) (diffbuf : Nat → Option buf_T) (i : Nat) (lnum : Int) :
    List Char :=
  match diffbuf i with
  | some b => H.ml_get_buf b lnum
  | none => []

/-! ## The line comparator `diff_cmp` -/

/-- Modelled from the spec: the macro `vim_iswhite` (not under `src/`): a space or a tab. -/
def vim_iswhite (c : Char) : Bool := c = ' ' || c = '\t'

/-- Modelled from the spec: `skipwhite` (not under `src/`) skips a maximal run of
white space. -/
def skipwhite : List Char → List Char
  | [] => []
  | c :: cs => if vim_iswhite c then skipwhite cs else c :: cs

/-- Modelled from the spec: the macro `TO_LOWER` (not under `src/`), case folding of one
byte. -/
def TO_LOWER (c : Char) : Char := c.toLower

/-- Modelled from the spec: `STRCMP` (the C library `strcmp`): zero for equal strings,
else the difference of the first two bytes that differ. -/
def STRCMP : List Char → List Char → Int
  | [], [] => 0
  | [], c :: _ => - (c.toNat : Int)
  | c :: _, [] => (c.toNat : Int)
  | a :: as, b :: bs => if a = b then STRCMP as bs else (a.toNat : Int) - (b.toNat : Int)

/-- Modelled from the spec: `STRICMP` (not under `src/`): `STRCMP` on the case-folded
bytes. -/
def STRICMP : List Char → List Char → Int
  | [], [] => 0
  | [], c :: _ => - ((TO_LOWER c).toNat : Int)
  | c :: _, [] => ((TO_LOWER c).toNat : Int)
  | a :: as, b :: bs =>
    if TO_LOWER a = TO_LOWER b then STRICMP as bs
    else ((TO_LOWER a).toNat : Int) - ((TO_LOWER b).toNat : Int)

/-- The `while (*p1 != NUL && *p2 != NUL)` loop of `diff_cmp`; returns `p1` and `p2` as
they are when the loop is left.  Every round consumes a byte of `p1`, so a fuel of
the length of `p1` is enough. -/
def diff_cmp_loop (H : Host) : Nat → List Char → List Char → List Char × List Char
  | 0, p1, p2 => (p1, p2)
  | _ + 1, [], p2 => ([], p2)
  | _ + 1, c1 :: r1, [] => (c1 :: r1, [])
  | fuel + 1, c1 :: r1, c2 :: r2 =>
    if vim_iswhite c1 && vim_iswhite c2 then
      diff_cmp_loop H fuel (skipwhite (c1 :: r1)) (skipwhite (c2 :: r2))
    else
      let l := H.mb_ptr2len_check (c1 :: r1)
      if l ≠ H.mb_ptr2len_check (c2 :: r2) then (c1 :: r1, c2 :: r2)
      else if l > 1 then
        if (c1 :: r1).take l ≠ (c2 :: r2).take l then (c1 :: r1, c2 :: r2)
        else diff_cmp_loop H fuel ((c1 :: r1).drop l) ((c2 :: r2).drop l)
      else if c1 ≠ c2 ∧ TO_LOWER c1 ≠ TO_LOWER c2 then (c1 :: r1, c2 :: r2)
      else diff_cmp_loop H fuel r1 r2

/-- The function `diff_cmp`: zero when the lines are equal under the flags. -/
def diff_cmp (H : Host) (diff_flags : Nat) (s1 s2 : List Char) : Int :=
  if diff_flags &&& (DIFF_ICASE ||| DIFF_IWHITE) = 0 then STRCMP s1 s2
  else if diff_flags &&& DIFF_ICASE ≠ 0 ∧ ¬ (diff_flags &&& DIFF_IWHITE ≠ 0) then
    STRICMP s1 s2
  else
    let r := diff_cmp_loop H s1.length s1 s2
    if skipwhite r.1 ≠ [] ∨ skipwhite r.2 ≠ [] then 1 else 0

/-! ## The normalizer `diff_check_unchanged` -/

/-- The offset `off_org` or `off_new` of the line to compare in a block of `count`
lines: the first line when going `FORWARD`, the last when going `BACKWARD`. -/
def trim_off (backward : Bool) (count : Int) : Int :=
  if backward then count - 1 else 0

/-- The inner loop of `diff_check_unchanged` (lines 462-474): the value of `i_new` when
the loop is left; `DB_COUNT` when `line_org` matched in all the other buffers. -/
def first_mismatch (H : Host) (diffbuf : Nat → Option buf_T) (diff_flags : Nat)
    (i_org : Nat) (backward : Bool) (dp : diff_T) (line_org : List Char) : Nat :=
  find_idx
    (fun i_new =>
      participating diffbuf i_new &&
        (decide (trim_off backward (dp.df_count i_new) < 0
            ∨ trim_off backward (dp.df_count i_new) ≥ dp.df_count i_new) ||
          decide (diff_cmp H diff_flags line_org
            (ml_get_slot H diffbuf i_new
              (dp.df_lnum i_new + trim_off backward (dp.df_count i_new))) ≠ 0)))
    (DB_COUNT - (i_org + 1)) (i_org + 1)

/-- The loop "line matched in all buffers, remove it from the diff" (lines 482-488). -/
def remove_line (diffbuf : Nat → Option buf_T) (i_org : Nat) (backward : Bool)
    (dp : diff_T) : diff_T :=
  for_slots i_org DB_COUNT (participating diffbuf)
    (fun _ l c => (if backward then l else l + 1, c - 1)) dp

/-- The `while (dp->df_count[i_org] > 0)` loop of `diff_check_unchanged` for one
direction (`backward = false` is `FORWARD`).  The second component is `true` when the
function returned from inside the loop (`vim_strsave` gave `NULL`).  Every round that
does not leave the loop lowers `df_count[i_org]` by one, so a fuel of
`df_count[i_org]` is enough. -/
def trim_loop (H : Host) (diffbuf : Nat → Option buf_T) (diff_flags : Nat) (i_org : Nat)
    (backward : Bool) : Nat → diff_T → diff_T × Bool
  | 0, dp => (dp, false)
  | fuel + 1, dp =>
    if dp.df_count i_org > 0 then
      let line_org := ml_get_slot H diffbuf i_org
        (dp.df_lnum i_org + trim_off backward (dp.df_count i_org))
      if H.strsave_ok line_org then
        if first_mismatch H diffbuf diff_flags i_org backward dp line_org ≠ DB_COUNT then
          (dp, false)
        else
          trim_loop H diffbuf diff_flags i_org backward fuel
            (remove_line diffbuf i_org backward dp)
      else (dp, true)
    else (dp, false)

/-- The function `diff_check_unchanged`. -/
def diff_check_unchanged (H : Host) (diffbuf : Nat → Option buf_T) (diff_flags : Nat)
    (dp : diff_T) : diff_T :=
  let i_org := find_idx (participating diffbuf) DB_COUNT 0
  if i_org = DB_COUNT then dp
  else
    let r := trim_loop H diffbuf diff_flags i_org false (dp.df_count i_org).toNat dp
    if r.2 then r.1
    else (trim_loop H diffbuf diff_flags i_org true (r.1.df_count i_org).toNat r.1).1

/-! ## The edit tracker `diff_mark_adjust` -/

/-- The values of the locals of `diff_mark_adjust` after the block `dp` was adjusted
(lines 261-343 of `diff.c`), before `diff_check_unchanged` is called. -/
structure Touched where
  dp : diff_T
  line1 : Int
  deleted : Int
  check_unchanged : Bool

/-- The loop `for (i = 0; i < DB_COUNT; ++i) if (diffbuf[i] != NULL && i != idx)
{ dp->df_lnum[i] -= off; dp->df_count[i] += n; }`. -/
def adjust_others (diffbuf : Nat → Option buf_T) (idx : Nat) (off n : Int) (dp : diff_T) :
    diff_T :=
  for_slots 0 DB_COUNT (fun i => participating diffbuf i && decide (i ≠ idx))
    (fun _ l c => (l - off, c + n)) dp

/-- The test `dp->df_next != NULL && dp->df_next->df_lnum[idx] - 1 <= line2`. -/
def delete_continues (idx : Nat) (line2 : Int) (next : Option diff_T) : Bool :=
  match next with
  | some nx => decide (nx.df_lnum idx - 1 ≤ line2)
  | none => false

/-- The value of `dp->df_next->df_lnum[idx]` (read only when `df_next` is not `NULL`). -/
def next_lnum (idx : Nat) (next : Option diff_T) : Int :=
  match next with
  | some nx => nx.df_lnum idx
  | none => 0

/-- Cases 2 to 5 of `diff_mark_adjust`: inserted or deleted lines touch the block `dp`
(the `else` branch at line 259 up to line 343); `next` is `dp->df_next`. -/
def touch_block (diffbuf : Nat → Option buf_T) (idx : Nat) (line1 line2 : Int)
    (inserted deleted : Int) (dp : diff_T) (next : Option diff_T) : Touched :=
  let last := dp.df_lnum idx + dp.df_count idx - 1
  if deleted > 0 then
    if dp.df_lnum idx ≥ line1 then
      let off := dp.df_lnum idx - line1
      let dp := dp.setLnum idx line1
      if last ≤ line2 then
        -- 4. delete all lines of diff
        if delete_continues idx line2 next then
          let n := next_lnum idx next - line1
          let deleted := deleted - n
          let n := n - dp.df_count idx
          let line1 := next_lnum idx next
          ⟨adjust_others diffbuf idx off n (dp.setCount idx 0), line1, deleted, false⟩
        else
          let n := deleted - dp.df_count idx
          ⟨adjust_others diffbuf idx off n (dp.setCount idx 0), line1, deleted, false⟩
      else
        -- 5. delete lines at top of diff
        let n := off
        let dp := dp.setCount idx (dp.df_count idx - (line2 - dp.df_lnum idx + 1))
        let dp := dp.setLnum idx line1
        ⟨adjust_others diffbuf idx off n dp, line1, deleted, true⟩
    else
      let off := 0
      if last < line2 then
        -- 2. delete at end of of diff
        let dp := dp.setCount idx (dp.df_count idx - (last - line1 + 1))
        if delete_continues idx line2 next then
          let n := next_lnum idx next - 1 - last
          let deleted := deleted - (next_lnum idx next - line1)
          let line1 := next_lnum idx next
          ⟨adjust_others diffbuf idx off n dp, line1, deleted, true⟩
        else
          let n := line2 - last
          ⟨adjust_others diffbuf idx off n dp, line1, deleted, true⟩
      else
        -- 3. delete lines inside the diff
        let n := 0
        let dp := dp.setCount idx (dp.df_count idx - deleted)
        ⟨adjust_others diffbuf idx off n dp, line1, deleted, false⟩
  else
    if dp.df_lnum idx ≤ line1 then
      -- inserted lines somewhere in this diff
      ⟨dp.setCount idx (dp.df_count idx + inserted), line1, deleted, true⟩
    else
      -- inserted lines somewhere above this diff
      ⟨dp.setLnum idx (dp.df_lnum idx + inserted), line1, deleted, false⟩

/-- The block that `diff_mark_adjust` creates for a change outside of the existing
blocks (lines 215-227); `g` is the block as `alloc` returned it. -/
def new_block (diffbuf : Nat → Option buf_T) (idx : Nat) (line1 inserted deleted : Int)
    (dprev : Option diff_T) (g : diff_T) : diff_T :=
  for_slots 0 DB_COUNT (fun i => participating diffbuf i && decide (i ≠ idx))
    (fun i _ _ =>
      (match dprev with
        | none => line1
        | some p =>
          line1 + (p.df_lnum i + p.df_count i) - (p.df_lnum idx + p.df_count idx),
       deleted))
    ((g.setLnum idx line1).setCount idx inserted)

/-- The test `dprev == NULL || dprev->df_lnum[idx] + dprev->df_count[idx] < line1`. -/
def after_dprev (idx : Nat) (line1 : Int) (dprev : Option diff_T) : Bool :=
  match dprev with
  | none => true
  | some p => decide (p.df_lnum idx + p.df_count idx < line1)

/-- The merge of `dp` into `dprev` (lines 356-358): `dprev->df_count[i] += dp->df_count[i]`
for every participating `i`. -/
def merge_into (diffbuf : Nat → Option buf_T) (dprev dp : diff_T) : diff_T :=
  for_slots 0 DB_COUNT (participating diffbuf) (fun i l c => (l, c + dp.df_count i)) dprev

/-- The function `diff_alloc_new`: the new block as `alloc` returns it, or `none` for
`NULL`.  The link between `dprev` and `dp` is the place at which the caller puts the
block into the list. -/
def diff_alloc_new (H : Host) : Option diff_T := H.alloc

/-- Lines 202-228 of `diff_mark_adjust`: when the change is after `dprev` and before
`dp`, and `ex_diffgetput` is not busy, a new block is linked between them.  The result
is the list of the blocks linked between `dprev` and `dp` (none or one), or `none` when
`diff_alloc_new` returns `NULL`.  `dp` is `none` at the end of the list. -/
def create_block (H : Host) (diffbuf : Nat → Option buf_T) (diff_busy : Bool) (idx : Nat)
    (line2 inserted : Int) (dprev : Option diff_T) (line1 deleted : Int)
    (dp : Option diff_T) : Option (List diff_T) :=
  if (match dp with
      | none => true
      | some dp =>
        decide (dp.df_lnum idx - 1 > line2) ||
          (decide (line2 = MAXLNUM) && decide (dp.df_lnum idx > line1)))
      && after_dprev idx line1 dprev && !diff_busy then
    match diff_alloc_new H with
    | none => none
    | some g => some [new_block diffbuf idx line1 inserted deleted dprev g]
  else some []

/-- Lines 246-350 of `diff_mark_adjust`: the block `dp` after the adjustment, with the
new values of `line1` and `deleted`; `none` when the loop is left by the `break` at
line 256.  `next` is `dp->df_next`. -/
def adjust_step (H : Host) (diffbuf : Nat → Option buf_T) (diff_flags : Nat) (idx : Nat)
    (line2 amount_after inserted : Int) (line1 deleted : Int) (dp : diff_T)
    (next : Option diff_T) : Option (diff_T × Int × Int) :=
  let last := dp.df_lnum idx + dp.df_count idx - 1
  -- 1. change completely above line1: nothing to do
  if last ≥ line1 - 1 then
    -- 6. change below line2: only adjust for amount_after
    if dp.df_lnum idx - (if deleted + inserted ≠ 0 then 1 else 0) > line2 then
      if amount_after = 0 then none
      else some (dp.setLnum idx (dp.df_lnum idx + amount_after), line1, deleted)
    else
      let t := touch_block diffbuf idx line1 line2 inserted deleted dp next
      some (if t.check_unchanged then diff_check_unchanged H diffbuf diff_flags t.dp
            else t.dp, t.line1, t.deleted)
  else some (dp, line1, deleted)

/-- Lines 352-368 of `diff_mark_adjust`: `dp` is merged into `dprev` when it touches
it, else the cursors advance.  `fresh` are the blocks linked between `dprev` and `dp`
in this round; the merge unlinks them together with `dp`.  The result is the list
before the new `dprev`, and the new `dprev`. -/
def merge_or_advance (diffbuf : Nat → Option buf_T) (idx : Nat) (done : List diff_T)
    (dprev : Option diff_T) (fresh : List diff_T) (dp : diff_T) :
    List diff_T × Option diff_T :=
  match dprev with
  | some p =>
    if p.df_lnum idx + p.df_count idx = dp.df_lnum idx then
      (done, some (merge_into diffbuf p dp))
    else (done ++ p :: fresh, some dp)
  | none => (done ++ fresh, some dp)

/-- The `for (;;)` loop of `diff_mark_adjust` (lines 200-369).  `done` are the blocks
before `dprev`, the last argument is the list from `dp` on.  The result is the list
when the loop is left, and whether it was left by the `return` at line 213
(`diff_alloc_new` failed). -/
def adjust_walk (H : Host) (diffbuf : Nat → Option buf_T) (diff_flags : Nat)
    (diff_busy : Bool) (idx : Nat) (line2 amount_after inserted : Int) :
    List diff_T → Option diff_T → Int → Int → List diff_T → List diff_T × Bool
  | done, dprev, line1, deleted, [] =>
    match create_block H diffbuf diff_busy idx line2 inserted dprev line1 deleted none with
    | none => (done ++ dprev.toList, true)
    | some fresh => (done ++ dprev.toList ++ fresh, false)
  | done, dprev, line1, deleted, dp :: tl =>
    match create_block H diffbuf diff_busy idx line2 inserted dprev line1 deleted
        (some dp) with
    | none => (done ++ dprev.toList ++ dp :: tl, true)
    | some fresh =>
      match adjust_step H diffbuf diff_flags idx line2 amount_after inserted line1 deleted
          dp tl.head? with
      | none => (done ++ dprev.toList ++ fresh ++ dp :: tl, false)
      | some (dp, line1, deleted) =>
        adjust_walk H diffbuf diff_flags diff_busy idx line2 amount_after inserted
          (merge_or_advance diffbuf idx done dprev fresh dp).1
          (merge_or_advance diffbuf idx done dprev fresh dp).2 line1 deleted tl

/-- The test of the final sweep (lines 376-379): every participating count of `dp` is
zero. -/
def all_zero (diffbuf : Nat → Option buf_T) (dp : diff_T) : Bool :=
  find_idx (fun i => participating diffbuf i && decide (dp.df_count i ≠ 0)) DB_COUNT 0
    == DB_COUNT

/-- The final sweep of `diff_mark_adjust` (lines 371-396): unlink every block whose
participating counts are all zero. -/
def sweep (diffbuf : Nat → Option buf_T) : List diff_T → List diff_T
  | [] => []
  | dp :: tl => if all_zero diffbuf dp then sweep diffbuf tl else dp :: sweep diffbuf tl

/-- The value of `inserted` that `diff_mark_adjust` derives from a notification (lines
179-196). -/
def inserted_of (line2 amount amount_after : Int) : Int :=
  if line2 = MAXLNUM then amount else if amount_after > 0 then amount_after else 0

/-- The value of `deleted` that `diff_mark_adjust` derives from a notification (lines
179-196). -/
def deleted_of (line2 amount_after : Int) : Int :=
  if line2 = MAXLNUM then 0 else if amount_after > 0 then 0 else - amount_after

/-- The function `diff_mark_adjust`, called for the buffer `curbuf`. -/
def diff_mark_adjust (H : Host) (S : DiffState) (curbuf : buf_T)
    (line1 line2 amount amount_after : Int) : DiffState :=
  let idx := diff_buf_idx S.diffbuf curbuf
  if idx = DB_COUNT then S
  else
    let r := adjust_walk H S.diffbuf S.diff_flags S.diff_busy idx line2 amount_after
      (inserted_of line2 amount amount_after) [] none line1 (deleted_of line2 amount_after)
      S.first_diff
    if r.2 then { S with first_diff := r.1 }
    else { S with first_diff := sweep S.diffbuf r.1 }

/-! ## The parser of the differ's output, `diff_read` -/

/-- Modelled from the spec: `isdigit` of the C library: a decimal digit. -/
def isdigit (c : Char) : Bool := decide ('0' ≤ c) && decide (c ≤ '9')

/-- Modelled from the spec: the loop of `getdigits` (not under `src/`), which reads the
decimal integer that starts a string: the number read so far and the text left. -/
def getdigits_from : Int → List Char → Int × List Char
  | acc, [] => (acc, [])
  | acc, c :: cs =>
    if isdigit c then getdigits_from (acc * 10 + ((c.toNat : Int) - 48)) cs
    else (acc, c :: cs)

/-- Modelled from the spec: `getdigits(&p)` (not under `src/`): the value of the decimal
integer at `p` (zero when there is no digit) and `p` moved past its digits. -/
def getdigits (p : List Char) : Int × List Char := getdigits_from 0 p

/-- The conversion of a `long` value to an `int` of 32 bits, as an assignment to an `int`
variable makes it (`count_orig` and `count_new` at lines 863 and 873, `diff_context_new`
at line 1315). -/
def int_of_long (v : Int) : Int := (v + 2147483648) % 4294967296 - 2147483648

/-- The four numbers that `diff_read` computes from one line of the differ. -/
structure Hunk where
  lnum_orig : Int
  count_orig : Int
  lnum_new : Int
  count_new : Int
deriving DecidableEq

/-- The part `F[,L]` of a line: `getdigits`, and a second `getdigits` after a comma
(lines 833-840 and 844-851). -/
def read_range (p : List Char) : Int × Int × List Char :=
  let f := getdigits p
  match f.2 with
  | [] => (f.1, f.1, [])
  | c :: q =>
    if c = ',' then
      let l := getdigits q
      (f.1, l.1, l.2)
    else (f.1, f.1, c :: q)

/-- Lines 824-874 of `diff_read`: the numbers of the line in `linebuf`, or `none` when
the loop `continue`s to the next line.  `f1`, `l1`, `f2`, `l2`, `lnum_orig` and
`lnum_new` are `long`; `count_orig` and `count_new` are `int` (line 813), so the values
`l1 - f1 + 1` and `l2 - f2 + 1` are converted when they are stored. -/
def parse_hunk (linebuf : List Char) : Option Hunk :=
  match linebuf with
  | [] => none
  | c :: _ =>
    if !isdigit c then none
    else
      let r1 := read_range linebuf
      match r1.2.2 with
      | [] => none
      | difftype :: p =>
        if difftype ≠ 'a' ∧ difftype ≠ 'c' ∧ difftype ≠ 'd' then none
        else
          let r2 := read_range p
          let f1 := r1.1
          let l1 := r1.2.1
          let f2 := r2.1
          let l2 := r2.2.1
          if l1 < f1 ∨ l2 < f2 then none
          else
            some
              { lnum_orig := if difftype = 'a' then f1 + 1 else f1
                count_orig := if difftype = 'a' then 0 else int_of_long (l1 - f1 + 1)
                lnum_new := if difftype = 'd' then f2 + 1 else f2
                count_new := if difftype = 'd' then 0 else int_of_long (l2 - f2 + 1) }

/-- The function `diff_copy_entry`. -/
def diff_copy_entry (dprev : Option diff_T) (dp : diff_T) (idx_orig idx_new : Nat) :
    diff_T :=
  let off : Int :=
    match dprev with
    | none => 0
    | some p =>
      (p.df_lnum idx_orig + p.df_count idx_orig) - (p.df_lnum idx_new + p.df_count idx_new)
  (dp.setLnum idx_new (dp.df_lnum idx_orig - off)).setCount idx_new (dp.df_count idx_orig)

/-- The cursors of `diff_read`: `done` is the list up to and including `dprev`, `rest`
the list from `dp` on, `notset` the flag of that name. -/
structure ReadState where
  done : List diff_T
  rest : List diff_T
  notset : Bool

/-- The loop "go over blocks before the change" (lines 877-885). -/
def skip_before (idx_orig idx_new : Nat) (lnum_orig : Int) :
    List diff_T → Bool → List diff_T → ReadState
  | done, notset, [] => ⟨done, [], notset⟩
  | done, notset, dp :: tl =>
    if lnum_orig > dp.df_lnum idx_orig + dp.df_count idx_orig then
      skip_before idx_orig idx_new lnum_orig
        (done ++ [if notset then diff_copy_entry done.getLast? dp idx_orig idx_new else dp])
        true tl
    else ⟨done, dp :: tl, notset⟩

/-- The loop that finds `dpl`, the last block that overlaps (lines 893-895): the number
of steps from `dp` to `dpl`; `tl` is the list after `dp`. -/
def last_overlap (idx_orig : Nat) (h : Hunk) : List diff_T → Nat
  | [] => 0
  | nx :: tl =>
    if h.lnum_orig + h.count_orig < nx.df_lnum idx_orig then 0
    else last_overlap idx_orig h tl + 1

/-- The block `*dpl` when `dpl` is `k` steps after `dp`; for `k = 0` it is `dp` itself,
as it is at that moment. -/
def dpl_block (dp : diff_T) (tl : List diff_T) (k : Nat) : diff_T :=
  match k with
  | 0 => dp
  | k + 1 => tl.getD k dp

/-- The new block overlaps with existing blocks (lines 891-943): the block `dp` after
the update; `tl` is the list after `dp`, `k` the steps from `dp` to `dpl`. -/
def merge_overlap (diffbuf : Nat → Option buf_T) (idx_orig idx_new : Nat) (h : Hunk)
    (notset : Bool) (dp : diff_T) (tl : List diff_T) (k : Nat) : diff_T :=
  let off := dp.df_lnum idx_orig - h.lnum_orig
  let dp : diff_T :=
    if off > 0 then
      ((for_slots idx_orig idx_new (participating diffbuf) (fun _ l c => (l - off, c))
        dp).setLnum idx_new h.lnum_new).setCount idx_new h.count_new
    else if notset then
      (dp.setLnum idx_new (h.lnum_new + off)).setCount idx_new (h.count_new - off)
    else dp.setCount idx_new (dp.df_count idx_new + (h.count_new - h.count_orig))
  let off :=
    (h.lnum_orig + h.count_orig)
      - ((dpl_block dp tl k).df_lnum idx_orig + (dpl_block dp tl k).df_count idx_orig)
  let dp : diff_T :=
    if off < 0 then
      if notset then dp.setCount idx_new (dp.df_count idx_new + (- off)) else dp
    else dp
  let off := if off < 0 then 0 else off
  for_slots idx_orig (idx_new + (if notset then 0 else 1)) (participating diffbuf)
    (fun i l c =>
      (l, (match k with
            | 0 => l + c
            | k + 1 => (tl.getD k dp).df_lnum i + (tl.getD k dp).df_count i) - l + off))
    dp

/-- The block that `diff_read` creates for a change that overlaps no block (lines
952-961); `g` is the block as `alloc` returned it. -/
def read_new_block (idx_orig idx_new : Nat) (h : Hunk) (dprev : Option diff_T)
    (g : diff_T) : diff_T :=
  (List.range' (idx_orig + 1) (idx_new - (idx_orig + 1))).foldl
    (fun d i => diff_copy_entry dprev d idx_orig i)
    ((((g.setLnum idx_orig h.lnum_orig).setCount idx_orig h.count_orig).setLnum idx_new
      h.lnum_new).setCount idx_new h.count_new)

/-- One round of the `for (;;)` loop of `diff_read` for the line in `linebuf`: the
cursors after the round, and whether the function returned (`diff_alloc_new` failed). -/
def read_line (H : Host) (diffbuf : Nat → Option buf_T) (idx_orig idx_new : Nat)
    (st : ReadState) (linebuf : List Char) : ReadState × Bool :=
  match parse_hunk linebuf with
  | none => (st, false)
  | some h =>
    let st := skip_before idx_orig idx_new h.lnum_orig st.done st.notset st.rest
    let alloc_new : ReadState × Bool :=
      match diff_alloc_new H with
      | none => (st, true)
      | some g =>
        (⟨st.done, read_new_block idx_orig idx_new h st.done.getLast? g :: st.rest, false⟩,
          false)
    match st.rest with
    | [] => alloc_new
    | dp :: tl =>
      if h.lnum_orig ≤ dp.df_lnum idx_orig + dp.df_count idx_orig
          ∧ h.lnum_orig + h.count_orig ≥ dp.df_lnum idx_orig then
        let k := last_overlap idx_orig h tl
        (⟨st.done,
          merge_overlap diffbuf idx_orig idx_new h st.notset dp tl k :: tl.drop k, false⟩,
          false)
      else alloc_new

/-- The `for (;;)` loop of `diff_read` over the lines that `tag_fgets` delivers. -/
def read_lines (H : Host) (diffbuf : Nat → Option buf_T) (idx_orig idx_new : Nat) :
    ReadState → List (List Char) → ReadState × Bool
  | st, [] => (st, false)
  | st, linebuf :: more =>
    let r := read_line H diffbuf idx_orig idx_new st linebuf
    if r.2 then r else read_lines H diffbuf idx_orig idx_new r.1 more

/-- The loop "for remaining diff blocks orig and new are equal" (lines 967-974): the
list at its end. -/
def copy_remaining (idx_orig idx_new : Nat) : List diff_T → Bool → List diff_T → List diff_T
  | done, _, [] => done
  | done, notset, dp :: tl =>
    copy_remaining idx_orig idx_new
      (done ++ [if notset then diff_copy_entry done.getLast? dp idx_orig idx_new else dp])
      true tl

/-- The function `diff_read`.  The file `fname` is given by the lines that `tag_fgets`
reads from it into `linebuf`, or `none` when `fopen` fails. -/
def diff_read (H : Host) (S : DiffState) (idx_orig idx_new : Nat)
    (file : Option (List (List Char))) : DiffState :=
  match file with
  | none => S
  | some lines =>
    let r := read_lines H S.diffbuf idx_orig idx_new ⟨[], S.first_diff, true⟩ lines
    if r.2 then { S with first_diff := r.1.done ++ r.1.rest }
    else
      { S with first_diff := copy_remaining idx_orig idx_new r.1.done r.1.notset r.1.rest }

/-! ## The rebuild driver `ex_diffupdate` -/

/-- The function `diff_clear`: every block is freed. -/
def diff_clear (S : DiffState) : DiffState := { S with first_diff := [] }

/-- The body of the loop of `ex_diffupdate` over `idx_new` (lines 559-594), with the
original buffer `orig` of slot `idx_orig` already written to its file. -/
def update_one (H : Host) (idx_orig : Nat) (orig : buf_T) (S : DiffState) (idx_new : Nat) :
    DiffState :=
  match S.diffbuf idx_new with
  | none => S
  | some buf =>
    if H.buf_write_ok buf then
      diff_read H S idx_orig idx_new
        (H.diff_output (decide (S.diff_flags &&& DIFF_IWHITE ≠ 0))
          (decide (S.diff_flags &&& DIFF_ICASE ≠ 0)) orig buf)
    else S

/-- The function `ex_diffupdate`. -/
def ex_diffupdate (H : Host) (S : DiffState) : DiffState :=
  let S0 := { diff_clear S with diff_invalid := false }
  if H.vim_tempname_ok 'o' && H.vim_tempname_ok 'n' && H.vim_tempname_ok 'd' then
    let idx_orig := find_idx (participating S0.diffbuf) DB_COUNT 0
    if idx_orig = DB_COUNT then S0
    else
      match S0.diffbuf idx_orig with
      | none => S0
      | some buf =>
        if H.buf_write_ok buf then
          (List.range' (idx_orig + 1) (DB_COUNT - (idx_orig + 1))).foldl
            (update_one H idx_orig buf) S0
        else S0
  else S0

/-! ## The query `diff_check` -/

/-- The function `diff_equal_entry`. -/
def diff_equal_entry (H : Host) (diffbuf : Nat → Option buf_T) (diff_flags : Nat)
    (dp : diff_T) (idx1 idx2 : Nat) : Bool :=
  if dp.df_count idx1 ≠ dp.df_count idx2 then false
  else
    (List.range (dp.df_count idx1).toNat).all (fun i =>
      H.strsave_ok (ml_get_slot H diffbuf idx1 (dp.df_lnum idx1 + (i : Int))) &&
        decide (diff_cmp H diff_flags (ml_get_slot H diffbuf idx1 (dp.df_lnum idx1 + (i : Int)))
          (ml_get_slot H diffbuf idx2 (dp.df_lnum idx2 + (i : Int))) = 0))

/-- The test `i != idx && diffbuf[i] != NULL && dp->df_count[i] != 0` of the two loops
of `diff_check` (lines 1069 and 1080). -/
def counterpart (diffbuf : Nat → Option buf_T) (dp : diff_T) (idx i : Nat) : Bool :=
  decide (i ≠ idx) && participating diffbuf i && decide (dp.df_count i ≠ 0)

/-- The part of `diff_check` for a line inside the block `dp` (lines 1062-1085): the
first loop returns -1 at a counterpart with another count and else sets `cmp` when
there is a counterpart; the second loop returns -1 at a counterpart whose lines are
not equal. -/
def check_inside (H : Host) (diffbuf : Nat → Option buf_T) (diff_flags : Nat)
    (dp : diff_T) (idx : Nat) : Int :=
  if find_idx (fun i => counterpart diffbuf dp idx i
      && decide (dp.df_count i ≠ dp.df_count idx)) DB_COUNT 0 ≠ DB_COUNT then -1
  else
    let cmp := decide (find_idx (counterpart diffbuf dp idx) DB_COUNT 0 ≠ DB_COUNT)
    if cmp then
      if find_idx (fun i => counterpart diffbuf dp idx i
          && !diff_equal_entry H diffbuf diff_flags dp idx i) DB_COUNT 0 ≠ DB_COUNT then -1
      else -2
    else -2

/-- The loop that computes `maxcount` in `diff_check` (lines 1093-1096). -/
def max_count (diffbuf : Nat → Option buf_T) (dp : diff_T) : Int :=
  (List.range DB_COUNT).foldl
    (fun maxcount i =>
      if participating diffbuf i && decide (dp.df_count i > maxcount) then dp.df_count i
      else maxcount)
    0

/-- The function `diff_check`: the statics as `ex_diffupdate` may have left them, and the
value returned. -/
def diff_check (H : Host) (S : DiffState) (wp : win_T) (lnum : Int) : DiffState × Int :=
  let S1 := if S.diff_invalid then ex_diffupdate H S else S
  (S1,
    if S1.first_diff.isEmpty || !wp.w_p_diff then 0
    else if lnum < 1 ∨ lnum > H.ml_line_count wp.w_buffer then 0
    else
      let idx := diff_buf_idx S1.diffbuf wp.w_buffer
      if idx = DB_COUNT then 0
      else if H.hasFoldingWin wp lnum then 0
      else
        match S1.first_diff.find? (fun dp => decide (lnum ≤ dp.df_lnum idx + dp.df_count idx)) with
        | none => 0
        | some dp =>
          if lnum < dp.df_lnum idx then 0
          else if lnum < dp.df_lnum idx + dp.df_count idx then
            check_inside H S1.diffbuf S1.diff_flags dp idx
          else if S1.diff_flags &&& DIFF_FILLER = 0 then 0
          else max_count S1.diffbuf dp - dp.df_count idx)

/-- The function `diff_check_fill`. -/
def diff_check_fill (H : Host) (S : DiffState) (wp : win_T) (lnum : Int) : DiffState × Int :=
  if S.diff_flags &&& DIFF_FILLER = 0 then (S, 0)
  else if (diff_check H S wp lnum).2 ≤ 0 then ((diff_check H S wp lnum).1, 0)
  else diff_check H S wp lnum

/-! ## The transfer `ex_diffgetput` -/

/-- The command of an Ex command line, as far as `ex_diffgetput` tells them apart. -/
inductive cmdidx_T where
  | CMD_diffget
  | CMD_diffput
deriving DecidableEq

/-- The arguments `exarg_T` of an Ex command, with the fields that `ex_diffgetput`
reads. -/
structure exarg_T where
  cmdidx : cmdidx_T
  arg : List Char
  line1 : Int
  line2 : Int
  addr_count : Int

/-- The editor around `diff.c` during a transfer: the statics, the current buffer and
the lines of every buffer. -/
structure Editor where
  diff : DiffState
  curbuf : buf_T
  lines : buf_T → List (List Char)

/-- Modelled from the spec: the buffer collaborator's line fetch `ml_get_buf` (not under
`src/`), with line 0 read as line 1 and a line past the end read as empty. -/
def ml_get (l : List (List Char)) (lnum : Int) : List Char :=
  l.getD (lnum.toNat - 1) []

/-- Modelled from the spec: the buffer collaborator's line delete `ml_delete` (not under
`src/`): line `lnum` is removed; nothing happens when `lnum` is not a line.  (That the
editor keeps an empty line when the last line of a buffer is deleted is not
modelled.) -/
def ml_delete (l : List (List Char)) (lnum : Int) : List (List Char) :=
  if 1 ≤ lnum ∧ lnum ≤ (l.length : Int) then l.eraseIdx (lnum.toNat - 1) else l

/-- Modelled from the spec: the buffer collaborator's line append `ml_append` (not under
`src/`): `line` is put after line `lnum` (0 is above the first line); nothing happens
when `lnum` is past the end. -/
def ml_append (l : List (List Char)) (lnum : Int) (line : List Char) : List (List Char) :=
  if 0 ≤ lnum ∧ lnum ≤ (l.length : Int) then l.take lnum.toNat ++ line :: l.drop lnum.toNat
  else l

/-- The host as it answers while the buffers hold `lines`. -/
def Host.on (H : Host) (lines : buf_T → List (List Char)) : Host :=
  { H with
    ml_get_buf := fun b lnum => ml_get (lines b) lnum
    ml_line_count := fun b => ((lines b).length : Int) }

/-- Modelled from the spec: `mark_adjust` (not under `src/`), as far as the block list
goes: the notification of an edit of the current buffer is handed to the edit tracker
`diff_mark_adjust`. -/
def mark_adjust (H : Host) (S : DiffState) (curbuf : buf_T)
    (line1 line2 amount amount_after : Int) : DiffState :=
  diff_mark_adjust H S curbuf line1 line2 amount amount_after

/-- Modelled from the spec: `atol` of the C library for a string whose digits come
first: the value of these digits (taken to fit in an `int`). -/
def atol (s : List Char) : Int := (getdigits s).1

/-- The test `diffbuf[i] != curbuf && diffbuf[i] != NULL` (lines 1505 and 1515). -/
def other_buf (diffbuf : Nat → Option buf_T) (curbuf : buf_T) (i : Nat) : Bool :=
  decide (diffbuf i ≠ some curbuf) && (diffbuf i).isSome

/-- The first part of `ex_diffgetput` after `idx_cur` was found (lines 1501-1549): the
slot `idx_other`, or `none` when the function returns there. -/
def getput_target (H : Host) (diffbuf : Nat → Option buf_T) (curbuf : buf_T)
    (arg : List Char) : Option Nat :=
  if arg = [] then
    let idx_other := find_idx (other_buf diffbuf curbuf) DB_COUNT 0
    if idx_other = DB_COUNT then none
    else if find_idx (other_buf diffbuf curbuf) (DB_COUNT - (idx_other + 1)) (idx_other + 1)
        ≠ DB_COUNT then none
    else some idx_other
  else
    let p := (arg.reverse.dropWhile vim_iswhite).length
    let i := ((arg.take p).takeWhile isdigit).length
    let nr : Option Int :=
      if i = p then some (atol arg)
      else if H.buflist_findpat (arg.take p) < 0 then none
      else some (H.buflist_findpat (arg.take p))
    match nr with
    | none => none
    | some n =>
      match H.buflist_findnr n with
      | none => none
      | some buf =>
        if diff_buf_idx diffbuf buf = DB_COUNT then none
        else some (diff_buf_idx diffbuf buf)

/-- The loop `for (i = 0; i < count; ++i) ml_delete(lnum, FALSE);` (lines 1585-1586). -/
def delete_lines (lnum : Int) : Nat → List (List Char) → List (List Char)
  | 0, l => l
  | n + 1, l => delete_lines lnum n (ml_delete l lnum)

/-- The loop that copies the lines of the block from the source buffer (lines
1587-1592), from round `i` on with `n` rounds to go; `dest` is the current buffer.
The result is `none` when `vim_strsave` gives `NULL`, which `ml_append` does not
expect. -/
def copy_lines (H : Host) (diffbuf : Nat → Option buf_T) (dp : diff_T) (idx_from : Nat)
    (dest : buf_T) (lnum : Int) :
    Nat → Nat → (buf_T → List (List Char)) → Option (buf_T → List (List Char))
  | 0, _, lines => some lines
  | n + 1, i, lines =>
    if H.strsave_ok (ml_get_slot (H.on lines) diffbuf idx_from (dp.df_lnum idx_from + (i : Int)))
    then
      copy_lines H diffbuf dp idx_from dest lnum n (i + 1)
        (fun b =>
          if b = dest then
            ml_append (lines dest) (lnum + (i : Int) - 1)
              (ml_get_slot (H.on lines) diffbuf idx_from (dp.df_lnum idx_from + (i : Int)))
          else lines b)
    else none

/-- The assignment `dp->df_count[idx_to] = dp->df_count[idx_from]` (line 1630) to the
block at position `k` of the list. -/
def set_count_at (k idx_to idx_from : Nat) (l : List diff_T) : List diff_T :=
  match l.drop k with
  | [] => l
  | dp :: next => l.take k ++ dp.setCount idx_to (dp.df_count idx_from) :: next

/-- The body of the `if` of the loop of `ex_diffgetput` (lines 1584-1634) for the block
`dp` at position `k` of the list, followed by `next`: the statics, the buffers, whether
the block was deleted (`dfree != NULL`) and `added`.  The result is `none` where
the C code has no defined behaviour: after a failed `vim_strsave`, or when
`diff_mark_adjust` has freed a block while `ex_diffgetput` holds pointers into the
list. -/
def transfer_block (H : Host) (idx_from idx_to : Nat) (dest : buf_T) (k : Nat)
    (dp : diff_T) (next : List diff_T) (S : DiffState) (lines : buf_T → List (List Char)) :
    Option (DiffState × (buf_T → List (List Char)) × Bool × Int) :=
  let lnum := dp.df_lnum idx_to
  let count := dp.df_count idx_to
  match copy_lines H S.diffbuf dp idx_from dest lnum (dp.df_count idx_from).toNat 0
      (fun b => if b = dest then delete_lines lnum count.toNat (lines dest) else lines b) with
  | none => none
  | some lines1 =>
    let added := dp.df_count idx_from - count
    let dfree := decide (find_idx
      (fun i => participating S.diffbuf i && decide (i ≠ idx_from) && decide (i ≠ idx_to)
        && !diff_equal_entry (H.on lines1) S.diffbuf S.diff_flags dp idx_from i)
      DB_COUNT 0 = DB_COUNT)
    let S1 := if dfree then { S with first_diff := S.first_diff.take k ++ next } else S
    let S2 :=
      if added ≠ 0 then mark_adjust (H.on lines1) S1 dest lnum (lnum + count) MAXLNUM added
      else S1
    if S2.first_diff.length ≠ S1.first_diff.length then none
    else if dfree then some (S2, lines1, true, added)
    else
      some ({ S2 with first_diff := set_count_at k idx_to idx_from S2.first_diff },
        lines1, false, added)

/-- The loop `for (dp = first_diff; dp != NULL; )` of `ex_diffgetput` (lines 1573-1643);
`dp` is the block at position `k` of the list.  Every round moves `dp` one block nearer
to the end of the list, so a fuel of the length of the list is enough. -/
def getput_loop (H : Host) (idx_cur idx_from idx_to : Nat) (dest : buf_T) (line1 line2 : Int) :
    Nat → Nat → Int → DiffState → (buf_T → List (List Char)) →
      Option (DiffState × (buf_T → List (List Char)))
  | 0, _, _, S, lines => some (S, lines)
  | fuel + 1, k, off, S, lines =>
    match S.first_diff.drop k with
    | [] => some (S, lines)
    | dp :: next =>
      if dp.df_lnum idx_cur > line2 + off then some (S, lines)
      else if dp.df_lnum idx_cur + dp.df_count idx_cur > line1 + off
          ∧ H.u_save_ok (dp.df_lnum idx_to - 1) (dp.df_lnum idx_to + dp.df_count idx_to) = true
      then
        match transfer_block H idx_from idx_to dest k dp next S lines with
        | none => none
        | some (S1, lines1, dfree, added) =>
          getput_loop H idx_cur idx_from idx_to dest line1 line2 fuel
            (if dfree then k else k + 1) (if idx_cur = idx_to then off + added else off)
            S1 lines1
      else getput_loop H idx_cur idx_from idx_to dest line1 line2 fuel (k + 1) off S lines

/-- The function `ex_diffgetput`; `none` where `transfer_block` is. -/
def ex_diffgetput (H : Host) (E : Editor) (eap : exarg_T) : Option Editor :=
  let idx_cur := diff_buf_idx E.diff.diffbuf E.curbuf
  if idx_cur = DB_COUNT then some E
  else
    match getput_target H E.diff.diffbuf E.curbuf eap.arg with
    | none => some E
    | some idx_other =>
      let line1 := if eap.addr_count = 0 ∧ eap.line1 > 1 then eap.line1 - 1 else eap.line1
      let get := decide (eap.cmdidx = cmdidx_T.CMD_diffget)
      let idx_from := if get then idx_other else idx_cur
      let idx_to := if get then idx_cur else idx_other
      match (if get then some E.curbuf else E.diff.diffbuf idx_other) with
      | none => none
      | some dest =>
        match getput_loop H idx_cur idx_from idx_to dest line1 eap.line2
            E.diff.first_diff.length 0 0 { E.diff with diff_busy := true } E.lines with
        | none => none
        | some (S, lines) =>
          some { E with diff := { S with diff_busy := false }, lines := lines }

/-! ## The list of buffers: `diff_buf_add` -/

/-- The function `diff_buf_add`. -/
def diff_buf_add (S : DiffState) (buf : buf_T) : DiffState :=
  if diff_buf_idx S.diffbuf buf ≠ DB_COUNT then S
  else
    let i := find_idx (fun i => (S.diffbuf i).isNone) DB_COUNT 0
    if i = DB_COUNT then S
    else
      { S with
        diffbuf := fun j => if j = i then some buf else S.diffbuf j
        diff_invalid := true }

/-! ## The fold query `diff_infold` -/

/-- The loop of `diff_infold` over the slots (lines 1436-1442): the values of `idx` and
`other` after it. -/
def infold_slots (diffbuf : Nat → Option buf_T) (buf : buf_T) : Int × Bool :=
  (List.range DB_COUNT).foldl
    (fun r i =>
      if diffbuf i = some buf then ((i : Int), r.2)
      else if (diffbuf i).isSome then (r.1, true)
      else r)
    (-1, false)

/-- The loop of `diff_infold` over the blocks (lines 1455-1464). -/
def infold_walk (idx : Nat) (diff_context lnum : Int) : List diff_T → Bool
  | [] => true
  | dp :: tl =>
    if dp.df_lnum idx - diff_context > lnum then true
    else if dp.df_lnum idx + dp.df_count idx + diff_context > lnum then false
    else infold_walk idx diff_context lnum tl

/-- The function `diff_infold`: the statics as `ex_diffupdate` may have left them, and the
value returned. -/
def diff_infold (H : Host) (S : DiffState) (wp : win_T) (lnum : Int) : DiffState × Bool :=
  if !wp.w_p_diff then (S, false)
  else if (infold_slots S.diffbuf wp.w_buffer).1 = -1
      ∨ (infold_slots S.diffbuf wp.w_buffer).2 = false then (S, false)
  else
    let S1 := if S.diff_invalid then ex_diffupdate H S else S
    if S1.first_diff.isEmpty then (S1, false)
    else
      (S1, infold_walk (infold_slots S.diffbuf wp.w_buffer).1.toNat S1.diff_context lnum
        S1.first_diff)

/-! ## The scroll binding `diff_set_topline` -/

/-- Lines 1252-1274 of `diff_set_topline`: the top line and the filler lines of `towin`
when the search stopped at the block `dp`; `idx` is the slot of the buffer of
`fromwin` and `i` that of the buffer of `towin`. -/
def topline_in_block (diff_flags : Nat) (fromwin towin : win_T) (dp : diff_T) (idx i : Nat) :
    win_T :=
  let lnum := fromwin.w_topline
  let tw := { towin with w_topline := lnum + (dp.df_lnum i - dp.df_lnum idx) }
  if lnum ≥ dp.df_lnum idx then
    -- Inside a change: compute filler lines.
    if dp.df_count i = dp.df_count idx then { tw with w_topfill := fromwin.w_topfill }
    else if dp.df_count i > dp.df_count idx then
      if lnum = dp.df_lnum idx + dp.df_count idx then
        { tw with w_topline := dp.df_lnum i + dp.df_count i - fromwin.w_topfill }
      else tw
    else if tw.w_topline ≥ dp.df_lnum i + dp.df_count i then
      { (if diff_flags &&& DIFF_FILLER ≠ 0 then
            { tw with w_topfill := dp.df_lnum idx + dp.df_count idx - lnum }
          else tw) with
        w_topline := dp.df_lnum i + dp.df_count i }
    else tw
  else tw

/-- The two safety checks of `diff_set_topline` (lines 1277-1287). -/
def clamp_topline (H : Host) (towin : win_T) : win_T :=
  let tw :=
    if towin.w_topline > H.ml_line_count towin.w_buffer then
      { towin with w_topline := H.ml_line_count towin.w_buffer, w_topfill := 0 }
    else towin
  if tw.w_topline < 1 then { tw with w_topline := 1, w_topfill := 0 } else tw

/-- The function `diff_set_topline` up to line 1287, before the call of `hasFoldingWin`:
the statics, the window `towin`, and whether line 1287 was reached (the function
did not return at a safety check for a slot). -/
def topline_before_fold (H : Host) (S : DiffState) (fromwin towin : win_T) :
    DiffState × win_T × Bool :=
  let idx := diff_buf_idx S.diffbuf fromwin.w_buffer
  if idx = DB_COUNT then (S, towin, false)
  else
    let S1 := if S.diff_invalid then ex_diffupdate H S else S
    let lnum := fromwin.w_topline
    let tw0 := { towin with w_topfill := 0 }
    match S1.first_diff.find? (fun dp => decide (lnum ≤ dp.df_lnum idx + dp.df_count idx)) with
    | none =>
      (S1,
        clamp_topline H
          { tw0 with
            w_topline := H.ml_line_count towin.w_buffer
              - (H.ml_line_count fromwin.w_buffer - lnum) },
        true)
    | some dp =>
      if diff_buf_idx S1.diffbuf towin.w_buffer = DB_COUNT then (S1, tw0, false)
      else
        (S1,
          clamp_topline H
            (topline_in_block S1.diff_flags fromwin tw0 dp idx
              (diff_buf_idx S1.diffbuf towin.w_buffer)),
          true)

/-- The function `diff_set_topline`: the statics and the window `towin`. -/
def diff_set_topline (H : Host) (S : DiffState) (fromwin towin : win_T) :
    DiffState × win_T :=
  let r := topline_before_fold H S fromwin towin
  if r.2.2 then
    (r.1,
      if H.hasFoldingWin r.2.1 r.2.1.w_topline then
        { r.2.1 with w_topline := H.fold_first r.2.1 r.2.1.w_topline }
      else r.2.1)
  else (r.1, r.2.1)

/-! ## The option `'diffopt'`: `diffopt_changed` -/

/-- The chain of `if`s at lines 1307-1326 of `diffopt_changed`: `p`, `diff_context_new`
and `diff_flags_new` after it. -/
def diffopt_word (p : List Char) (diff_context_new : Int) (diff_flags_new : Nat) :
    List Char × Int × Nat :=
  if p.take 6 = "filler".toList then (p.drop 6, diff_context_new, diff_flags_new ||| DIFF_FILLER)
  else if p.take 8 = "context:".toList ∧ isdigit (p.getD 8 NUL) = true then
    ((getdigits (p.drop 8)).2, int_of_long (getdigits (p.drop 8)).1, diff_flags_new)
  else if p.take 5 = "icase".toList then
    (p.drop 5, diff_context_new, diff_flags_new ||| DIFF_ICASE)
  else if p.take 6 = "iwhite".toList then
    (p.drop 6, diff_context_new, diff_flags_new ||| DIFF_IWHITE)
  else (p, diff_context_new, diff_flags_new)

/-- The loop `while (*p != NUL)` of `diffopt_changed` (lines 1305-1331): the values of
`diff_context_new` and `diff_flags_new` when the loop ends, or `none` when the
function returns `FAIL` at line 1328.  Every round that does not return moves `p`, so
a fuel of the length of the option is enough. -/
def diffopt_loop : Nat → List Char → Int → Nat → Option (Int × Nat)
  | 0, _, diff_context_new, diff_flags_new => some (diff_context_new, diff_flags_new)
  | fuel + 1, p, diff_context_new, diff_flags_new =>
    if p = [] then some (diff_context_new, diff_flags_new)
    else
      match (diffopt_word p diff_context_new diff_flags_new).1 with
      | [] =>
        some ((diffopt_word p diff_context_new diff_flags_new).2.1,
          (diffopt_word p diff_context_new diff_flags_new).2.2)
      | c :: q =>
        if c ≠ ',' then none
        else
          diffopt_loop fuel q (diffopt_word p diff_context_new diff_flags_new).2.1
            (diffopt_word p diff_context_new diff_flags_new).2.2

/-- The function `diffopt_changed` for the value `p_dip` of the option: the statics, and
whether `OK` was returned (`false` is `FAIL`). -/
def diffopt_changed (S : DiffState) (p_dip : List Char) : DiffState × Bool :=
  match diffopt_loop p_dip.length p_dip 6 0 with
  | none => (S, false)
  | some r =>
    ({ S with
        diff_invalid := if S.diff_flags ≠ r.2 then true else S.diff_invalid
        diff_flags := r.2
        diff_context := r.1 },
      true)

/-! ## The statements of the specification -/

/-- At least one unchanged line lies between the block `a` and the later block `b` in
every participating buffer `i`: `a.start[i] + a.count[i] < b.start[i]`. -/
def gap_before (diffbuf : Nat → Option buf_T) (a b : diff_T) : Prop :=
  ∀ i, i < DB_COUNT → participating diffbuf i = true →
    a.df_lnum i + a.df_count i < b.df_lnum i

instance (diffbuf : Nat → Option buf_T) (a b : diff_T) :
    Decidable (gap_before diffbuf a b) :=
  inferInstanceAs (Decidable (∀ i, i < DB_COUNT → participating diffbuf i = true →
    a.df_lnum i + a.df_count i < b.df_lnum i))

/-- The invariant "ordered with a gap": for consecutive blocks and every participating
buffer `i`, `blocks[k].start[i] + blocks[k].count[i] < blocks[k+1].start[i]`. -/
def ordered_with_gap (diffbuf : Nat → Option buf_T) : List diff_T → Prop
  | [] => True
  | [_] => True
  | a :: b :: tl => gap_before diffbuf a b ∧ ordered_with_gap diffbuf (b :: tl)

/-- The invariant `ordered_with_gap` can be computed. -/
def ordered_with_gap_dec (diffbuf : Nat → Option buf_T) :
    (l : List diff_T) → Decidable (ordered_with_gap diffbuf l)
  | [] => isTrue trivial
  | [_] => isTrue trivial
  | a :: b :: tl =>
    match inferInstanceAs (Decidable (gap_before diffbuf a b)),
      ordered_with_gap_dec diffbuf (b :: tl) with
    | isTrue h1, isTrue h2 => isTrue ⟨h1, h2⟩
    | isFalse h1, _ => isFalse (fun h => h1 h.1)
    | _, isFalse h2 => isFalse (fun h => h2 h.2)

instance (diffbuf : Nat → Option buf_T) (l : List diff_T) :
    Decidable (ordered_with_gap diffbuf l) := ordered_with_gap_dec diffbuf l

/-- Well-formed line numbers and counts: `start[i] >= 1` and `count[i] >= 0` for every
participating buffer `i` of every block. -/
def well_formed (diffbuf : Nat → Option buf_T) (l : List diff_T) : Prop :=
  ∀ b ∈ l, ∀ i, i < DB_COUNT → participating diffbuf i = true →
    1 ≤ b.df_lnum i ∧ 0 ≤ b.df_count i

instance (diffbuf : Nat → Option buf_T) (l : List diff_T) :
    Decidable (well_formed diffbuf l) :=
  inferInstanceAs (Decidable (∀ b ∈ l, ∀ i, i < DB_COUNT → participating diffbuf i = true →
    1 ≤ b.df_lnum i ∧ 0 ≤ b.df_count i))

/-- A block in which not every participating count is zero (invariant 3 of the data
model). -/
def some_count (diffbuf : Nat → Option buf_T) (b : diff_T) : Prop :=
  ∃ i, i < DB_COUNT ∧ participating diffbuf i = true ∧ b.df_count i ≠ 0

instance (diffbuf : Nat → Option buf_T) (b : diff_T) : Decidable (some_count diffbuf b) :=
  inferInstanceAs (Decidable
    (∃ i, i < DB_COUNT ∧ participating diffbuf i = true ∧ b.df_count i ≠ 0))

/-- The block `b` with `start[idx]` moved by `n`, everything else as it is. -/
def shifted (idx : Nat) (n : Int) (b : diff_T) : diff_T :=
  b.setLnum idx (b.df_lnum idx + n)

/-- The starts and counts of a block in the slots `0 .. DB_COUNT - 1`. -/
def diff_T.view (b : diff_T) : List Int × List Int :=
  ((List.range DB_COUNT).map b.df_lnum, (List.range DB_COUNT).map b.df_count)

/-- A decimal number as it is written: digits only, at least one. -/
def is_number (ds : List Char) : Prop := ds ≠ [] ∧ ∀ c ∈ ds, isdigit c = true

instance (ds : List Char) : Decidable (is_number ds) :=
  inferInstanceAs (Decidable (ds ≠ [] ∧ ∀ c ∈ ds, isdigit c = true))

/-- The value of a written decimal number, digit times power of ten. -/
def decimal : List Char → Int
  | [] => 0
  | c :: cs => ((c.toNat : Int) - 48) * 10 ^ cs.length + decimal cs

/-- A line of the differ in one of the three grammars of the spec,
`F1[,L1]cF2[,L2]`, `F1aF2[,L2]`, `F1[,L1]dF2`: the letter and the numbers as written. -/
structure HunkLine where
  kind : Char
  f1 : List Char
  l1 : Option (List Char)
  f2 : List Char
  l2 : Option (List Char)

/-- The text `F[,L]`. -/
def range_text (f : List Char) (l : Option (List Char)) : List Char :=
  match l with
  | none => f
  | some l => f ++ ',' :: l

/-- The text of a line of the differ. -/
def HunkLine.text (h : HunkLine) : List Char :=
  range_text h.f1 h.l1 ++ h.kind :: range_text h.f2 h.l2

/-- The number `L` of a range `F[,L]`; an omitted `L` is `F`. -/
def range_last (f : List Char) (l : Option (List Char)) : Int :=
  match l with
  | none => decimal f
  | some l => decimal l

def HunkLine.F1 (h : HunkLine) : Int := decimal h.f1

def HunkLine.L1 (h : HunkLine) : Int := range_last h.f1 h.l1

def HunkLine.F2 (h : HunkLine) : Int := decimal h.f2

def HunkLine.L2 (h : HunkLine) : Int := range_last h.f2 h.l2

/-- An optional number `,L` is a number when it is written. -/
def is_number_opt (l : Option (List Char)) : Prop :=
  match l with
  | none => True
  | some l => is_number l

instance (l : Option (List Char)) : Decidable (is_number_opt l) :=
  match l with
  | none => isTrue trivial
  | some l => inferInstanceAs (Decidable (is_number l))

/-- The line is in one of the three grammars, with `F <= L`. -/
def HunkLine.valid (h : HunkLine) : Prop :=
  (h.kind = 'c' ∨ (h.kind = 'a' ∧ h.l1 = none) ∨ (h.kind = 'd' ∧ h.l2 = none))
    ∧ is_number h.f1 ∧ is_number_opt h.l1
    ∧ is_number h.f2 ∧ is_number_opt h.l2
    ∧ h.F1 ≤ h.L1 ∧ h.F2 ≤ h.L2

instance (h : HunkLine) : Decidable h.valid :=
  inferInstanceAs (Decidable
    ((h.kind = 'c' ∨ (h.kind = 'a' ∧ h.l1 = none) ∨ (h.kind = 'd' ∧ h.l2 = none))
    ∧ is_number h.f1 ∧ is_number_opt h.l1
    ∧ is_number h.f2 ∧ is_number_opt h.l2
    ∧ h.F1 ≤ h.L1 ∧ h.F2 ≤ h.L2))

/-- The table of the spec: `(lnum_ref, count_ref, lnum_other, count_other)` for the
types `c`, `a` and `d`. -/
def HunkLine.table (h : HunkLine) : Hunk :=
  if h.kind = 'c' then ⟨h.F1, h.L1 - h.F1 + 1, h.F2, h.L2 - h.F2 + 1⟩
  else if h.kind = 'a' then ⟨h.F1 + 1, 0, h.F2, h.L2 - h.F2 + 1⟩
  else ⟨h.F1, h.L1 - h.F1 + 1, h.F2 + 1, 0⟩

/-- The counts of the table fit in an `int` of 32 bits: they are below 2^31. -/
def HunkLine.fits (h : HunkLine) : Prop :=
  h.table.count_orig < 2147483648 ∧ h.table.count_new < 2147483648

instance (h : HunkLine) : Decidable h.fits :=
  inferInstanceAs (Decidable
    (h.table.count_orig < 2147483648 ∧ h.table.count_new < 2147483648))

/-- The start and count of a block for the reference in slot 0 and the other buffer in
slot 1. -/
def diff_T.pair (b : diff_T) : Hunk :=
  ⟨b.df_lnum 0, b.df_count 0, b.df_lnum 1, b.df_count 1⟩

/-- The reference ranges of consecutive hunks are strictly separated: the `lnum_ref` of
a hunk is greater than `lnum_ref + count_ref` of the hunk before it. -/
def separated : List HunkLine → Prop
  | [] => True
  | [_] => True
  | a :: b :: tl =>
    a.table.lnum_orig + a.table.count_orig < b.table.lnum_orig ∧ separated (b :: tl)

/-- The lines of the block `dp` in the buffers of the slots `i` and `j` are pairwise
equal under `diff_cmp`: line `start[i] + k` and line `start[j] + k` for every offset
`k` below `count[i]`. -/
def lines_pairwise_equal (H : Host) (diffbuf : Nat → Option buf_T) (diff_flags : Nat)
    (dp : diff_T) (i j : Nat) : Prop :=
  ∀ k, k < (dp.df_count i).toNat →
    diff_cmp H diff_flags (ml_get_slot H diffbuf i (dp.df_lnum i + (k : Int)))
      (ml_get_slot H diffbuf j (dp.df_lnum j + (k : Int))) = 0

instance (H : Host) (diffbuf : Nat → Option buf_T) (diff_flags : Nat) (dp : diff_T)
    (i j : Nat) : Decidable (lines_pairwise_equal H diffbuf diff_flags dp i j) :=
  inferInstanceAs (Decidable (∀ k, k < (dp.df_count i).toNat →
    diff_cmp H diff_flags (ml_get_slot H diffbuf i (dp.df_lnum i + (k : Int)))
      (ml_get_slot H diffbuf j (dp.df_lnum j + (k : Int))) = 0))

/-- Some other participating buffer has, at the position mapped from line `lnum` of the
buffer of slot `idx` (the same offset `lnum - start[idx]` within the block `dp`), a
line that differs from it under `diff_cmp`. -/
def differs_at_mapped_position (H : Host) (diffbuf : Nat → Option buf_T) (diff_flags : Nat)
    (dp : diff_T) (idx : Nat) (lnum : Int) : Prop :=
  ∃ i, i < DB_COUNT ∧ (i ≠ idx ∧ participating diffbuf i = true
    ∧ lnum - dp.df_lnum idx < dp.df_count i
    ∧ diff_cmp H diff_flags (ml_get_slot H diffbuf idx lnum)
        (ml_get_slot H diffbuf i (dp.df_lnum i + (lnum - dp.df_lnum idx))) ≠ 0)

instance (H : Host) (diffbuf : Nat → Option buf_T) (diff_flags : Nat) (dp : diff_T)
    (idx : Nat) (lnum : Int) :
    Decidable (differs_at_mapped_position H diffbuf diff_flags dp idx lnum) :=
  inferInstanceAs (Decidable (∃ i, i < DB_COUNT ∧ (i ≠ idx ∧ participating diffbuf i = true
    ∧ lnum - dp.df_lnum idx < dp.df_count i
    ∧ diff_cmp H diff_flags (ml_get_slot H diffbuf idx lnum)
        (ml_get_slot H diffbuf i (dp.df_lnum i + (lnum - dp.df_lnum idx))) ≠ 0)))

/-- The slots that hold a buffer other than `curbuf`. -/
def other_slots (diffbuf : Nat → Option buf_T) (curbuf : buf_T) : List Nat :=
  (List.range DB_COUNT).filter (fun i => decide (diffbuf i ≠ none ∧ diffbuf i ≠ some curbuf))

/-- The list is ordered by `start[idx]`: for consecutive blocks
`blocks[k].start[idx] <= blocks[k+1].start[idx]`. -/
def starts_ordered (idx : Nat) : List diff_T → Prop
  | [] => True
  | [_] => True
  | a :: b :: tl => a.df_lnum idx ≤ b.df_lnum idx ∧ starts_ordered idx (b :: tl)

/-- The property `starts_ordered` can be computed. -/
def starts_ordered_dec (idx : Nat) : (l : List diff_T) → Decidable (starts_ordered idx l)
  | [] => isTrue trivial
  | [_] => isTrue trivial
  | a :: b :: tl =>
    match inferInstanceAs (Decidable (a.df_lnum idx ≤ b.df_lnum idx)),
      starts_ordered_dec idx (b :: tl) with
    | isTrue h1, isTrue h2 => isTrue ⟨h1, h2⟩
    | isFalse h1, _ => isFalse (fun h => h1 h.1)
    | _, isFalse h2 => isFalse (fun h => h2 h.2)

instance (idx : Nat) (l : List diff_T) : Decidable (starts_ordered idx l) :=
  starts_ordered_dec idx l

/-- Line `lnum` is at least `context` lines away from the edges of every block in the
buffer of slot `idx`: `lnum < start[idx] - context` or
`lnum >= start[idx] + count[idx] + context`. -/
def away_from_blocks (idx : Nat) (context lnum : Int) (l : List diff_T) : Prop :=
  ∀ b ∈ l, lnum < b.df_lnum idx - context ∨ lnum ≥ b.df_lnum idx + b.df_count idx + context

instance (idx : Nat) (context lnum : Int) (l : List diff_T) :
    Decidable (away_from_blocks idx context lnum l) :=
  inferInstanceAs (Decidable (∀ b ∈ l,
    lnum < b.df_lnum idx - context ∨ lnum ≥ b.df_lnum idx + b.df_count idx + context))

/-- The line with its letters folded to lower case, every maximal run of spaces and tabs
collapsed to one separator (a space) and trailing white space removed.  A white
character is dropped when another one follows it or the line ends after it. -/
def squeeze : List Char → List Char
  | [] => []
  | c :: cs =>
    if vim_iswhite c then
      match cs with
      | [] => []
      | d :: _ => if vim_iswhite d then squeeze cs else ' ' :: squeeze cs
    else TO_LOWER c :: squeeze cs

/-- The comma-separated tokens of the value of an option (the empty value has one
token, the empty one). -/
def split_commas : List Char → List (List Char)
  | [] => [[]]
  | c :: cs =>
    if c = ',' then [] :: split_commas cs
    else
      match split_commas cs with
      | [] => [[c]]
      | t :: ts => (c :: t) :: ts

/-- The token is `context:<digits>`. -/
def context_token (t : List Char) : Prop :=
  t.take 8 = "context:".toList ∧ is_number (t.drop 8)

instance (t : List Char) : Decidable (context_token t) :=
  inferInstanceAs (Decidable (t.take 8 = "context:".toList ∧ is_number (t.drop 8)))

/-- The token is one of the recognized tokens `filler`, `icase`, `iwhite`,
`context:<digits>`. -/
def recognized (t : List Char) : Prop :=
  t = "filler".toList ∨ t = "icase".toList ∨ t = "iwhite".toList ∨ context_token t

instance (t : List Char) : Decidable (recognized t) :=
  inferInstanceAs (Decidable
    (t = "filler".toList ∨ t = "icase".toList ∨ t = "iwhite".toList ∨ context_token t))

/-- The number of the last `context:` token, or 6 when there is none. -/
def last_context (ts : List (List Char)) : Int :=
  ts.foldl (fun c t => if t.take 8 = "context:".toList then decimal (t.drop 8) else c) 6

/-- The meaning of one token for the pair `(context, flags)`: an empty token changes
nothing, a recognized token sets its flag or the context, any other token is an
error. -/
def token_step (t : List Char) (r : Int × Nat) : Option (Int × Nat) :=
  if t = [] then some r
  else if t = "filler".toList then some (r.1, r.2 ||| DIFF_FILLER)
  else if context_token t then some (int_of_long (decimal (t.drop 8)), r.2)
  else if t = "icase".toList then some (r.1, r.2 ||| DIFF_ICASE)
  else if t = "iwhite".toList then some (r.1, r.2 ||| DIFF_IWHITE)
  else none

/-- The meaning of a list of tokens, from left to right. -/
def tokens_fold : List (List Char) → Int × Nat → Option (Int × Nat)
  | [], r => some r
  | t :: ts, r =>
    match token_step t r with
    | none => none
    | some r1 => tokens_fold ts r1

/-- Line `lnum` lies in the padded range
`[start[idx] - context, start[idx] + count[idx] + context)` of the block `b`. -/
def in_padded_range (idx : Nat) (context lnum : Int) (b : diff_T) : Prop :=
  b.df_lnum idx - context ≤ lnum ∧ lnum < b.df_lnum idx + b.df_count idx + context

instance (idx : Nat) (context lnum : Int) (b : diff_T) :
    Decidable (in_padded_range idx context lnum b) :=
  inferInstanceAs (Decidable
    (b.df_lnum idx - context ≤ lnum ∧ lnum < b.df_lnum idx + b.df_count idx + context))

/-- Digits only, possibly none. -/
def all_digits (ds : List Char) : Prop := ∀ c ∈ ds, isdigit c = true

instance (ds : List Char) : Decidable (all_digits ds) :=
  inferInstanceAs (Decidable (∀ c ∈ ds, isdigit c = true))

/-- An optional number `,L` has digits only when it is written. -/
def all_digits_opt (l : Option (List Char)) : Prop :=
  match l with
  | none => True
  | some l => all_digits l

instance (l : Option (List Char)) : Decidable (all_digits_opt l) :=
  match l with
  | none => isTrue trivial
  | some l => inferInstanceAs (Decidable (all_digits l))

/-- The text begins with a decimal digit. -/
def begins_digit (s : List Char) : Bool :=
  match s with
  | [] => false
  | c :: _ => isdigit c

/-- The text begins with a comma. -/
def begins_comma (s : List Char) : Bool :=
  match s with
  | [] => false
  | c :: _ => decide (c = ',')

/-- The text begins with one of the letters `a`, `c`, `d`. -/
def begins_kind (s : List Char) : Bool :=
  match s with
  | [] => false
  | c :: _ => decide (c = 'a' ∨ c = 'c' ∨ c = 'd')

/-- The three classes of lines that the amended claim C6 names, by how the line is
written:

* the line does not begin with a decimal digit;
* the line is `F1[,L1]` followed by text that does not begin with `a`, `c` or `d`;
* the line is `F1[,L1]`, one of the letters, `F2[,L2]` and any text, with `L1 < F1` or
  `L2 < F2` (an omitted `L` is the `F` before it, a number without digits is 0).

The numbers are maximal: the text after a number does not begin with a digit, and the
text after a range without `,L` does not begin with a comma. -/
def rejected_line (line : List Char) : Prop :=
  begins_digit line = false
    ∨ (∃ f1 l1 rest, line = range_text f1 l1 ++ rest ∧ is_number f1 ∧ all_digits_opt l1
        ∧ begins_digit rest = false ∧ (l1 = none → begins_comma rest = false)
        ∧ begins_kind rest = false)
    ∨ (∃ f1 l1 k f2 l2 rest, line = range_text f1 l1 ++ k :: (range_text f2 l2 ++ rest)
        ∧ is_number f1 ∧ all_digits_opt l1 ∧ (k = 'a' ∨ k = 'c' ∨ k = 'd')
        ∧ all_digits f2 ∧ all_digits_opt l2
        ∧ begins_digit rest = false ∧ (l2 = none → begins_comma rest = false)
        ∧ (range_last f1 l1 < decimal f1 ∨ range_last f2 l2 < decimal f2))

/-! ## Concrete buffers and lists -/

/-- A block given by its starts and its counts in the slots 0, 1, ... -/
def block_of (lnum count : List Int) : diff_T :=
  ⟨fun i => lnum.getD i 0, fun i => count.getD i 0⟩

/-- The first `n` slots hold the buffers `0 .. n - 1`, the other slots are empty. -/
def slots (n : Nat) : Nat → Option buf_T := fun i => if i < n then some i else none

/-- A host over the given buffers (buffer `b` is the `b`-th list of lines and has the
number `b`) in which allocation, undo saves and file writes succeed, every character is
one byte wide, no fold is closed and the diff output cannot be opened. -/
def host_of (bufs : List (List (List Char))) : Host where
  alloc := some (block_of [] [])
  strsave_ok := fun _ => true
  ml_get_buf := fun b lnum => (bufs.getD b []).getD (lnum.toNat - 1) []
  mb_ptr2len_check := fun _ => 1
  ml_line_count := fun b => ((bufs.getD b []).length : Int)
  hasFoldingWin := fun _ _ => false
  fold_first := fun _ lnum => lnum
  vim_tempname_ok := fun _ => true
  buf_write_ok := fun _ => true
  diff_output := fun _ _ _ _ => none
  u_save_ok := fun _ _ => true
  buflist_findpat := fun _ => -1
  buflist_findnr := fun n => if 0 ≤ n ∧ n < (bufs.length : Int) then some n.toNat else none

/-- The state with `n` buffers in diff mode and the block list `l`. -/
def state_of (n : Nat) (l : List diff_T) (busy : Bool) : DiffState where
  first_diff := l
  diffbuf := slots n
  diff_invalid := false
  diff_busy := busy
  diff_context := 6
  diff_flags := DIFF_FILLER

/-- A list of three blocks over two buffers, ordered with gaps of two unchanged lines;
the second block is one line that only the first buffer has. -/
def three_blocks : List diff_T :=
  [block_of [2, 2] [1, 1], block_of [5, 5] [1, 0], block_of [8, 7] [1, 1]]

/-- The lines of a buffer, given as strings. -/
def lines_of (l : List String) : List (List Char) := l.map String.toList

/-- A window in diff mode on the buffer `b`. -/
def win_of (b : buf_T) : win_T := ⟨b, true, 1, 0⟩

/-- The editor with `n` buffers in diff mode that hold `bufs`, the block list `l` and the
current buffer `cur`. -/
def editor_of (bufs : List (List (List Char))) (n : Nat) (l : List diff_T) (cur : buf_T) :
    Editor :=
  ⟨state_of n l false, cur, fun b => bufs.getD b []⟩

/-- The three-way example: A = `x`; B = `x`, `p`; C = `x`, `p`, `q`. -/
def three_way : List (List (List Char)) :=
  [lines_of ["x"], lines_of ["x", "p"], lines_of ["x", "p", "q"]]

/-- The block list of the three-way example. -/
def three_way_blocks : List diff_T := [block_of [2, 2, 2] [0, 1, 2]]

/-- Two buffers whose blocks are one unchanged line apart:
A = `a1`, `X`, `g`, `Y`, `a5` and B = `a1`, `P`, `Q`, `g`, `Z`, `a5`. -/
def near_blocks_bufs : List (List (List Char)) :=
  [lines_of ["a1", "X", "g", "Y", "a5"], lines_of ["a1", "P", "Q", "g", "Z", "a5"]]

/-- The block list of `near_blocks_bufs`. -/
def near_blocks : List diff_T := [block_of [2, 2] [1, 2], block_of [4, 5] [1, 1]]

/-- Scenario 1 of the specification: A = `x`, `y`, `z` and B = `x`, `Y`, `z`. -/
def changed_line_bufs : List (List (List Char)) :=
  [lines_of ["x", "y", "z"], lines_of ["x", "Y", "z"]]

/-- Scenario 2 of the specification: A = `a`, `b` and B = `a`, `INS`, `b`. -/
def inserted_line_bufs : List (List (List Char)) :=
  [lines_of ["a", "b"], lines_of ["a", "INS", "b"]]

/-- The state of `state_of` with no flag set. -/
def no_flags (S : DiffState) : DiffState := { S with diff_flags := 0 }

/-- Two buffers that differ in their middle line only: A = `a`, `x`, `c` and
B = `a`, `y`, `c`. -/
def edge_bufs : List (List (List Char)) :=
  [lines_of ["a", "x", "c"], lines_of ["a", "y", "c"]]

/-- The block of the lines 1 to 3 of `edge_bufs` after `diff_check_unchanged`. -/
def edge_block : diff_T :=
  diff_check_unchanged (host_of edge_bufs) (slots 2) DIFF_FILLER (block_of [1, 1] [3, 3])

/-- A list of three blocks over two buffers; the second block has four lines in the
first buffer. -/
def inside_blocks : List diff_T :=
  [block_of [3, 3] [2, 0], block_of [10, 8] [4, 1], block_of [20, 18] [1, 1]]

/-- Three buffers that differ in one place: A = `a1`, `X`, `a3`,
B = `a1`, `P`, `Q`, `R`, `a3` and C = `a1`, `U`, `V`, `a3`. -/
def retained_bufs : List (List (List Char)) :=
  [lines_of ["a1", "X", "a3"], lines_of ["a1", "P", "Q", "R", "a3"],
    lines_of ["a1", "U", "V", "a3"]]

/-- The block list of `retained_bufs`. -/
def retained_blocks : List diff_T := [block_of [2, 2, 2] [1, 3, 2]]

/-- Three buffers that differ in one line: A = `a1`, `X`, `a3`, B = `a1`, `P`, `a3` and
C = `a1`, `U`, `a3`. -/
def same_size_bufs : List (List (List Char)) :=
  [lines_of ["a1", "X", "a3"], lines_of ["a1", "P", "a3"], lines_of ["a1", "U", "a3"]]

/-- Three buffers of seven lines: B differs from A in the lines 4 to 6, C differs from A
in the lines 2 and 3. -/
def overlap_bufs : List (List (List Char)) :=
  [lines_of ["a1", "a2", "a3", "a4", "a5", "a6", "a7"],
    lines_of ["a1", "a2", "a3", "b4", "b5", "b6", "a7"],
    lines_of ["a1", "c2", "c3", "a4", "a5", "a6", "a7"]]

/-- The output of `diff` for the buffers A and B of `overlap_bufs`. -/
def overlap_diff_AB : List (List Char) :=
  lines_of ["4,6c4,6", "< a4", "< a5", "< a6", "---", "> b4", "> b5", "> b6"]

/-- The output of `diff` for the buffers A and C of `overlap_bufs`. -/
def overlap_diff_AC : List (List Char) :=
  lines_of ["2,3c2,3", "< a2", "< a3", "---", "> c2", "> c3"]

/-- A host over `overlap_bufs` whose diff command gives these outputs. -/
def overlap_host : Host :=
  { host_of overlap_bufs with
    diff_output := fun _ _ _ buf =>
      if buf = 1 then some overlap_diff_AB
      else if buf = 2 then some overlap_diff_AC else none }

/-! ## Lemmas on the loops -/


theorem find_idx_le (p : Nat → Bool) (n i : Nat) : find_idx p n i ≤ i + n := by
  induction n generalizing i with
  | zero => simp [find_idx]
  | succ n ih =>
    simp only [find_idx]
    split
    · omega
    · have := ih (i + 1); omega

theorem find_idx_ge (p : Nat → Bool) (n i : Nat) : i ≤ find_idx p n i := by
  induction n generalizing i with
  | zero => simp [find_idx]
  | succ n ih =>
    simp only [find_idx]
    split
    · omega
    · have := ih (i + 1); omega

theorem find_idx_eq_end (p : Nat → Bool) (n i : Nat) :
    find_idx p n i = i + n ↔ ∀ j, i ≤ j → j < i + n → p j = false := by
  induction n generalizing i with
  | zero => simp [find_idx]; intro j h1 h2; omega
  | succ n ih =>
    simp only [find_idx]
    by_cases hp : p i
    · simp only [hp, if_true]
      constructor
      · intro h; omega
      · intro h; have := h i (le_refl _) (by omega); simp [hp] at this
    · simp only [hp]
      have e : i + (n + 1) = i + 1 + n := by omega
      rw [e, if_neg (by simp), ih (i + 1)]
      constructor
      · intro h j h1 h2
        by_cases hj : j = i
        · subst hj; simpa using hp
        · exact h j (by omega) h2
      · intro h j h1 h2
        exact h j (by omega) h2

theorem find_idx_found (p : Nat → Bool) (n i : Nat) (h : find_idx p n i ≠ i + n) :
    p (find_idx p n i) = true ∧ find_idx p n i < i + n := by
  induction n generalizing i with
  | zero => simp [find_idx] at h
  | succ n ih =>
    simp only [find_idx] at h ⊢
    by_cases hp : p i
    · simp only [hp, if_true]; exact ⟨trivial, by omega⟩
    · simp only [hp] at h ⊢
      rw [if_neg (by simp)] at h ⊢
      have := ih (i + 1) (by omega)
      exact ⟨this.1, by omega⟩

theorem for_slots_lnum (lo hi : Nat) (c : Nat → Bool) (f : Nat → Int → Int → Int × Int)
    (d : diff_T) (j : Nat) :
    (for_slots lo hi c f d).df_lnum j =
      if lo ≤ j ∧ j < hi ∧ c j = true then (f j (d.df_lnum j) (d.df_count j)).1
      else d.df_lnum j := by
  unfold for_slots
  generalize hn : hi - lo = n
  induction n generalizing lo d with
  | zero =>
    simp only [List.range', List.foldl]
    rw [if_neg]; omega
  | succ n ih =>
    simp only [List.range', List.foldl]
    rw [ih (lo + 1) _ (by omega)]
    by_cases hj : j = lo
    · subst hj
      have h1 : ¬ (j + 1 ≤ j ∧ j < hi ∧ c j = true) := by omega
      rw [if_neg h1]
      by_cases hc : c j = true
      · simp [hc, diff_T.setLnum, diff_T.setCount]; omega
      · simp [hc]
    · by_cases hc : c lo = true
      · simp only [hc, if_true, diff_T.setLnum, diff_T.setCount, if_neg hj]
        have : (lo + 1 ≤ j ∧ j < hi ∧ c j = true) ↔ (lo ≤ j ∧ j < hi ∧ c j = true) := by
          constructor
          · rintro ⟨a, b, c⟩; exact ⟨by omega, b, c⟩
          · rintro ⟨a, b, c⟩; exact ⟨by omega, b, c⟩
        simp only [this]
      · have : (lo + 1 ≤ j ∧ j < hi ∧ c j = true) ↔ (lo ≤ j ∧ j < hi ∧ c j = true) := by
          constructor
          · rintro ⟨a, b, c⟩; exact ⟨by omega, b, c⟩
          · rintro ⟨a, b, c⟩; exact ⟨by omega, b, c⟩
        simp only [hc, this]
        simp

theorem for_slots_count (lo hi : Nat) (c : Nat → Bool) (f : Nat → Int → Int → Int × Int)
    (d : diff_T) (j : Nat) :
    (for_slots lo hi c f d).df_count j =
      if lo ≤ j ∧ j < hi ∧ c j = true then (f j (d.df_lnum j) (d.df_count j)).2
      else d.df_count j := by
  unfold for_slots
  generalize hn : hi - lo = n
  induction n generalizing lo d with
  | zero =>
    simp only [List.range', List.foldl]
    rw [if_neg]; omega
  | succ n ih =>
    simp only [List.range', List.foldl]
    rw [ih (lo + 1) _ (by omega)]
    have key : j ≠ lo → ((lo + 1 ≤ j ∧ j < hi ∧ c j = true) ↔ (lo ≤ j ∧ j < hi ∧ c j = true)) := by
      intro hj
      constructor
      · rintro ⟨a, b, c⟩; exact ⟨by omega, b, c⟩
      · rintro ⟨a, b, c⟩; exact ⟨by omega, b, c⟩
    by_cases hj : j = lo
    · subst hj
      have h1 : ¬ (j + 1 ≤ j ∧ j < hi ∧ c j = true) := by omega
      rw [if_neg h1]
      by_cases hc : c j = true
      · simp [hc, diff_T.setLnum, diff_T.setCount]; omega
      · simp [hc]
    · by_cases hc : c lo = true
      · simp only [hc, if_true, diff_T.setLnum, diff_T.setCount, if_neg hj, key hj]
      · simp only [hc, key hj]
        simp

theorem all_zero_iff (diffbuf : Nat → Option buf_T) (dp : diff_T) :
    all_zero diffbuf dp = true ↔
      ∀ i, i < DB_COUNT → participating diffbuf i = true → dp.df_count i = 0 := by
  unfold all_zero
  rw [beq_iff_eq]
  have := find_idx_eq_end (fun i => participating diffbuf i && decide (dp.df_count i ≠ 0)) DB_COUNT 0
  simp only [Nat.zero_add] at this
  rw [this]
  constructor
  · intro h i hi hp
    have := h i (Nat.zero_le _) hi
    simpa [hp] using this
  · intro h j _ hj
    by_cases hp : participating diffbuf j = true
    · simp [hp, h j hj hp]
    · simp [hp]

theorem mem_sweep (diffbuf : Nat → Option buf_T) (l : List diff_T) (b : diff_T) :
    b ∈ sweep diffbuf l → b ∈ l ∧ all_zero diffbuf b = false := by
  induction l with
  | nil => simp [sweep]
  | cons dp tl ih =>
    simp only [sweep]
    split
    · intro h; exact ⟨List.mem_cons_of_mem _ (ih h).1, (ih h).2⟩
    · rename_i hz
      intro h
      rcases List.mem_cons.1 h with h | h
      · subst h; exact ⟨List.mem_cons_self _ _, by simpa using hz⟩
      · exact ⟨List.mem_cons_of_mem _ (ih h).1, (ih h).2⟩

theorem sweep_length_le (diffbuf : Nat → Option buf_T) (l : List diff_T) :
    (sweep diffbuf l).length ≤ l.length := by
  induction l with
  | nil => simp [sweep]
  | cons dp tl ih =>
    simp only [sweep]
    split
    · simp; omega
    · simp; omega


theorem adjust_walk_returned (H : Host) (diffbuf : Nat → Option buf_T) (diff_flags : Nat)
    (diff_busy : Bool) (idx : Nat) (line2 amount_after inserted : Int)
    (done : List diff_T) (dprev : Option diff_T) (line1 deleted : Int) (rest : List diff_T)
    (h : (adjust_walk H diffbuf diff_flags diff_busy idx line2 amount_after inserted
      done dprev line1 deleted rest).2 = true) : H.alloc = none ∧ diff_busy = false := by
  have hcreate : ∀ dprev line1 deleted dp,
      create_block H diffbuf diff_busy idx line2 inserted dprev line1 deleted dp = none →
        H.alloc = none ∧ diff_busy = false := by
    intro dprev line1 deleted dp hc
    unfold create_block at hc
    split at hc
    · rename_i hcond
      split at hc
      · rename_i ha
        simp only [Bool.and_eq_true, Bool.not_eq_eq_eq_not, Bool.not_true] at hcond
        exact ⟨ha, hcond.2⟩
      · simp at hc
    · simp at hc
  induction rest generalizing done dprev line1 deleted with
  | nil =>
    unfold adjust_walk at h
    split at h
    · rename_i hc; exact hcreate _ _ _ _ hc
    · simp at h
  | cons dp tl ih =>
    unfold adjust_walk at h
    split at h
    · rename_i hc; exact hcreate _ _ _ _ hc
    · split at h
      · simp at h
      · exact ih _ _ _ _ h

theorem diff_cmp_loop_host (H H' : Host) (hm : H'.mb_ptr2len_check = H.mb_ptr2len_check)
    (fuel : Nat) (p1 p2 : List Char) : diff_cmp_loop H' fuel p1 p2 = diff_cmp_loop H fuel p1 p2 := by
  induction fuel generalizing p1 p2 with
  | zero => simp [diff_cmp_loop]
  | succ n ih =>
    cases p1 with
    | nil => simp [diff_cmp_loop]
    | cons c1 r1 =>
      cases p2 with
      | nil => simp [diff_cmp_loop]
      | cons c2 r2 => simp only [diff_cmp_loop, hm, ih]

theorem diff_cmp_host (H H' : Host) (hm : H'.mb_ptr2len_check = H.mb_ptr2len_check)
    (fl : Nat) (s1 s2 : List Char) : diff_cmp H' fl s1 s2 = diff_cmp H fl s1 s2 := by
  simp only [diff_cmp, diff_cmp_loop_host H H' hm]

theorem ml_get_slot_host (H H' : Host) (hg : H'.ml_get_buf = H.ml_get_buf)
    (diffbuf : Nat → Option buf_T) (i : Nat) (lnum : Int) :
    ml_get_slot H' diffbuf i lnum = ml_get_slot H diffbuf i lnum := by
  simp only [ml_get_slot, hg]

theorem trim_loop_host (H H' : Host) (hs : H'.strsave_ok = H.strsave_ok)
    (hg : H'.ml_get_buf = H.ml_get_buf) (hm : H'.mb_ptr2len_check = H.mb_ptr2len_check)
    (diffbuf : Nat → Option buf_T) (fl i_org : Nat) (bw : Bool) (fuel : Nat) (dp : diff_T) :
    trim_loop H' diffbuf fl i_org bw fuel dp = trim_loop H diffbuf fl i_org bw fuel dp := by
  have e1 : ∀ i l, ml_get_slot H' diffbuf i l = ml_get_slot H diffbuf i l :=
    fun i l => ml_get_slot_host H H' hg diffbuf i l
  have e2 : ∀ a b, diff_cmp H' fl a b = diff_cmp H fl a b :=
    fun a b => diff_cmp_host H H' hm fl a b
  induction fuel generalizing dp with
  | zero => simp [trim_loop]
  | succ n ih => simp only [trim_loop, first_mismatch, hs, ih, e1, e2]

theorem diff_check_unchanged_host (H H' : Host) (hs : H'.strsave_ok = H.strsave_ok)
    (hg : H'.ml_get_buf = H.ml_get_buf) (hm : H'.mb_ptr2len_check = H.mb_ptr2len_check)
    (diffbuf : Nat → Option buf_T) (fl : Nat) (dp : diff_T) :
    diff_check_unchanged H' diffbuf fl dp = diff_check_unchanged H diffbuf fl dp := by
  simp only [diff_check_unchanged, trim_loop_host H H' hs hg hm]
/-! ## The fuel of the loops is enough -/

theorem skipwhite_length_le (l : List Char) : (skipwhite l).length ≤ l.length := by
  induction l with
  | nil => simp [skipwhite]
  | cons c cs ih =>
    simp only [skipwhite]
    split
    · simp; omega
    · simp

/-- The fuel of `diff_cmp_loop` is enough: with at least the length of `p1` the result
does not depend on it. -/
theorem diff_cmp_loop_fuel (H : Host) (fuel : Nat) :
    ∀ (p1 p2 : List Char) (k : Nat), p1.length ≤ fuel →
      diff_cmp_loop H (fuel + k) p1 p2 = diff_cmp_loop H fuel p1 p2 := by
  induction fuel with
  | zero =>
    intro p1 p2 k h
    have : p1 = [] := List.length_eq_zero.1 (Nat.le_zero.1 h)
    subst this
    cases k <;> simp [diff_cmp_loop]
  | succ n ih =>
    intro p1 p2 k h
    have e : n + 1 + k = (n + k) + 1 := by omega
    rw [e]
    cases p1 with
    | nil => simp [diff_cmp_loop]
    | cons c1 r1 =>
      cases p2 with
      | nil => simp [diff_cmp_loop]
      | cons c2 r2 =>
        have hr1 : r1.length ≤ n := by simpa using h
        simp only [diff_cmp_loop]
        split
        · rename_i hw
          apply ih
          have hc1 : vim_iswhite c1 = true := by
            simp only [Bool.and_eq_true] at hw; exact hw.1
          have := skipwhite_length_le r1
          simp only [skipwhite, hc1, if_true]
          omega
        · split
          · rfl
          · split
            · split
              · rfl
              · apply ih
                rename_i hl _
                simp only [List.length_drop, List.length_cons]
                omega
            · split
              · rfl
              · exact ih _ _ _ hr1

theorem remove_line_count (diffbuf : Nat → Option buf_T) (i_org : Nat) (bw : Bool)
    (dp : diff_T) (hi : i_org < DB_COUNT) (hp : participating diffbuf i_org = true) :
    (remove_line diffbuf i_org bw dp).df_count i_org = dp.df_count i_org - 1 := by
  unfold remove_line
  rw [for_slots_count, if_pos ⟨le_refl _, hi, hp⟩]

/-- The fuel of `trim_loop` is enough: with at least `df_count[i_org]` the result does
not depend on it. -/
theorem trim_loop_fuel (H : Host) (diffbuf : Nat → Option buf_T) (fl i_org : Nat)
    (bw : Bool) (hi : i_org < DB_COUNT) (hp : participating diffbuf i_org = true)
    (fuel : Nat) :
    ∀ (dp : diff_T) (k : Nat), dp.df_count i_org ≤ fuel →
      trim_loop H diffbuf fl i_org bw (fuel + k) dp = trim_loop H diffbuf fl i_org bw fuel dp := by
  induction fuel with
  | zero =>
    intro dp k h
    cases k with
    | zero => rfl
    | succ k =>
      simp only [Nat.zero_add, trim_loop]
      rw [if_neg]
      simp at h ⊢
      exact h
  | succ n ih =>
    intro dp k h
    have e : n + 1 + k = (n + k) + 1 := by omega
    rw [e]
    simp only [trim_loop]
    split
    · split
      · split
        · rfl
        · apply ih
          rw [remove_line_count diffbuf i_org bw dp hi hp]
          push_cast at h
          omega
      · rfl
    · rfl

/-! ## The parser: numbers and hunks -/

/-- A value that an `int` can hold is stored as it is. -/
theorem int_of_long_fits (v : Int) (h0 : 0 ≤ v) (h1 : v < 2147483648) : int_of_long v = v := by
  unfold int_of_long
  omega

theorem getdigits_from_number (ds rest : List Char) (acc : Int)
    (hd : ∀ c ∈ ds, isdigit c = true)
    (hr : ∀ c q, rest = c :: q → isdigit c = false) :
    getdigits_from acc (ds ++ rest) = (acc * 10 ^ ds.length + decimal ds, rest) := by
  induction ds generalizing acc with
  | nil =>
    cases rest with
    | nil => simp [getdigits_from, decimal]
    | cons c q => simp [getdigits_from, decimal, hr c q rfl]
  | cons c ds ih =>
    have hc : isdigit c = true := hd c (List.mem_cons_self _ _)
    simp only [List.cons_append, getdigits_from, hc, if_true, List.append_eq]
    rw [ih _ (fun x hx => hd x (List.mem_cons_of_mem _ hx))]
    simp only [decimal, List.length_cons, pow_succ]
    congr 1
    ring

theorem read_range_text (f : List Char) (l : Option (List Char)) (rest : List Char)
    (hf : is_number f) (hl : is_number_opt l)
    (hr : ∀ c q, rest = c :: q → isdigit c = false ∧ c ≠ ',') :
    read_range (range_text f l ++ rest)
      = (decimal f, range_last f l, rest) := by
  have hcomma : isdigit ',' = false := by decide
  cases l with
  | none =>
    simp only [range_text, read_range, getdigits, range_last]
    rw [getdigits_from_number f rest 0 hf.2 (fun c q h => (hr c q h).1)]
    cases rest with
    | nil => simp
    | cons c q => simp [(hr c q rfl).2]
  | some x =>
    simp only [range_text, read_range, getdigits, List.append_assoc, List.cons_append, range_last]
    rw [getdigits_from_number f (',' :: (x ++ rest)) 0 hf.2
      (fun c q h => by cases h; exact hcomma)]
    simp only [if_true]
    rw [getdigits_from_number x rest 0 (show is_number x from hl).2 (fun c q h => (hr c q h).1)]
    simp

theorem parse_hunk_text (h : HunkLine) (hv : h.valid) (hfit : h.fits) :
    parse_hunk h.text = some h.table := by
  obtain ⟨hk, hf1, hl1, hf2, hl2, h1, h2⟩ := hv
  have hkind : isdigit h.kind = false ∧ h.kind ≠ ',' ∧
      (h.kind = 'a' ∨ h.kind = 'c' ∨ h.kind = 'd') := by
    rcases hk with hk | ⟨hk, -⟩ | ⟨hk, -⟩ <;> rw [hk] <;> decide
  obtain ⟨c, cs, hcs⟩ : ∃ c cs, h.f1 = c :: cs := by
    cases hh : h.f1 with
    | nil => exact absurd hh hf1.1
    | cons c cs => exact ⟨c, cs, rfl⟩
  have hc : isdigit c = true := hf1.2 c (by rw [hcs]; exact List.mem_cons_self _ _)
  have htext : ∃ t, h.text = c :: t := by
    unfold HunkLine.text range_text
    cases h.l1 <;> simp [hcs]
  obtain ⟨t, ht⟩ := htext
  have e1 := read_range_text h.f1 h.l1 (h.kind :: range_text h.f2 h.l2) hf1 hl1
    (fun c q hh => by cases hh; exact ⟨hkind.1, hkind.2.1⟩)
  have e2 := read_range_text h.f2 h.l2 [] hf2 hl2 (fun c q hh => by cases hh)
  rw [List.append_nil] at e2
  unfold parse_hunk
  rw [ht]
  simp only [hc, Bool.not_true, Bool.false_eq_true, if_false]
  rw [← ht]
  have e1' : read_range h.text = _ := e1
  rw [e1']
  simp only [e2]
  have hcond : ¬ (h.kind ≠ 'a' ∧ h.kind ≠ 'c' ∧ h.kind ≠ 'd') := by
    rcases hkind.2.2 with hk | hk | hk <;> simp [hk]
  rw [if_neg hcond]
  have hrange : ¬ (range_last h.f1 h.l1 < decimal h.f1
      ∨ range_last h.f2 h.l2 < decimal h.f2) := by
    unfold HunkLine.F1 HunkLine.L1 at h1
    unfold HunkLine.F2 HunkLine.L2 at h2
    omega
  rw [if_neg hrange]
  unfold HunkLine.fits at hfit
  unfold HunkLine.table HunkLine.F1 HunkLine.L1 HunkLine.F2 HunkLine.L2 at hfit ⊢
  unfold HunkLine.F1 HunkLine.L1 at h1
  unfold HunkLine.F2 HunkLine.L2 at h2
  rcases hk with hk | ⟨hk, hn⟩ | ⟨hk, hn⟩
  · simp only [hk, if_true] at hfit
    simp [hk, int_of_long_fits _ (by omega) hfit.1, int_of_long_fits _ (by omega) hfit.2]
  · simp [hk] at hfit
    simp [hk, hn, int_of_long_fits _ (by omega) hfit]
  · simp [hk] at hfit
    simp [hk, hn, int_of_long_fits _ (by omega) hfit]

/-! ## The parser: the lines that are skipped -/

theorem begins_digit_false (rest : List Char) (h : begins_digit rest = false) :
    ∀ c q, rest = c :: q → isdigit c = false := by
  intro c q e
  subst e
  exact h

/-- The scanner of a range on the text `F[,L]` followed by text that does not go on the
number: it reads `F` and `L` and stops at that text. -/
theorem read_range_digits (f : List Char) (l : Option (List Char)) (rest : List Char)
    (hf : all_digits f) (hl : all_digits_opt l) (hr : begins_digit rest = false)
    (hc : l = none → begins_comma rest = false) :
    read_range (range_text f l ++ rest) = (decimal f, range_last f l, rest) := by
  have hcomma : isdigit ',' = false := by decide
  cases l with
  | none =>
    simp only [range_text, read_range, getdigits, range_last]
    rw [getdigits_from_number f rest 0 hf (begins_digit_false rest hr)]
    cases rest with
    | nil => simp
    | cons c q =>
      have hne : c ≠ ',' := by
        have := hc rfl
        simpa [begins_comma] using this
      simp [hne]
  | some x =>
    simp only [range_text, read_range, getdigits, List.append_assoc, List.cons_append, range_last]
    rw [getdigits_from_number f (',' :: (x ++ rest)) 0 hf
      (fun c q h => by cases h; exact hcomma)]
    simp only [if_true]
    rw [getdigits_from_number x rest 0 (show all_digits x from hl) (begins_digit_false rest hr)]
    simp

theorem range_text_begins_digit (f : List Char) (l : Option (List Char)) (rest : List Char)
    (hf : is_number f) : ∃ c t, range_text f l ++ rest = c :: t ∧ isdigit c = true := by
  obtain ⟨hne, hd⟩ := hf
  cases f with
  | nil => exact absurd rfl hne
  | cons c cs =>
    have hc := hd c (List.mem_cons_self _ _)
    cases l with
    | none => exact ⟨c, cs ++ rest, by simp [range_text], hc⟩
    | some x => exact ⟨c, cs ++ ',' :: x ++ rest, by simp [range_text], hc⟩

/-- A line of one of the three classes makes `diff_read` take one of its `continue`s. -/
theorem parse_hunk_rejected (line : List Char) (h : rejected_line line) :
    parse_hunk line = none := by
  rcases h with h | ⟨f1, l1, rest, rfl, hf1, hl1, hr, hc, hk⟩
    | ⟨f1, l1, k, f2, l2, rest, rfl, hf1, hl1, hk, hf2, hl2, hr, hc, hlt⟩
  · unfold parse_hunk
    cases line with
    | nil => rfl
    | cons c t =>
      have hc : isdigit c = false := h
      simp [hc]
  · obtain ⟨c, t, ht, hcd⟩ := range_text_begins_digit f1 l1 rest hf1
    have e1 := read_range_digits f1 l1 rest hf1.2 hl1 hr hc
    unfold parse_hunk
    rw [ht]
    simp only [hcd, Bool.not_true, Bool.false_eq_true, if_false]
    rw [← ht, e1]
    cases rest with
    | nil => rfl
    | cons d p =>
      have hd : ¬ (d = 'a' ∨ d = 'c' ∨ d = 'd') := by simpa [begins_kind] using hk
      have hd' : d ≠ 'a' ∧ d ≠ 'c' ∧ d ≠ 'd' := by
        refine ⟨fun e => hd (Or.inl e), fun e => hd (Or.inr (Or.inl e)),
          fun e => hd (Or.inr (Or.inr e))⟩
      simp only
      rw [if_pos hd']
  · obtain ⟨c, t, ht, hcd⟩ := range_text_begins_digit f1 l1
      (k :: (range_text f2 l2 ++ rest)) hf1
    have hkind : isdigit k = false ∧ k ≠ ',' := by
      rcases hk with hk | hk | hk <;> rw [hk] <;> decide
    have e1 := read_range_digits f1 l1 (k :: (range_text f2 l2 ++ rest)) hf1.2 hl1
      hkind.1 (fun _ => by simp [begins_comma, hkind.2])
    have e2 := read_range_digits f2 l2 rest hf2 hl2 hr hc
    unfold parse_hunk
    rw [ht]
    simp only [hcd, Bool.not_true, Bool.false_eq_true, if_false]
    rw [← ht, e1]
    simp only [e2]
    have hcond : ¬ (k ≠ 'a' ∧ k ≠ 'c' ∧ k ≠ 'd') := by
      rcases hk with hk | hk | hk <;> simp [hk]
    rw [if_neg hcond, if_pos hlt]

/-- Every text is a run of digits followed by text that does not begin with a digit. -/
theorem digits_split (p : List Char) :
    ∃ ds rest, p = ds ++ rest ∧ all_digits ds ∧ begins_digit rest = false := by
  induction p with
  | nil => exact ⟨[], [], rfl, fun c hc => by simp at hc, rfl⟩
  | cons c t ih =>
    by_cases hc : isdigit c = true
    · obtain ⟨ds, rest, e, hd, hr⟩ := ih
      refine ⟨c :: ds, rest, by rw [e]; rfl, ?_, hr⟩
      intro x hx
      rcases List.mem_cons.1 hx with h | h
      · rw [h]; exact hc
      · exact hd x h
    · refine ⟨[], c :: t, rfl, fun x hx => by simp at hx, ?_⟩
      simpa [begins_digit] using hc

/-- Every text is a range `F[,L]` with maximal numbers followed by other text. -/
theorem range_split (p : List Char) :
    ∃ f l rest, p = range_text f l ++ rest ∧ all_digits f ∧ all_digits_opt l
      ∧ begins_digit rest = false ∧ (l = none → begins_comma rest = false) := by
  obtain ⟨f, r1, e, hf, hr1⟩ := digits_split p
  by_cases hc : begins_comma r1 = true
  · cases r1 with
    | nil => simp [begins_comma] at hc
    | cons c q =>
      have hcc : c = ',' := by simpa [begins_comma] using hc
      subst hcc
      obtain ⟨x, rest, e2, hx, hr⟩ := digits_split q
      refine ⟨f, some x, rest, ?_, hf, hx, hr, fun h => by cases h⟩
      rw [e, e2]
      simp [range_text]
  · refine ⟨f, none, r1, e, hf, trivial, hr1, fun _ => by simpa using hc⟩

/-- A line on which `diff_read` takes one of its `continue`s is of one of the three
classes. -/
theorem parse_hunk_none_rejected (line : List Char) (h : parse_hunk line = none) :
    rejected_line line := by
  by_cases hb : begins_digit line = false
  · exact Or.inl hb
  · obtain ⟨f1, l1, rest, e, hf1, hl1, hr, hc⟩ := range_split line
    have hne : f1 ≠ [] := by
      intro hf
      subst hf
      apply hb
      rw [e]
      cases l1 with
      | none => simpa [range_text] using hr
      | some x => simp [range_text, begins_digit]; decide
    have hnum : is_number f1 := ⟨hne, hf1⟩
    obtain ⟨c, t, ht, hcd⟩ := range_text_begins_digit f1 l1 rest hnum
    have e1 := read_range_digits f1 l1 rest hf1 hl1 hr hc
    by_cases hk : begins_kind rest = false
    · exact Or.inr (Or.inl ⟨f1, l1, rest, e, hnum, hl1, hr, hc, hk⟩)
    · cases rest with
      | nil => exact absurd rfl hk
      | cons k p =>
        have hk' : k = 'a' ∨ k = 'c' ∨ k = 'd' := by
          by_contra hn
          apply hk
          simp only [begins_kind, decide_eq_false_iff_not]
          exact hn
        obtain ⟨f2, l2, rest2, e2, hf2, hl2, hr2, hc2⟩ := range_split p
        have er2 := read_range_digits f2 l2 rest2 hf2 hl2 hr2 hc2
        by_cases hlt : range_last f1 l1 < decimal f1 ∨ range_last f2 l2 < decimal f2
        · exact Or.inr (Or.inr ⟨f1, l1, k, f2, l2, rest2, by rw [e, e2], hnum, hl1, hk',
            hf2, hl2, hr2, hc2, hlt⟩)
        · exfalso
          rw [e] at h
          unfold parse_hunk at h
          rw [ht] at h
          simp only [hcd, Bool.not_true, Bool.false_eq_true, if_false] at h
          rw [← ht, e1] at h
          simp only at h
          have hcond : ¬ (k ≠ 'a' ∧ k ≠ 'c' ∧ k ≠ 'd') := by
            rcases hk' with hk | hk | hk <;> simp [hk]
          rw [if_neg hcond, e2] at h
          simp only [er2] at h
          rw [if_neg hlt] at h
          exact absurd h (by simp)

/-- The three `continue`s of `diff_read` are taken exactly on the lines of the three
classes. -/
theorem parse_hunk_none_iff (line : List Char) :
    parse_hunk line = none ↔ rejected_line line :=
  ⟨parse_hunk_none_rejected line, parse_hunk_rejected line⟩

/-! ## The edit tracker: rounds of the loop -/

theorem diff_buf_idx_participating (diffbuf : Nat → Option buf_T) (buf : buf_T)
    (h : diff_buf_idx diffbuf buf ≠ DB_COUNT) :
    diff_buf_idx diffbuf buf < DB_COUNT
      ∧ participating diffbuf (diff_buf_idx diffbuf buf) = true := by
  unfold diff_buf_idx at h ⊢
  have := find_idx_found (fun idx => diffbuf idx == some buf) DB_COUNT 0 (by simpa using h)
  refine ⟨by simpa using this.2, ?_⟩
  have h1 := this.1
  simp only [beq_iff_eq] at h1
  simp [participating, h1]

theorem remove_line_end_le (diffbuf : Nat → Option buf_T) (i_org : Nat) (bw : Bool)
    (j : Nat) (dp : diff_T) :
    (remove_line diffbuf i_org bw dp).df_lnum j + (remove_line diffbuf i_org bw dp).df_count j
      ≤ dp.df_lnum j + dp.df_count j := by
  unfold remove_line
  rw [for_slots_lnum, for_slots_count]
  by_cases h : i_org ≤ j ∧ j < DB_COUNT ∧ participating diffbuf j = true
  · rw [if_pos h, if_pos h]
    cases bw <;> simp
  · rw [if_neg h, if_neg h]

theorem trim_loop_end_le (H : Host) (diffbuf : Nat → Option buf_T) (fl i_org : Nat)
    (bw : Bool) (j : Nat) (fuel : Nat) (dp : diff_T) :
    (trim_loop H diffbuf fl i_org bw fuel dp).1.df_lnum j
        + (trim_loop H diffbuf fl i_org bw fuel dp).1.df_count j
      ≤ dp.df_lnum j + dp.df_count j := by
  induction fuel generalizing dp with
  | zero => simp [trim_loop]
  | succ n ih =>
    simp only [trim_loop]
    split
    · split
      · split
        · exact le_refl _
        · exact le_trans (ih _) (remove_line_end_le _ _ _ _ _)
      · exact le_refl _
    · exact le_refl _

theorem diff_check_unchanged_end_le (H : Host) (diffbuf : Nat → Option buf_T) (fl : Nat)
    (j : Nat) (dp : diff_T) :
    (diff_check_unchanged H diffbuf fl dp).df_lnum j
        + (diff_check_unchanged H diffbuf fl dp).df_count j
      ≤ dp.df_lnum j + dp.df_count j := by
  unfold diff_check_unchanged
  simp only
  split
  · exact le_refl _
  · split
    · exact trim_loop_end_le _ _ _ _ _ _ _ _
    · exact le_trans (trim_loop_end_le _ _ _ _ _ _ _ _) (trim_loop_end_le _ _ _ _ _ _ _ _)

theorem ordered_with_gap_tail (diffbuf : Nat → Option buf_T) (a : diff_T) (l : List diff_T)
    (h : ordered_with_gap diffbuf (a :: l)) : ordered_with_gap diffbuf l := by
  cases l with
  | nil => trivial
  | cons b tl => exact h.2

theorem ordered_with_gap_head (diffbuf : Nat → Option buf_T) (a b : diff_T) (l : List diff_T)
    (h : ordered_with_gap diffbuf (a :: b :: l)) (i : Nat) (hi : i < DB_COUNT)
    (hp : participating diffbuf i = true) : a.df_lnum i + a.df_count i < b.df_lnum i :=
  h.1 i hi hp

theorem create_block_some (H : Host) (diffbuf : Nat → Option buf_T) (diff_busy : Bool)
    (idx : Nat) (line2 inserted : Int) (dprev : Option diff_T) (line1 deleted : Int)
    (dp : Option diff_T) (halloc : H.alloc.isSome = true ∨ diff_busy = true) :
    ∃ fresh, create_block H diffbuf diff_busy idx line2 inserted dprev line1 deleted dp
        = some fresh
      ∧ (after_dprev idx line1 dprev = false → fresh = []) := by
  unfold create_block diff_alloc_new
  split
  · rename_i hc
    simp only [Bool.and_eq_true] at hc
    rcases halloc with ha | hb
    · obtain ⟨g, hg⟩ := Option.isSome_iff_exists.1 ha
      rw [hg]
      exact ⟨_, rfl, fun h => by rw [h] at hc; exact absurd hc.1.2 (by simp)⟩
    · rw [hb] at hc; simp at hc
  · exact ⟨[], rfl, fun _ => rfl⟩

/-- A round of the loop for an insertion of `n` lines: the block is kept, its end in
`idx` grows by at most `n`, and a block that starts below `line1` is moved by `n`. -/
theorem adjust_step_insert (H : Host) (diffbuf : Nat → Option buf_T) (fl idx : Nat)
    (amount_after n line1 : Int) (dp : diff_T) (next : Option diff_T) (hn : 0 < n)
    (hmax : dp.df_lnum idx ≤ MAXLNUM) :
    ∃ dp', adjust_step H diffbuf fl idx MAXLNUM amount_after n line1 0 dp next
        = some (dp', line1, 0)
      ∧ dp'.df_lnum idx + dp'.df_count idx ≤ dp.df_lnum idx + dp.df_count idx + n
      ∧ (line1 < dp.df_lnum idx → 0 ≤ dp.df_count idx → dp' = shifted idx n dp) := by
  unfold adjust_step
  simp only
  have h1 : (if (0 : Int) + n ≠ 0 then (1 : Int) else 0) = 1 := by
    rw [if_pos]; omega
  rw [h1]
  have h6 : ¬ (dp.df_lnum idx - 1 > MAXLNUM) := by omega
  rw [if_neg h6]
  split
  · unfold touch_block
    simp only [lt_irrefl, gt_iff_lt, if_false]
    split
    · rename_i hle
      refine ⟨_, rfl, ?_, fun h _ => absurd hle (by omega)⟩
      simp only [if_true]
      refine le_trans (diff_check_unchanged_end_le _ _ _ _ _) ?_
      simp [diff_T.setCount]
      omega
    · refine ⟨_, rfl, ?_, fun _ _ => rfl⟩
      simp [diff_T.setLnum]
      omega
  · rename_i hlast
    refine ⟨dp, rfl, by omega, fun h1 h2 => absurd ?_ hlast⟩
    omega

theorem merge_or_advance_end (diffbuf : Nat → Option buf_T) (idx : Nat)
    (hidx : idx < DB_COUNT) (hpart : participating diffbuf idx = true)
    (done : List diff_T) (dprev : Option diff_T) (fresh : List diff_T) (dp : diff_T) :
    ∃ q, (merge_or_advance diffbuf idx done dprev fresh dp).2 = some q
      ∧ q.df_lnum idx + q.df_count idx = dp.df_lnum idx + dp.df_count idx := by
  unfold merge_or_advance
  cases dprev with
  | none => exact ⟨dp, rfl, rfl⟩
  | some p =>
    simp only
    split
    · rename_i he
      refine ⟨_, rfl, ?_⟩
      unfold merge_into
      rw [for_slots_lnum, for_slots_count]
      have hc : 0 ≤ idx ∧ idx < DB_COUNT ∧ participating diffbuf idx = true :=
        ⟨Nat.zero_le _, hidx, hpart⟩
      rw [if_pos hc, if_pos hc]
      simp only
      omega
    · exact ⟨dp, rfl, rfl⟩

theorem merge_or_advance_apart (diffbuf : Nat → Option buf_T) (idx : Nat)
    (done : List diff_T) (dprev : Option diff_T) (fresh : List diff_T) (dp : diff_T)
    (h : ∀ p, dprev = some p → p.df_lnum idx + p.df_count idx ≠ dp.df_lnum idx) :
    merge_or_advance diffbuf idx done dprev fresh dp
      = (done ++ dprev.toList ++ fresh, some dp) := by
  unfold merge_or_advance
  cases dprev with
  | none => simp
  | some p => simp [h p rfl]

theorem after_dprev_false (idx : Nat) (line1 : Int) (p : diff_T)
    (h : line1 ≤ p.df_lnum idx + p.df_count idx) : after_dprev idx line1 (some p) = false := by
  simp [after_dprev]; omega

/-- The loop over blocks that all start below an insertion: each is moved by `n`. -/
theorem walk_insert_below (H : Host) (diffbuf : Nat → Option buf_T) (fl : Nat)
    (busy : Bool) (idx : Nat) (amount_after n line1 : Int)
    (hidx : idx < DB_COUNT) (hpart : participating diffbuf idx = true) (hn : 0 < n)
    (halloc : H.alloc.isSome = true ∨ busy = true) (suf : List diff_T) :
    ∀ (done : List diff_T) (dprev : Option diff_T),
      ordered_with_gap diffbuf suf →
      (∀ b ∈ suf, b.df_lnum idx ≤ MAXLNUM ∧ line1 < b.df_lnum idx ∧ 0 ≤ b.df_count idx) →
      (∀ p, dprev = some p → ∀ b, suf.head? = some b →
        p.df_lnum idx + p.df_count idx < b.df_lnum idx + n) →
      ∃ F, adjust_walk H diffbuf fl busy idx MAXLNUM amount_after n done dprev line1 0 suf
          = (done ++ dprev.toList ++ F ++ suf.map (shifted idx n), false)
        ∧ (∀ p, dprev = some p → line1 ≤ p.df_lnum idx + p.df_count idx → F = []) := by
  induction suf with
  | nil =>
    intro done dprev _ _ _
    obtain ⟨fresh, hf, hf2⟩ := create_block_some H diffbuf busy idx MAXLNUM n dprev line1 0
      none halloc
    refine ⟨fresh, ?_, ?_⟩
    · simp [adjust_walk, hf]
    · intro p hp hle
      subst hp
      exact hf2 (after_dprev_false idx line1 p hle)
  | cons dp tl ih =>
    intro done dprev hgap hsuf hinv
    obtain ⟨hmax, hlt, hcount⟩ := hsuf dp (List.mem_cons_self _ _)
    obtain ⟨fresh, hf, hf2⟩ := create_block_some H diffbuf busy idx MAXLNUM n dprev line1 0
      (some dp) halloc
    obtain ⟨dp', hstep, -, hshift⟩ := adjust_step_insert H diffbuf fl idx amount_after n line1
      dp tl.head? hn hmax
    have hdp' : dp' = shifted idx n dp := hshift hlt hcount
    subst hdp'
    have hl : (shifted idx n dp).df_lnum idx = dp.df_lnum idx + n := by
      simp [shifted, diff_T.setLnum]
    have hc : (shifted idx n dp).df_count idx = dp.df_count idx := by
      simp [shifted, diff_T.setLnum]
    have hmerge := merge_or_advance_apart diffbuf idx done dprev fresh (shifted idx n dp)
      (fun p hp => by rw [hl]; have := hinv p hp dp rfl; omega)
    obtain ⟨F', hw, hF'⟩ := ih (done ++ dprev.toList ++ fresh) (some (shifted idx n dp))
      (ordered_with_gap_tail _ _ _ hgap)
      (fun b hb => hsuf b (List.mem_cons_of_mem _ hb))
      (fun p hp b hb => by
        cases hp
        cases tl with
        | nil => simp at hb
        | cons b' tl' =>
          simp at hb; subst hb
          have := ordered_with_gap_head _ _ _ _ hgap idx hidx hpart
          rw [hl, hc]; omega)
    have hF'nil : F' = [] := hF' _ rfl (by rw [hl, hc]; omega)
    subst hF'nil
    refine ⟨fresh, ?_, ?_⟩
    · rw [adjust_walk, hf]
      simp only [hstep, hmerge, hw]
      simp
    · intro p hp hle
      subst hp
      exact hf2 (after_dprev_false idx line1 p hle)

/-- The loop of `diff_mark_adjust` for an insertion of `n` lines at `line1`: the blocks
`suf` that start below `line1` are moved by `n`. -/
theorem walk_insert (H : Host) (diffbuf : Nat → Option buf_T) (fl : Nat)
    (busy : Bool) (idx : Nat) (amount_after n line1 : Int)
    (hidx : idx < DB_COUNT) (hpart : participating diffbuf idx = true) (hn : 0 < n)
    (halloc : H.alloc.isSome = true ∨ busy = true) (suf pre : List diff_T) :
    ∀ (done : List diff_T) (dprev : Option diff_T),
      ordered_with_gap diffbuf (pre ++ suf) →
      (∀ b ∈ pre ++ suf, b.df_lnum idx ≤ MAXLNUM) →
      (∀ b ∈ suf, line1 < b.df_lnum idx ∧ 0 ≤ b.df_count idx) →
      (∀ p, dprev = some p → ∀ b, (pre ++ suf).head? = some b →
        p.df_lnum idx + p.df_count idx < b.df_lnum idx + n) →
      ∃ pre', adjust_walk H diffbuf fl busy idx MAXLNUM amount_after n done dprev line1 0
          (pre ++ suf) = (pre' ++ suf.map (shifted idx n), false) := by
  induction pre with
  | nil =>
    intro done dprev hgap hmax hsuf hinv
    obtain ⟨F, hw, -⟩ := walk_insert_below H diffbuf fl busy idx amount_after n line1 hidx
      hpart hn halloc suf done dprev hgap
      (fun b hb => ⟨hmax b hb, hsuf b hb⟩) hinv
    exact ⟨done ++ dprev.toList ++ F, hw⟩
  | cons dp tl ih =>
    intro done dprev hgap hmax hsuf hinv
    obtain ⟨fresh, hf, -⟩ := create_block_some H diffbuf busy idx MAXLNUM n dprev line1 0
      (some dp) halloc
    obtain ⟨dp', hstep, hend, -⟩ := adjust_step_insert H diffbuf fl idx amount_after n line1
      dp (tl ++ suf).head? hn (hmax dp (List.mem_cons_self _ _))
    obtain ⟨q, hq, hqend⟩ := merge_or_advance_end diffbuf idx hidx hpart done dprev fresh dp'
    obtain ⟨pre', hw⟩ := ih (merge_or_advance diffbuf idx done dprev fresh dp').1
      (merge_or_advance diffbuf idx done dprev fresh dp').2
      (ordered_with_gap_tail _ _ _ hgap)
      (fun b hb => hmax b (List.mem_cons_of_mem _ hb)) hsuf
      (fun p hp b hb => by
        rw [hq] at hp
        cases hp
        cases hts : tl ++ suf with
        | nil => rw [hts] at hb; simp at hb
        | cons b_next tl_next =>
          rw [hts] at hb
          simp at hb; subst hb
          have hgap2 : ordered_with_gap diffbuf (dp :: b_next :: tl_next) := by
            have := hgap
            rw [List.cons_append, hts] at this
            exact this
          have := ordered_with_gap_head _ _ _ _ hgap2 idx hidx hpart
          omega)
    refine ⟨pre', ?_⟩
    rw [List.cons_append, adjust_walk, hf]
    simp only [hstep]
    exact hw

theorem diff_mark_adjust_list (H : Host) (S : DiffState) (curbuf : buf_T)
    (line1 line2 amount amount_after : Int) :
    (diff_mark_adjust H S curbuf line1 line2 amount amount_after).first_diff =
      if diff_buf_idx S.diffbuf curbuf = DB_COUNT then S.first_diff
      else if (adjust_walk H S.diffbuf S.diff_flags S.diff_busy (diff_buf_idx S.diffbuf curbuf)
          line2 amount_after (inserted_of line2 amount amount_after) [] none line1
          (deleted_of line2 amount_after) S.first_diff).2 = true then
        (adjust_walk H S.diffbuf S.diff_flags S.diff_busy (diff_buf_idx S.diffbuf curbuf)
          line2 amount_after (inserted_of line2 amount amount_after) [] none line1
          (deleted_of line2 amount_after) S.first_diff).1
      else
        sweep S.diffbuf (adjust_walk H S.diffbuf S.diff_flags S.diff_busy
          (diff_buf_idx S.diffbuf curbuf)
          line2 amount_after (inserted_of line2 amount amount_after) [] none line1
          (deleted_of line2 amount_after) S.first_diff).1 := by
  unfold diff_mark_adjust
  simp only
  split
  · rfl
  · split <;> rfl

theorem sweep_append (diffbuf : Nat → Option buf_T) (l1 l2 : List diff_T) :
    sweep diffbuf (l1 ++ l2) = sweep diffbuf l1 ++ sweep diffbuf l2 := by
  induction l1 with
  | nil => simp [sweep]
  | cons a tl ih =>
    simp only [List.cons_append, sweep]
    split
    · exact ih
    · simp [ih]

theorem sweep_eq_self (diffbuf : Nat → Option buf_T) (l : List diff_T)
    (h : ∀ b ∈ l, all_zero diffbuf b = false) : sweep diffbuf l = l := by
  induction l with
  | nil => simp [sweep]
  | cons a tl ih =>
    simp only [sweep, h a (List.mem_cons_self _ _), Bool.false_eq_true, if_false]
    rw [ih (fun b hb => h b (List.mem_cons_of_mem _ hb))]

theorem all_zero_of_some_count (diffbuf : Nat → Option buf_T) (b : diff_T)
    (h : some_count diffbuf b) : all_zero diffbuf b = false := by
  obtain ⟨i, hi, hp, hc⟩ := h
  by_contra hz
  have hz' : all_zero diffbuf b = true := by simpa using hz
  exact hc ((all_zero_iff diffbuf b).1 hz' i hi hp)

theorem all_zero_shifted (diffbuf : Nat → Option buf_T) (idx : Nat) (n : Int) (b : diff_T) :
    all_zero diffbuf (shifted idx n b) = all_zero diffbuf b := rfl

/-- In an ordered list with counts that are not negative, every block after `a` starts
below the end of `a`. -/
theorem starts_below (diffbuf : Nat → Option buf_T) (idx : Nat) (hidx : idx < DB_COUNT)
    (hpart : participating diffbuf idx = true) (x : Int) (tl : List diff_T) :
    ∀ a : diff_T, ordered_with_gap diffbuf (a :: tl) →
      (∀ b ∈ tl, 0 ≤ b.df_count idx) → x ≤ a.df_lnum idx + a.df_count idx →
      ∀ b ∈ tl, x < b.df_lnum idx := by
  induction tl with
  | nil => intro a _ _ _ b hb; simp at hb
  | cons c tl ih =>
    intro a hgap hcount hx b hb
    have h1 := ordered_with_gap_head _ _ _ _ hgap idx hidx hpart
    rcases List.mem_cons.1 hb with h | h
    · subst h; omega
    · have hc := hcount c (List.mem_cons_self _ _)
      exact ih c (ordered_with_gap_tail _ _ _ hgap)
        (fun b hb => hcount b (List.mem_cons_of_mem _ hb)) (by omega) b h

/-- In an ordered list with counts that are not negative, every block before `b` ends
above the start of `b`. -/
theorem ends_above (diffbuf : Nat → Option buf_T) (idx : Nat) (hidx : idx < DB_COUNT)
    (hpart : participating diffbuf idx = true) (b : diff_T) (post : List diff_T)
    (pre : List diff_T) :
    ordered_with_gap diffbuf (pre ++ b :: post) →
      (∀ a ∈ pre, 0 ≤ a.df_count idx) →
      ∀ a ∈ pre, a.df_lnum idx + a.df_count idx < b.df_lnum idx := by
  induction pre with
  | nil => intro _ _ a ha; simp at ha
  | cons c tl ih =>
    intro hgap hcount a ha
    have hrec := ih (ordered_with_gap_tail _ _ _ hgap)
      (fun a ha => hcount a (List.mem_cons_of_mem _ ha))
    rcases List.mem_cons.1 ha with h | h
    · subst h
      cases tl with
      | nil => exact ordered_with_gap_head _ _ _ _ hgap idx hidx hpart
      | cons d tl' =>
        have h1 := ordered_with_gap_head _ _ _ _ hgap idx hidx hpart
        have h2 := hrec d (List.mem_cons_self _ _)
        have h3 := hcount d (List.mem_cons_of_mem _ (List.mem_cons_self _ _))
        omega
    · exact hrec a h

theorem split_below (diffbuf : Nat → Option buf_T) (idx : Nat) (hidx : idx < DB_COUNT)
    (hpart : participating diffbuf idx = true) (line1 : Int) (l : List diff_T) :
    ordered_with_gap diffbuf l → (∀ b ∈ l, 0 ≤ b.df_count idx) →
      ∃ pre suf, l = pre ++ suf
        ∧ l.filter (fun b => decide (line1 < b.df_lnum idx)) = suf
        ∧ ∀ b ∈ suf, line1 < b.df_lnum idx := by
  induction l with
  | nil => intro _ _; exact ⟨[], [], rfl, rfl, fun b hb => by simp at hb⟩
  | cons a tl ih =>
    intro hgap hcount
    by_cases ha : line1 < a.df_lnum idx
    · have hall : ∀ b ∈ a :: tl, line1 < b.df_lnum idx := by
        intro b hb
        rcases List.mem_cons.1 hb with h | h
        · subst h; exact ha
        · have h0 := hcount a (List.mem_cons_self _ _)
          have := starts_below diffbuf idx hidx hpart (a.df_lnum idx) tl a hgap
            (fun b hb => hcount b (List.mem_cons_of_mem _ hb)) (by omega) b h
          omega
      refine ⟨[], a :: tl, rfl, ?_, hall⟩
      rw [List.filter_eq_self]
      intro b hb
      simpa using hall b hb
    · obtain ⟨pre, suf, h1, h2, h3⟩ := ih (ordered_with_gap_tail _ _ _ hgap)
        (fun b hb => hcount b (List.mem_cons_of_mem _ hb))
      refine ⟨a :: pre, suf, by rw [h1]; rfl, ?_, h3⟩
      rw [List.filter_cons_of_neg (by simpa using ha)]
      exact h2

/-- Claim C7: a pure insertion (`line2 = MAXLNUM`, `amount = n > 0`) at `line1` in a
participating buffer `idx`, applied to a list that is ordered with gaps and well formed
(counts not negative, starts up to `MAXLNUM`, no all-zero block), with block allocation
succeeding: the blocks whose `start[idx]` is greater than `line1` are the tail of the new
list, each with `start[idx]` increased by exactly `n` and with all its counts and its
starts in the other buffers unchanged. -/
theorem C7_insertion_shifts_blocks_below (H : Host) (S : DiffState) (curbuf : buf_T)
    (line1 n amount_after : Int)
    (hidx : diff_buf_idx S.diffbuf curbuf ≠ DB_COUNT)
    (halloc : H.alloc.isSome = true ∨ S.diff_busy = true)
    (hn : 0 < n)
    (hgap : ordered_with_gap S.diffbuf S.first_diff)
    (hwf : well_formed S.diffbuf S.first_diff)
    (hmax : ∀ b ∈ S.first_diff, b.df_lnum (diff_buf_idx S.diffbuf curbuf) ≤ MAXLNUM)
    (hsome : ∀ b ∈ S.first_diff, some_count S.diffbuf b) :
    ∃ above, (diff_mark_adjust H S curbuf line1 MAXLNUM n amount_after).first_diff
      = above ++ (S.first_diff.filter
          (fun b => decide (line1 < b.df_lnum (diff_buf_idx S.diffbuf curbuf)))).map
            (shifted (diff_buf_idx S.diffbuf curbuf) n) := by
  obtain ⟨hlt, hpart⟩ := diff_buf_idx_participating S.diffbuf curbuf hidx
  have hcount : ∀ b ∈ S.first_diff, 0 ≤ b.df_count (diff_buf_idx S.diffbuf curbuf) :=
    fun b hb => (hwf b hb _ hlt hpart).2
  obtain ⟨pre, suf, hsplit, hfilter, hsuf⟩ := split_below S.diffbuf _ hlt hpart line1
    S.first_diff hgap hcount
  have hmem : ∀ b ∈ suf, b ∈ S.first_diff := by
    intro b hb; rw [hsplit]; exact List.mem_append_right _ hb
  obtain ⟨pre', hw⟩ := walk_insert H S.diffbuf S.diff_flags S.diff_busy _ amount_after n
    line1 hlt hpart hn halloc suf pre [] none (by rw [← hsplit]; exact hgap)
    (by rw [← hsplit]; exact hmax)
    (fun b hb => ⟨hsuf b hb, hcount b (hmem b hb)⟩)
    (fun p hp => by cases hp)
  rw [diff_mark_adjust_list, if_neg hidx, hfilter]
  have hins : inserted_of MAXLNUM n amount_after = n := by simp [inserted_of]
  have hdel : deleted_of MAXLNUM amount_after = 0 := by simp [deleted_of]
  rw [hins, hdel, hsplit, hw]
  simp only [Bool.false_eq_true, if_false]
  refine ⟨sweep S.diffbuf pre', ?_⟩
  rw [sweep_append, sweep_eq_self _ (suf.map _)]
  intro b hb
  obtain ⟨b0, hb0, rfl⟩ := List.mem_map.1 hb
  rw [all_zero_shifted]
  exact all_zero_of_some_count _ _ (hsome b0 (hmem b0 hb0))

theorem create_block_busy (H : Host) (diffbuf : Nat → Option buf_T)
    (idx : Nat) (line2 inserted : Int) (dprev : Option diff_T) (line1 deleted : Int)
    (dp : Option diff_T) :
    create_block H diffbuf true idx line2 inserted dprev line1 deleted dp = some [] := by
  simp [create_block]

theorem adjust_step_host (H H' : Host) (hs : H'.strsave_ok = H.strsave_ok)
    (hg : H'.ml_get_buf = H.ml_get_buf) (hm : H'.mb_ptr2len_check = H.mb_ptr2len_check)
    (diffbuf : Nat → Option buf_T) (fl idx : Nat) (line2 amount_after inserted : Int)
    (line1 deleted : Int) (dp : diff_T) (next : Option diff_T) :
    adjust_step H' diffbuf fl idx line2 amount_after inserted line1 deleted dp next
      = adjust_step H diffbuf fl idx line2 amount_after inserted line1 deleted dp next := by
  simp only [adjust_step, diff_check_unchanged_host H H' hs hg hm]

theorem merge_or_advance_length (diffbuf : Nat → Option buf_T) (idx : Nat)
    (done : List diff_T) (dprev : Option diff_T) (dp : diff_T) :
    (merge_or_advance diffbuf idx done dprev [] dp).1.length
        + (merge_or_advance diffbuf idx done dprev [] dp).2.toList.length
      ≤ done.length + dprev.toList.length + 1 := by
  unfold merge_or_advance
  cases dprev with
  | none => simp
  | some p =>
    simp only
    split <;> simp

/-- With `diff_busy` set the loop of `diff_mark_adjust` creates no block: it does not
depend on `alloc`, is not left by the `return`, and the list does not grow. -/
theorem adjust_walk_busy (H H' : Host) (hs : H'.strsave_ok = H.strsave_ok)
    (hg : H'.ml_get_buf = H.ml_get_buf) (hm : H'.mb_ptr2len_check = H.mb_ptr2len_check)
    (diffbuf : Nat → Option buf_T) (diff_flags : Nat)
    (idx : Nat) (line2 amount_after inserted : Int)
    (done : List diff_T) (dprev : Option diff_T) (line1 deleted : Int) (rest : List diff_T) :
    adjust_walk H' diffbuf diff_flags true idx line2 amount_after inserted
        done dprev line1 deleted rest
      = adjust_walk H diffbuf diff_flags true idx line2 amount_after inserted
        done dprev line1 deleted rest
    ∧ (adjust_walk H diffbuf diff_flags true idx line2 amount_after inserted
        done dprev line1 deleted rest).1.length
        ≤ done.length + dprev.toList.length + rest.length := by
  induction rest generalizing done dprev line1 deleted with
  | nil =>
    simp [adjust_walk, create_block_busy]
  | cons dp tl ih =>
    rw [adjust_walk, adjust_walk, create_block_busy, create_block_busy]
    simp only [adjust_step_host H H' hs hg hm]
    split
    · simp; omega
    · rename_i dp' l1 d1 hst
      refine ⟨(ih _ _ _ _).1, ?_⟩
      have h1 := (ih (merge_or_advance diffbuf idx done dprev [] dp').1
        (merge_or_advance diffbuf idx done dprev [] dp').2 l1 d1).2
      have h2 := merge_or_advance_length diffbuf idx done dprev dp'
      simp only [List.length_cons]
      omega

theorem create_block_none_of_not_after (H : Host) (diffbuf : Nat → Option buf_T)
    (busy : Bool) (idx : Nat) (line2 inserted : Int) (dprev : Option diff_T)
    (line1 deleted : Int) (dp : Option diff_T)
    (h : after_dprev idx line1 dprev = false) :
    create_block H diffbuf busy idx line2 inserted dprev line1 deleted dp = some [] := by
  simp [create_block, h]

theorem create_block_none_of_touching (H : Host) (diffbuf : Nat → Option buf_T)
    (busy : Bool) (idx : Nat) (line2 inserted : Int) (dprev : Option diff_T)
    (line1 deleted : Int) (dp : diff_T)
    (h1 : ¬ (dp.df_lnum idx - 1 > line2)) (h2 : line2 ≠ MAXLNUM) :
    create_block H diffbuf busy idx line2 inserted dprev line1 deleted (some dp)
      = some [] := by
  simp [create_block, h1, h2]

theorem adjust_step_above (H : Host) (diffbuf : Nat → Option buf_T) (fl idx : Nat)
    (line2 amount_after inserted line1 deleted : Int) (dp : diff_T) (next : Option diff_T)
    (h : dp.df_lnum idx + dp.df_count idx < line1) :
    adjust_step H diffbuf fl idx line2 amount_after inserted line1 deleted dp next
      = some (dp, line1, deleted) := by
  unfold adjust_step
  simp only
  rw [if_neg]
  omega

theorem adjust_step_below (H : Host) (diffbuf : Nat → Option buf_T) (fl idx : Nat)
    (line2 c line1 : Int) (dp : diff_T) (next : Option diff_T) (hc : 0 < c)
    (h1 : line1 ≤ dp.df_lnum idx + dp.df_count idx) (h2 : line2 < dp.df_lnum idx - 1) :
    adjust_step H diffbuf fl idx line2 (- c) 0 line1 c dp next
      = some (shifted idx (- c) dp, line1, c) := by
  unfold adjust_step
  simp only
  have e : (if c + 0 ≠ 0 then (1 : Int) else 0) = 1 := by rw [if_pos]; omega
  rw [e, if_pos (by omega), if_pos (by omega), if_neg (by omega)]
  rfl

/-- The loop over blocks that end above the change: they are left as they are. -/
theorem walk_above (H : Host) (diffbuf : Nat → Option buf_T) (fl : Nat) (busy : Bool)
    (idx : Nat) (line2 amount_after inserted line1 deleted : Int)
    (hidx : idx < DB_COUNT) (hpart : participating diffbuf idx = true)
    (h2 : line2 ≠ MAXLNUM) (rest pre : List diff_T) :
    ∀ (done : List diff_T) (dprev : Option diff_T),
      ordered_with_gap diffbuf (pre ++ rest) →
      (∀ a ∈ pre, a.df_lnum idx + a.df_count idx < line1 ∧ ¬ (a.df_lnum idx - 1 > line2)) →
      (∀ p, dprev = some p → ∀ a, (pre ++ rest).head? = some a →
        p.df_lnum idx + p.df_count idx < a.df_lnum idx) →
      ∃ done' dprev',
        adjust_walk H diffbuf fl busy idx line2 amount_after inserted done dprev line1
            deleted (pre ++ rest)
          = adjust_walk H diffbuf fl busy idx line2 amount_after inserted done' dprev' line1
            deleted rest
        ∧ done' ++ dprev'.toList = done ++ dprev.toList ++ pre
        ∧ (∀ p, dprev' = some p → ∀ a, rest.head? = some a →
            p.df_lnum idx + p.df_count idx < a.df_lnum idx) := by
  induction pre with
  | nil =>
    intro done dprev _ _ hinv
    exact ⟨done, dprev, rfl, by simp, hinv⟩
  | cons a tl ih =>
    intro done dprev hgap hpre hinv
    obtain ⟨ha1, ha2⟩ := hpre a (List.mem_cons_self _ _)
    have hmerge := merge_or_advance_apart diffbuf idx done dprev [] a
      (fun p hp => by have := hinv p hp a rfl; omega)
    obtain ⟨done', dprev', hw, hl, hinv'⟩ := ih (done ++ dprev.toList ++ []) (some a)
      (ordered_with_gap_tail _ _ _ hgap)
      (fun b hb => hpre b (List.mem_cons_of_mem _ hb))
      (fun p hp b hb => by
        cases hp
        cases hts : tl ++ rest with
        | nil => rw [hts] at hb; simp at hb
        | cons b_next tl_next =>
          rw [hts] at hb
          simp at hb; subst hb
          have hgap2 : ordered_with_gap diffbuf (a :: b_next :: tl_next) := by
            have := hgap
            rw [List.cons_append, hts] at this
            exact this
          exact ordered_with_gap_head _ _ _ _ hgap2 idx hidx hpart)
    refine ⟨done', dprev', ?_, ?_, hinv'⟩
    · rw [List.cons_append, adjust_walk,
        create_block_none_of_touching H diffbuf busy idx line2 inserted dprev line1 deleted a
          ha2 h2]
      simp only [adjust_step_above H diffbuf fl idx line2 amount_after inserted line1 deleted
        a _ ha1, hmerge]
      exact hw
    · rw [hl]; simp

/-- The loop over the blocks below a deletion of `c` lines: each is moved up by `c`. -/
theorem walk_delete_below (H : Host) (diffbuf : Nat → Option buf_T) (fl : Nat)
    (busy : Bool) (idx : Nat) (line2 c line1 : Int)
    (hidx : idx < DB_COUNT) (hpart : participating diffbuf idx = true) (hc : 0 < c)
    (hline : line2 = line1 + c - 1) (post : List diff_T) :
    ∀ (done : List diff_T) (p : diff_T),
      ordered_with_gap diffbuf post →
      (∀ b ∈ post, line2 < b.df_lnum idx - 1 ∧ 0 ≤ b.df_count idx) →
      line1 ≤ p.df_lnum idx + p.df_count idx →
      (∀ b, post.head? = some b → p.df_lnum idx + p.df_count idx < b.df_lnum idx - c) →
      adjust_walk H diffbuf fl busy idx line2 (- c) 0 done (some p) line1 c post
        = (done ++ p :: post.map (shifted idx (- c)), false) := by
  induction post with
  | nil =>
    intro done p _ _ hle _
    rw [adjust_walk, create_block_none_of_not_after _ _ _ _ _ _ _ _ _ _
      (after_dprev_false idx line1 p hle)]
    simp
  | cons dp tl ih =>
    intro done p hgap hpost hle hinv
    obtain ⟨hb1, hb2⟩ := hpost dp (List.mem_cons_self _ _)
    have hl : (shifted idx (- c) dp).df_lnum idx = dp.df_lnum idx + - c := by
      simp [shifted, diff_T.setLnum]
    have hcnt : (shifted idx (- c) dp).df_count idx = dp.df_count idx := by
      simp [shifted, diff_T.setLnum]
    have hmerge := merge_or_advance_apart diffbuf idx done (some p) []
      (shifted idx (- c) dp)
      (fun q hq => by cases hq; rw [hl]; have := hinv dp rfl; omega)
    rw [adjust_walk, create_block_none_of_not_after _ _ _ _ _ _ _ _ _ _
      (after_dprev_false idx line1 p hle)]
    simp only [adjust_step_below H diffbuf fl idx line2 c line1 dp _ hc (by omega) hb1, hmerge]
    rw [ih (done ++ (some p).toList ++ []) (shifted idx (- c) dp)
      (ordered_with_gap_tail _ _ _ hgap)
      (fun b hb => hpost b (List.mem_cons_of_mem _ hb))
      (by rw [hl, hcnt]; omega)
      (fun b hb => by
        cases tl with
        | nil => simp at hb
        | cons b_next tl_next =>
          simp at hb; subst hb
          have := ordered_with_gap_head _ _ _ _ hgap idx hidx hpart
          rw [hl, hcnt]; omega)]
    simp

/-- The block `b` after all its `c` lines in buffer `idx` were deleted (case 4 of
`diff_mark_adjust`, the deletion ends with the block). -/
theorem adjust_step_delete_exact (H : Host) (diffbuf : Nat → Option buf_T) (fl idx : Nat)
    (c : Int) (b : diff_T) (next : Option diff_T) (hc : 0 < c)
    (hcount : b.df_count idx = c)
    (hnext : ∀ nx, next = some nx → b.df_lnum idx + c < nx.df_lnum idx) :
    adjust_step H diffbuf fl idx (b.df_lnum idx + c - 1) (- c) 0 (b.df_lnum idx) c b next
      = some (adjust_others diffbuf idx 0 0
          ((b.setLnum idx (b.df_lnum idx)).setCount idx 0), b.df_lnum idx, c) := by
  subst hcount
  have hcont : delete_continues idx (b.df_lnum idx + b.df_count idx - 1) next = false := by
    cases next with
    | none => rfl
    | some nx =>
      have := hnext nx rfl
      simp [delete_continues]; omega
  unfold adjust_step
  simp only
  have e : (if b.df_count idx + 0 ≠ 0 then (1 : Int) else 0) = 1 := by rw [if_pos]; omega
  rw [e, if_pos (by omega), if_neg (by omega)]
  unfold touch_block
  have h1 : b.df_count idx > 0 := hc
  have h2 : b.df_lnum idx ≥ b.df_lnum idx := le_refl _
  have h3 : b.df_lnum idx + b.df_count idx - 1 ≤ b.df_lnum idx + b.df_count idx - 1 :=
    le_refl _
  simp only [hcont, Bool.false_eq_true, if_false]
  rw [if_pos h1, if_pos h2, if_pos h3]
  simp [diff_T.setLnum]

theorem all_zero_deleted (diffbuf : Nat → Option buf_T) (idx : Nat) (b : diff_T)
    (hzero : ∀ i, i < DB_COUNT → i ≠ idx → participating diffbuf i = true →
      b.df_count i = 0) :
    all_zero diffbuf (adjust_others diffbuf idx 0 0
      ((b.setLnum idx (b.df_lnum idx)).setCount idx 0)) = true := by
  rw [all_zero_iff]
  intro i hi hp
  unfold adjust_others
  rw [for_slots_count]
  by_cases h : i = idx
  · subst h
    simp [diff_T.setCount]
  · simp [diff_T.setCount, diff_T.setLnum, h, hzero i hi h hp]

theorem deleted_block_end (diffbuf : Nat → Option buf_T) (idx : Nat) (b : diff_T) :
    (adjust_others diffbuf idx 0 0
      ((b.setLnum idx (b.df_lnum idx)).setCount idx 0)).df_lnum idx = b.df_lnum idx
    ∧ (adjust_others diffbuf idx 0 0
      ((b.setLnum idx (b.df_lnum idx)).setCount idx 0)).df_count idx = 0 := by
  unfold adjust_others
  rw [for_slots_lnum, for_slots_count]
  simp [diff_T.setCount, diff_T.setLnum]

/-- Claim C8: in a list that is ordered with gaps and well formed, let the block `b` have
`count[idx] = c > 0` and count zero in every other participating buffer.  The
notification that deletes exactly its lines in buffer `idx` (`line1 = start[idx]`,
`line2 = start[idx] + c - 1`, `amount_after = -c`) removes `b` from the list: what is
left are the blocks before it, unchanged, and the blocks after it, moved up by `c`
lines in `idx` (and swept of all-zero blocks). -/
theorem C8_deleting_block_lines_removes_block (H : Host) (S : DiffState) (curbuf : buf_T)
    (amount c : Int)
    (pre post : List diff_T) (b : diff_T)
    (hidx : diff_buf_idx S.diffbuf curbuf ≠ DB_COUNT)
    (hlist : S.first_diff = pre ++ b :: post)
    (hgap : ordered_with_gap S.diffbuf S.first_diff)
    (hwf : well_formed S.diffbuf S.first_diff)
    (hcount : b.df_count (diff_buf_idx S.diffbuf curbuf) = c) (hc : 0 < c)
    (hzero : ∀ i, i < DB_COUNT → i ≠ diff_buf_idx S.diffbuf curbuf →
      participating S.diffbuf i = true → b.df_count i = 0)
    (hmax : b.df_lnum (diff_buf_idx S.diffbuf curbuf) + c - 1 ≠ MAXLNUM) :
    (diff_mark_adjust H S curbuf (b.df_lnum (diff_buf_idx S.diffbuf curbuf))
        (b.df_lnum (diff_buf_idx S.diffbuf curbuf) + c - 1) amount (- c)).first_diff
      = sweep S.diffbuf
          (pre ++ post.map (shifted (diff_buf_idx S.diffbuf curbuf) (- c))) := by
  obtain ⟨hlt, hpart⟩ := diff_buf_idx_participating S.diffbuf curbuf hidx
  generalize hidxdef : diff_buf_idx S.diffbuf curbuf = idx at *
  rw [hlist] at hgap hwf
  have hcnt : ∀ a ∈ pre ++ b :: post, 0 ≤ a.df_count idx :=
    fun a ha => (hwf a ha idx hlt hpart).2
  have hstart : ∀ a ∈ pre ++ b :: post, 1 ≤ a.df_lnum idx :=
    fun a ha => (hwf a ha idx hlt hpart).1
  have hgapb : ordered_with_gap S.diffbuf (b :: post) := by
    clear hwf hcnt hstart hlist
    induction pre with
    | nil => exact hgap
    | cons a tl ih => exact ih (ordered_with_gap_tail _ _ _ hgap)
  have habove := ends_above S.diffbuf idx hlt hpart b post pre hgap
    (fun a ha => hcnt a (List.mem_append_left _ ha))
  have hbelow := starts_below S.diffbuf idx hlt hpart (b.df_lnum idx + c) post b hgapb
    (fun a ha => hcnt a (List.mem_append_right _ (List.mem_cons_of_mem _ ha)))
    (by omega)
  -- the blocks above the deletion
  obtain ⟨done', dprev', hw, hl, hinv⟩ := walk_above H S.diffbuf S.diff_flags S.diff_busy idx
    (b.df_lnum idx + c - 1) (- c) 0 (b.df_lnum idx) c hlt hpart hmax (b :: post) pre [] none
    hgap
    (fun a ha => by
      have h1 := habove a ha
      have h2 := hcnt a (List.mem_append_left _ ha)
      constructor <;> omega)
    (fun p hp => by cases hp)
  -- the deleted block
  have hstep := adjust_step_delete_exact H S.diffbuf S.diff_flags idx c b post.head? hc
    hcount
    (fun nx hnx => by
      cases post with
      | nil => simp at hnx
      | cons x tl =>
        simp at hnx; subst hnx
        exact hbelow _ (List.mem_cons_self _ _))
  obtain ⟨hbl, hbc⟩ := deleted_block_end S.diffbuf idx b
  have hmerge := merge_or_advance_apart S.diffbuf idx done' dprev' []
    (adjust_others S.diffbuf idx 0 0 ((b.setLnum idx (b.df_lnum idx)).setCount idx 0))
    (fun p hp => by rw [hbl]; have := hinv p hp b rfl; omega)
  -- the blocks below the deletion
  have hpost := walk_delete_below H S.diffbuf S.diff_flags S.diff_busy idx
    (b.df_lnum idx + c - 1) c (b.df_lnum idx) hlt hpart hc rfl post
    (done' ++ dprev'.toList ++ [])
    (adjust_others S.diffbuf idx 0 0 ((b.setLnum idx (b.df_lnum idx)).setCount idx 0))
    (ordered_with_gap_tail _ _ _ hgapb)
    (fun a ha => by
      have h1 := hbelow a ha
      have h2 := hcnt a (List.mem_append_right _ (List.mem_cons_of_mem _ ha))
      constructor <;> omega)
    (by rw [hbl, hbc]; omega)
    (fun a ha => by
      cases post with
      | nil => simp at ha
      | cons x tl =>
        simp at ha; subst ha
        have := hbelow _ (List.mem_cons_self _ _)
        rw [hbl, hbc]; omega)
  have hdel : deleted_of (b.df_lnum idx + c - 1) (- c) = c := by
    simp [deleted_of, hmax]; omega
  have hins : inserted_of (b.df_lnum idx + c - 1) amount (- c) = 0 := by
    simp [inserted_of, hmax]; omega
  have hidx' : idx ≠ DB_COUNT := by omega
  rw [diff_mark_adjust_list, hidxdef, if_neg hidx', hdel, hins, hlist, hw]
  have hwalk : adjust_walk H S.diffbuf S.diff_flags S.diff_busy idx (b.df_lnum idx + c - 1)
      (- c) 0 done' dprev' (b.df_lnum idx) c (b :: post)
      = (pre ++ adjust_others S.diffbuf idx 0 0
            ((b.setLnum idx (b.df_lnum idx)).setCount idx 0)
          :: post.map (shifted idx (- c)), false) := by
    rw [adjust_walk, create_block_none_of_touching H S.diffbuf S.diff_busy idx _ 0 dprev'
      (b.df_lnum idx) c b (by omega) hmax]
    simp only [hstep, hmerge, hpost]
    rw [List.append_nil, hl]
    simp
  rw [hwalk]
  simp only [Bool.false_eq_true, if_false]
  rw [sweep_append, sweep_append]
  simp only [sweep, all_zero_deleted S.diffbuf idx b hzero, if_true]

/-! ## The parser: lists of hunks -/

theorem read_new_block_pair (h : Hunk) (dprev : Option diff_T) (g : diff_T) :
    (read_new_block 0 1 h dprev g).pair = h := by
  simp [read_new_block, diff_T.pair, diff_T.setLnum, diff_T.setCount, List.range']

/-- A hunk below the last block of the list: `diff_read` links one new block at the end. -/
theorem read_line_append (H : Host) (diffbuf : Nat → Option buf_T) (g : diff_T)
    (halloc : H.alloc = some g) (st : ReadState) (h : HunkLine) (hv : h.valid)
    (hfit : h.fits)
    (hst : st.rest = [] ∨ (st.notset = false ∧ ∃ b, st.rest = [b]
      ∧ b.df_lnum 0 + b.df_count 0 < h.table.lnum_orig)) :
    read_line H diffbuf 0 1 st h.text
      = (⟨st.done ++ st.rest,
          [read_new_block 0 1 h.table (st.done ++ st.rest).getLast? g], false⟩, false) := by
  unfold read_line
  rw [parse_hunk_text h hv hfit]
  rcases hst with hr | ⟨hn, b, hr, hb⟩
  · simp [hr, skip_before, diff_alloc_new, halloc]
  · have hgt : h.table.lnum_orig > b.df_lnum 0 + b.df_count 0 := hb
    simp [hr, hn, skip_before, diff_alloc_new, halloc, hgt]

theorem read_lines_separated (H : Host) (diffbuf : Nat → Option buf_T) (g : diff_T)
    (halloc : H.alloc = some g) (hs : List HunkLine) :
    ∀ st : ReadState, (∀ h ∈ hs, h.valid) → (∀ h ∈ hs, h.fits) → separated hs →
      (st.rest = [] ∨ (st.notset = false ∧ ∃ b, st.rest = [b]
        ∧ ∀ h, hs.head? = some h → b.df_lnum 0 + b.df_count 0 < h.table.lnum_orig)) →
      ∃ r, read_lines H diffbuf 0 1 st (hs.map HunkLine.text) = (r, false)
        ∧ (r.rest = [] ∨ (r.notset = false ∧ ∃ b, r.rest = [b]))
        ∧ (r.done ++ r.rest).map diff_T.pair
            = (st.done ++ st.rest).map diff_T.pair ++ hs.map HunkLine.table := by
  induction hs with
  | nil =>
    intro st _ _ _ hst
    refine ⟨st, by simp [read_lines], ?_, by simp⟩
    rcases hst with h | ⟨hn, b, hb, -⟩
    · exact Or.inl h
    · exact Or.inr ⟨hn, b, hb⟩
  | cons h hs ih =>
    intro st hv hfit hsep hst
    have hline := read_line_append H diffbuf g halloc st h (hv h (List.mem_cons_self _ _))
      (hfit h (List.mem_cons_self _ _))
      (by
        rcases hst with h0 | ⟨hn, b, hb, hlt⟩
        · exact Or.inl h0
        · exact Or.inr ⟨hn, b, hb, hlt h rfl⟩)
    have hsep' : separated hs := by
      cases hs with
      | nil => trivial
      | cons h' hs' => exact hsep.2
    obtain ⟨r, hr, hr2, hr3⟩ := ih
      ⟨st.done ++ st.rest, [read_new_block 0 1 h.table (st.done ++ st.rest).getLast? g], false⟩
      (fun x hx => hv x (List.mem_cons_of_mem _ hx))
      (fun x hx => hfit x (List.mem_cons_of_mem _ hx)) hsep'
      (Or.inr ⟨rfl, _, rfl, by
        intro h' hh'
        cases hs with
        | nil => simp at hh'
        | cons h'' hs' =>
          simp at hh'; subst hh'
          have := congrArg Hunk.lnum_orig (read_new_block_pair h.table (st.done ++ st.rest).getLast? g)
          have e2 := congrArg Hunk.count_orig (read_new_block_pair h.table (st.done ++ st.rest).getLast? g)
          simp only [diff_T.pair] at this e2
          rw [this, e2]
          exact hsep.1⟩)
    refine ⟨r, ?_, hr2, ?_⟩
    · simp only [List.map_cons, read_lines, hline]
      simpa using hr
    · rw [hr3]
      simp [read_new_block_pair]

theorem copy_remaining_tail (done : List diff_T) (notset : Bool) (rest : List diff_T)
    (h : rest = [] ∨ (notset = false ∧ ∃ b, rest = [b])) :
    copy_remaining 0 1 done notset rest = done ++ rest := by
  rcases h with h | ⟨hn, b, hb⟩
  · simp [h, copy_remaining]
  · simp [hb, hn, copy_remaining]

theorem read_lines_skip (H : Host) (diffbuf : Nat → Option buf_T) (idx_orig idx_new : Nat)
    (line : List Char) (hl : parse_hunk line = none) (pre post : List (List Char)) :
    ∀ st, read_lines H diffbuf idx_orig idx_new st (pre ++ line :: post)
      = read_lines H diffbuf idx_orig idx_new st (pre ++ post) := by
  induction pre with
  | nil =>
    intro st
    simp [read_lines, read_line, hl]
  | cons l pre ih =>
    intro st
    simp only [List.cons_append, read_lines, List.append_eq, ih]

theorem not_hunk_line : ¬ ∃ h : HunkLine, h.valid ∧ h.text = "1,2a3".toList := by
  rintro ⟨⟨kind, f1, l1, f2, l2⟩, ⟨hk, hf1, hl1, hf2, hl2, -, -⟩, ht⟩
  simp only [HunkLine.text, range_text] at ht hk
  have hcomma : isdigit ',' = false := by decide
  have ha : isdigit 'a' = false := by decide
  -- the first number is "1"
  obtain ⟨c, f1', rfl⟩ : ∃ c f1', f1 = c :: f1' := by
    cases f1 with
    | nil => exact absurd rfl hf1.1
    | cons c cs => exact ⟨c, cs, rfl⟩
  have hf1' : f1' = [] := by
    cases f1' with
    | nil => rfl
    | cons d ds =>
      exfalso
      have hd : isdigit d = true := hf1.2 d (by simp)
      cases l1 <;> simp at ht <;> (obtain ⟨-, rfl, -⟩ := ht; simp [hcomma] at hd)
  subst hf1'
  cases l1 with
  | none =>
    simp at ht
    obtain ⟨-, rfl, -⟩ := ht
    rcases hk with hk | ⟨hk, -⟩ | ⟨hk, -⟩ <;> simp at hk
  | some l =>
    have hl : is_number l := hl1
    obtain ⟨d, l', rfl⟩ : ∃ d l', l = d :: l' := by
      cases l with
      | nil => exact absurd rfl hl.1
      | cons c cs => exact ⟨c, cs, rfl⟩
    have hl' : l' = [] := by
      cases l' with
      | nil => rfl
      | cons e es =>
        exfalso
        have he : isdigit e = true := hl.2 e (by simp)
        simp at ht
        obtain ⟨-, -, rfl, -⟩ := ht
        simp [ha] at he
    subst hl'
    simp at ht
    obtain ⟨-, -, rfl, -⟩ := ht
    rcases hk with hk | ⟨-, hk⟩ | ⟨hk, -⟩ <;> simp at hk

/-- Claim C2: after a call of `diff_mark_adjust` for a participating buffer, with block
allocation succeeding, every block of the list has a non-zero count in some participating
buffer, whatever the list was before the call: the final sweep removes every all-zero
block. -/
theorem C2_no_all_zero_block_after_adjust (H : Host) (S : DiffState) (curbuf : buf_T)
    (line1 line2 amount amount_after : Int)
    (hidx : diff_buf_idx S.diffbuf curbuf ≠ DB_COUNT) (halloc : H.alloc.isSome = true) :
    ∀ b ∈ (diff_mark_adjust H S curbuf line1 line2 amount amount_after).first_diff,
      ∃ i, i < DB_COUNT ∧ participating S.diffbuf i = true ∧ b.df_count i ≠ 0 := by
  intro b hb
  rw [diff_mark_adjust_list, if_neg hidx] at hb
  split at hb
  · rename_i hr
    rw [(adjust_walk_returned _ _ _ _ _ _ _ _ _ _ _ _ _ hr).1] at halloc
    exact absurd halloc (by simp)
  · have hz := (mem_sweep _ _ _ hb).2
    by_contra hne
    have : all_zero S.diffbuf b = true := by
      rw [all_zero_iff]
      intro i hi hp
      by_contra h0
      exact hne ⟨i, hi, hp, h0⟩
    rw [this] at hz
    exact Bool.noConfusion hz

/-- Claim C10: while `diff_busy` is set `diff_mark_adjust` allocates no block: for every
list and every notification the list does not get longer, and the result is the same
whatever `alloc` would return. -/
theorem C10_busy_never_allocates (H : Host) (S : DiffState) (curbuf : buf_T)
    (line1 line2 amount amount_after : Int) (hbusy : S.diff_busy = true) :
    (diff_mark_adjust H S curbuf line1 line2 amount amount_after).first_diff.length
        ≤ S.first_diff.length
      ∧ ∀ a : Option diff_T,
          diff_mark_adjust { H with alloc := a } S curbuf line1 line2 amount amount_after
            = diff_mark_adjust H S curbuf line1 line2 amount amount_after := by
  constructor
  · rw [diff_mark_adjust_list]
    split
    · exact le_refl _
    · simp only [hbusy]
      have h2 := (adjust_walk_busy H H rfl rfl rfl S.diffbuf S.diff_flags
        (diff_buf_idx S.diffbuf curbuf) line2 amount_after
        (inserted_of line2 amount amount_after) [] none line1
        (deleted_of line2 amount_after) S.first_diff).2
      simp only [List.length_nil, Option.toList, Nat.zero_add] at h2
      split
      · exact h2
      · exact le_trans (sweep_length_le _ _) h2
  · intro a
    unfold diff_mark_adjust
    simp only [hbusy]
    rw [(adjust_walk_busy H { H with alloc := a } rfl rfl rfl S.diffbuf S.diff_flags
        (diff_buf_idx S.diffbuf curbuf) line2 amount_after
        (inserted_of line2 amount amount_after) [] none line1
        (deleted_of line2 amount_after) S.first_diff).1]

/-! ## The claims on concrete lists -/

/-- The line `5,3c1` has `L1 < F1`. -/
theorem rejected_range : rejected_line "5,3c1".toList :=
  Or.inr (Or.inr ⟨"5".toList, some "3".toList, 'c', "1".toList, none, [], by decide,
    by decide, by decide, by decide, by decide, by decide, by decide, fun _ => rfl,
    by decide⟩)

/-- The line `12,13` has no letter after `F1,L1`. -/
theorem rejected_no_letter : rejected_line "12,13".toList :=
  Or.inr (Or.inl ⟨"12".toList, some "13".toList, [], by decide, by decide, by decide,
    by decide, (fun h => by cases h), by decide⟩)

/-- The line `7x8` has the letter `x` after `F1`. -/
theorem rejected_letter : rejected_line "7x8".toList :=
  Or.inr (Or.inl ⟨"7".toList, none, "x8".toList, by decide, by decide, by decide,
    by decide, fun _ => by decide, by decide⟩)

/-- The line `< a4` does not begin with a digit. -/
theorem rejected_no_digit : rejected_line "< a4".toList := Or.inl (by decide)

/-- Deleting line 6 of the first buffer empties the block `{start=[6,6], count=[1,0]}`,
which is swept; the block `{start=[3,3], count=[1,1]}` stays. -/
theorem C2_witness :
    diff_buf_idx
        (state_of 2 [block_of [3, 3] [1, 1], block_of [6, 6] [1, 0]] false).diffbuf 0
        ≠ DB_COUNT
      ∧ (host_of []).alloc.isSome = true
      ∧ (∀ b ∈ (diff_mark_adjust (host_of [])
            (state_of 2 [block_of [3, 3] [1, 1], block_of [6, 6] [1, 0]] false)
            0 6 6 MAXLNUM (-1)).first_diff,
          ∃ i, i < DB_COUNT
            ∧ participating
                (state_of 2 [block_of [3, 3] [1, 1], block_of [6, 6] [1, 0]] false).diffbuf i
                = true
            ∧ b.df_count i ≠ 0)
      ∧ (diff_mark_adjust (host_of [])
            (state_of 2 [block_of [3, 3] [1, 1], block_of [6, 6] [1, 0]] false)
            0 6 6 MAXLNUM (-1)).first_diff.map diff_T.view
          = [([3, 3, 0, 0], [1, 1, 0, 0])] :=
  ⟨by decide, rfl, C2_no_all_zero_block_after_adjust _ _ _ _ _ _ _ (by decide) rfl,
    by decide⟩

/-- Two lines inserted before line 1 of the first buffer: the block
`{start=[3,3], count=[1,1]}` becomes `{start=[5,3], count=[1,1]}`. -/
theorem C7_witness :
    diff_buf_idx (state_of 2 [block_of [3, 3] [1, 1]] false).diffbuf 0 ≠ DB_COUNT
      ∧ ((host_of []).alloc.isSome = true
          ∨ (state_of 2 [block_of [3, 3] [1, 1]] false).diff_busy = true)
      ∧ (0 : Int) < 2
      ∧ ordered_with_gap (state_of 2 [block_of [3, 3] [1, 1]] false).diffbuf
          (state_of 2 [block_of [3, 3] [1, 1]] false).first_diff
      ∧ well_formed (state_of 2 [block_of [3, 3] [1, 1]] false).diffbuf
          (state_of 2 [block_of [3, 3] [1, 1]] false).first_diff
      ∧ (∃ above, (diff_mark_adjust (host_of []) (state_of 2 [block_of [3, 3] [1, 1]] false)
            0 1 MAXLNUM 2 0).first_diff
          = above ++ ((state_of 2 [block_of [3, 3] [1, 1]] false).first_diff.filter
              (fun b => decide ((1 : Int) < b.df_lnum
                (diff_buf_idx (state_of 2 [block_of [3, 3] [1, 1]] false).diffbuf 0)))).map
              (shifted (diff_buf_idx (state_of 2 [block_of [3, 3] [1, 1]] false).diffbuf 0) 2))
      ∧ (diff_mark_adjust (host_of []) (state_of 2 [block_of [3, 3] [1, 1]] false)
            0 1 MAXLNUM 2 0).first_diff.map diff_T.view
          = [([1, 1, 0, 0], [2, 0, 0, 0]), ([5, 3, 0, 0], [1, 1, 0, 0])] :=
  ⟨by decide, Or.inl rfl, by decide, by decide, by decide,
    C7_insertion_shifts_blocks_below _ _ _ _ _ _ (by decide) (Or.inl rfl) (by decide)
      (by decide) (by decide) (by decide) (by decide),
    by decide⟩

/-- The middle block of `three_blocks` is removed by the deletion of its line; and the
block `{start=[2,2], count=[1,0]}`, when it is the only block, leaves the empty list after
line 2 of the first buffer is deleted. -/
theorem C8_witness :
    diff_buf_idx (state_of 2 three_blocks false).diffbuf 0 ≠ DB_COUNT
      ∧ ordered_with_gap (state_of 2 three_blocks false).diffbuf
          (state_of 2 three_blocks false).first_diff
      ∧ well_formed (state_of 2 three_blocks false).diffbuf
          (state_of 2 three_blocks false).first_diff
      ∧ (diff_mark_adjust (host_of []) (state_of 2 three_blocks false) 0
            ((block_of [5, 5] [1, 0]).df_lnum
              (diff_buf_idx (state_of 2 three_blocks false).diffbuf 0))
            ((block_of [5, 5] [1, 0]).df_lnum
              (diff_buf_idx (state_of 2 three_blocks false).diffbuf 0) + 1 - 1)
            MAXLNUM (- 1)).first_diff
          = sweep (state_of 2 three_blocks false).diffbuf
              ([block_of [2, 2] [1, 1]] ++ [block_of [8, 7] [1, 1]].map
                (shifted (diff_buf_idx (state_of 2 three_blocks false).diffbuf 0) (- 1)))
      ∧ (diff_mark_adjust (host_of []) (state_of 2 three_blocks false) 0
            5 5 MAXLNUM (- 1)).first_diff.map diff_T.view
          = [([2, 2, 0, 0], [1, 1, 0, 0]), ([7, 7, 0, 0], [1, 1, 0, 0])]
      ∧ (diff_mark_adjust (host_of []) (state_of 2 [block_of [2, 2] [1, 0]] false) 0
            2 2 MAXLNUM (- 1)).first_diff.length = 0 :=
  ⟨by decide, by decide, by decide,
    C8_deleting_block_lines_removes_block (host_of [])
      (state_of 2 three_blocks false) 0 MAXLNUM 1 [block_of [2, 2] [1, 1]]
      [block_of [8, 7] [1, 1]] (block_of [5, 5] [1, 0])
      (by decide) rfl (by decide) (by decide) (by decide) (by decide) (by decide)
      (by decide),
    by decide, by decide⟩

/-- With `diff_busy` set, two lines inserted before line 1 create no block: the list
keeps its one block, which is moved. -/
theorem C10_witness :
    (state_of 2 [block_of [3, 3] [1, 1]] true).diff_busy = true
      ∧ ((diff_mark_adjust (host_of []) (state_of 2 [block_of [3, 3] [1, 1]] true)
            0 1 MAXLNUM 2 0).first_diff.length
          ≤ (state_of 2 [block_of [3, 3] [1, 1]] true).first_diff.length
        ∧ ∀ a : Option diff_T,
            diff_mark_adjust { host_of [] with alloc := a }
                (state_of 2 [block_of [3, 3] [1, 1]] true) 0 1 MAXLNUM 2 0
              = diff_mark_adjust (host_of []) (state_of 2 [block_of [3, 3] [1, 1]] true)
                0 1 MAXLNUM 2 0)
      ∧ (diff_mark_adjust (host_of []) (state_of 2 [block_of [3, 3] [1, 1]] true)
            0 1 MAXLNUM 2 0).first_diff.map diff_T.view
          = [([5, 3, 0, 0], [1, 1, 0, 0])] :=
  ⟨rfl, C10_busy_never_allocates _ _ _ _ _ _ _ rfl, by decide⟩

/-- Claim C1 fails on the code.  Two buffers, the blocks `{start=[2,2], count=[1,1]}` and
`{start=[5,5], count=[1,1]}`, ordered with a gap and well formed; lines 2 to 5 of the
first buffer are deleted.  `diff_mark_adjust` leaves the blocks
`{start=[2,2], count=[0,3]}` and `{start=[5,5], count=[0,1]}`: in the second buffer the
first block ends at line 5, where the second one starts, so no unchanged line lies
between them. -/
theorem C1_gap_lost_by_deletion_over_two_blocks :
    ordered_with_gap (slots 2) [block_of [2, 2] [1, 1], block_of [5, 5] [1, 1]]
      ∧ well_formed (slots 2) [block_of [2, 2] [1, 1], block_of [5, 5] [1, 1]]
      ∧ (diff_mark_adjust (host_of [])
            (state_of 2 [block_of [2, 2] [1, 1], block_of [5, 5] [1, 1]] false)
            0 2 5 MAXLNUM (-4)).first_diff.map diff_T.view
          = [([2, 2, 0, 0], [0, 3, 0, 0]), ([5, 5, 0, 0], [0, 1, 0, 0])]
      ∧ ¬ ordered_with_gap (slots 2)
          (diff_mark_adjust (host_of [])
            (state_of 2 [block_of [2, 2] [1, 1], block_of [5, 5] [1, 1]] false)
            0 2 5 MAXLNUM (-4)).first_diff := by
  decide

/-- Claim C3 fails on the code.  Two buffers, the one block `{start=[10,10], count=[1,1]}`;
lines 5 to 9 of the first buffer are deleted (`1 <= line1 <= line2`,
`amount_after = -(line2 - line1 + 1)`).  `diff_mark_adjust` leaves the block with
`count[0] = -4` (and links a second block after it). -/
theorem C3_negative_count_after_deletion_above_block :
    ordered_with_gap (slots 2) [block_of [10, 10] [1, 1]]
      ∧ well_formed (slots 2) [block_of [10, 10] [1, 1]]
      ∧ (diff_mark_adjust (host_of []) (state_of 2 [block_of [10, 10] [1, 1]] false)
            0 5 9 MAXLNUM (-5)).first_diff.map diff_T.view
          = [([5, 5, 0, 0], [-4, 6, 0, 0]), ([5, 15, 0, 0], [0, 5, 0, 0])]
      ∧ ¬ well_formed (slots 2)
          (diff_mark_adjust (host_of []) (state_of 2 [block_of [10, 10] [1, 1]] false)
            0 5 9 MAXLNUM (-5)).first_diff := by
  decide

/-- Claim C9 fails on the code.  The block `{start=[3,3], count=[3,3]}` (lines 3 to 5),
lines 2 to 3 of the first buffer are deleted: `start >= line1`, `last = 5 > line2` and
`start - 1 <= line2`.  Two lines of the block survive (`last - line2 = 2`), but the block
that `diff_mark_adjust` has before trimming has `count[0] = 1`: the count is reduced by
`line2 - line1 + 1`, not by `line2 - start + 1`. -/
theorem C9_head_overlap_count_too_small :
    (block_of [3, 3] [3, 3]).df_lnum 0 ≥ 2
      ∧ (block_of [3, 3] [3, 3]).df_lnum 0 + (block_of [3, 3] [3, 3]).df_count 0 - 1 > 3
      ∧ (block_of [3, 3] [3, 3]).df_lnum 0 - 1 ≤ 3
      ∧ (touch_block (slots 2) 0 2 3 0 2 (block_of [3, 3] [3, 3]) none).dp.view
          = ([2, 2, 0, 0], [1, 4, 0, 0])
      ∧ (touch_block (slots 2) 0 2 3 0 2 (block_of [3, 3] [3, 3]) none).check_unchanged = true
      ∧ (touch_block (slots 2) 0 2 3 0 2 (block_of [3, 3] [3, 3]) none).dp.df_count 0
          ≠ (block_of [3, 3] [3, 3]).df_lnum 0 + (block_of [3, 3] [3, 3]).df_count 0 - 1 - 3
      ∧ (diff_mark_adjust (host_of [["a".toList, "b".toList, "c".toList], []])
            (state_of 2 [block_of [3, 3] [3, 3]] false) 0 2 3 MAXLNUM (-2)).first_diff.map
            diff_T.view
          = [([2, 2, 0, 0], [1, 4, 0, 0])] := by
  decide

/-! ## The comparator without flags, and with `IWHITE` alone -/

theorem toNat_ne_zero_of_ne_NUL (c : Char) (h : c ≠ NUL) : (c.toNat : Int) ≠ 0 := by
  intro h0
  apply h
  have h1 : c.toNat = 0 := by exact_mod_cast h0
  have := Char.ofNat_toNat c
  rw [h1] at this
  exact this.symm

theorem toNat_sub_ne_zero (a b : Char) (h : a ≠ b) : (a.toNat : Int) - (b.toNat : Int) ≠ 0 := by
  intro h0
  apply h
  have h1 : a.toNat = b.toNat := by omega
  have ha := Char.ofNat_toNat a
  have hb := Char.ofNat_toNat b
  rw [h1] at ha
  exact ha.symm.trans hb

theorem STRCMP_eq_zero (s1 : List Char) :
    ∀ s2 : List Char, NUL ∉ s1 → NUL ∉ s2 → (STRCMP s1 s2 = 0 ↔ s1 = s2) := by
  induction s1 with
  | nil =>
    intro s2 _ h2
    cases s2 with
    | nil => simp [STRCMP]
    | cons c cs =>
      simp only [STRCMP, neg_eq_zero]
      have := toNat_ne_zero_of_ne_NUL c (by intro e; apply h2; simp [e])
      simp [this]
  | cons a as ih =>
    intro s2 h1 h2
    cases s2 with
    | nil =>
      simp only [STRCMP]
      have := toNat_ne_zero_of_ne_NUL a (by intro e; apply h1; simp [e])
      simp [this]
    | cons b bs =>
      simp only [STRCMP]
      by_cases hab : a = b
      · rw [if_pos hab]
        rw [ih bs (by intro h; apply h1; simp [h]) (by intro h; apply h2; simp [h])]
        simp [hab]
      · rw [if_neg hab]
        have := toNat_sub_ne_zero a b hab
        simp [this, hab]

theorem flags_clear (fl : Nat) (hi : fl &&& DIFF_ICASE = 0) (hw : fl &&& DIFF_IWHITE = 0) :
    fl &&& (DIFF_ICASE ||| DIFF_IWHITE) = 0 := by
  rw [Nat.and_or_distrib_left, hi, hw]; rfl

/-- Claim C19: with both `ICASE` and `IWHITE` clear, `diff_cmp` of two lines (C strings,
so without a `NUL` byte inside) is zero if and only if the lines are equal byte for
byte. -/
theorem C19_plain_compare_is_byte_equality (H : Host) (diff_flags : Nat)
    (s1 s2 : List Char) (hi : diff_flags &&& DIFF_ICASE = 0)
    (hw : diff_flags &&& DIFF_IWHITE = 0) (h1 : NUL ∉ s1) (h2 : NUL ∉ s2) :
    diff_cmp H diff_flags s1 s2 = 0 ↔ s1 = s2 := by
  unfold diff_cmp
  rw [if_pos (flags_clear diff_flags hi hw)]
  exact STRCMP_eq_zero s1 s2 h1 h2

theorem C19_witness :
    (DIFF_FILLER &&& DIFF_ICASE = 0 ∧ DIFF_FILLER &&& DIFF_IWHITE = 0
      ∧ NUL ∉ "a b".toList ∧ NUL ∉ "a  b".toList)
    ∧ (diff_cmp (host_of []) DIFF_FILLER "a b".toList "a  b".toList = 0
        ↔ "a b".toList = "a  b".toList)
    ∧ diff_cmp (host_of []) DIFF_FILLER "a b".toList "a  b".toList ≠ 0
    ∧ diff_cmp (host_of []) DIFF_FILLER "a b".toList "a b".toList = 0 :=
  ⟨by decide,
    C19_plain_compare_is_byte_equality (host_of []) DIFF_FILLER "a b".toList "a  b".toList
      (by decide) (by decide) (by decide) (by decide),
    by decide, by decide⟩

/-- Claim C20 fails on the code.  With `IWHITE` set and `ICASE` clear the lines `a` and
`A` compare equal: the loop of `diff_cmp` (line 1175) folds the case of every byte
without looking at `ICASE`.  -/
theorem C20_iwhite_alone_folds_case :
    DIFF_IWHITE &&& DIFF_IWHITE ≠ 0 ∧ DIFF_IWHITE &&& DIFF_ICASE = 0
      ∧ "a".toList ≠ "A".toList
      ∧ diff_cmp (host_of []) DIFF_IWHITE "a".toList "A".toList = 0
      ∧ diff_cmp (host_of []) (DIFF_IWHITE ||| DIFF_FILLER) "diff".toList "DIFF".toList = 0 := by
  decide

/-! ## The edges of a block after `diff_check_unchanged` -/

theorem first_mismatch_found (H : Host) (diffbuf : Nat → Option buf_T) (fl i_org : Nat)
    (bw : Bool) (dp : diff_T) (line : List Char) (hi : i_org < DB_COUNT)
    (h : first_mismatch H diffbuf fl i_org bw dp line ≠ DB_COUNT) :
    ∃ i, i_org < i ∧ i < DB_COUNT ∧ participating diffbuf i = true
      ∧ (trim_off bw (dp.df_count i) < 0
        ∨ trim_off bw (dp.df_count i) ≥ dp.df_count i
        ∨ diff_cmp H fl line
            (ml_get_slot H diffbuf i (dp.df_lnum i + trim_off bw (dp.df_count i))) ≠ 0) := by
  unfold first_mismatch at h
  have e : i_org + 1 + (DB_COUNT - (i_org + 1)) = DB_COUNT := by omega
  have hf := find_idx_found _ (DB_COUNT - (i_org + 1)) (i_org + 1) (by rw [e]; exact h)
  have hg := find_idx_ge
    (fun i_new =>
      participating diffbuf i_new &&
        (decide (trim_off bw (dp.df_count i_new) < 0
            ∨ trim_off bw (dp.df_count i_new) ≥ dp.df_count i_new) ||
          decide (diff_cmp H fl line
            (ml_get_slot H diffbuf i_new
              (dp.df_lnum i_new + trim_off bw (dp.df_count i_new))) ≠ 0)))
    (DB_COUNT - (i_org + 1)) (i_org + 1)
  generalize find_idx _ (DB_COUNT - (i_org + 1)) (i_org + 1) = k at hf hg
  refine ⟨k, by omega, by omega, ?_⟩
  have h1 := hf.1
  simp only [Bool.and_eq_true, Bool.or_eq_true, decide_eq_true_eq] at h1
  refine ⟨h1.1, ?_⟩
  rcases h1.2 with (h2 | h2) | h2
  · exact Or.inl h2
  · exact Or.inr (Or.inl h2)
  · exact Or.inr (Or.inr h2)

theorem first_mismatch_none (H : Host) (diffbuf : Nat → Option buf_T) (fl i_org : Nat)
    (bw : Bool) (dp : diff_T) (line : List Char) (hi : i_org < DB_COUNT)
    (h : first_mismatch H diffbuf fl i_org bw dp line = DB_COUNT) :
    ∀ i, i_org < i → i < DB_COUNT → participating diffbuf i = true →
      0 ≤ trim_off bw (dp.df_count i) ∧ trim_off bw (dp.df_count i) < dp.df_count i
        ∧ diff_cmp H fl line
            (ml_get_slot H diffbuf i (dp.df_lnum i + trim_off bw (dp.df_count i))) = 0 := by
  unfold first_mismatch at h
  have e : i_org + 1 + (DB_COUNT - (i_org + 1)) = DB_COUNT := by omega
  have hf := (find_idx_eq_end _ (DB_COUNT - (i_org + 1)) (i_org + 1)).1 (by rw [e]; exact h)
  intro i h1 h2 hp
  have h3 := hf i (by omega) (by omega)
  simp only [hp, Bool.true_and, Bool.or_eq_false_iff, decide_eq_false_iff_not, not_or,
    not_lt, ge_iff_le, not_le, ne_eq, not_not] at h3
  exact ⟨h3.1.1, h3.1.2, h3.2⟩

/-- With enough fuel and `vim_strsave` never failing, `trim_loop` is left because the
origin has no line left in the block or because the inner loop met a mismatch. -/
theorem trim_loop_exit (H : Host) (diffbuf : Nat → Option buf_T) (fl i_org : Nat)
    (bw : Bool) (hi : i_org < DB_COUNT) (hp : participating diffbuf i_org = true)
    (hs : ∀ l, H.strsave_ok l = true) (fuel : Nat) :
    ∀ dp : diff_T, dp.df_count i_org ≤ fuel →
      (trim_loop H diffbuf fl i_org bw fuel dp).2 = false
        ∧ ((trim_loop H diffbuf fl i_org bw fuel dp).1.df_count i_org ≤ 0
          ∨ first_mismatch H diffbuf fl i_org bw (trim_loop H diffbuf fl i_org bw fuel dp).1
              (ml_get_slot H diffbuf i_org
                ((trim_loop H diffbuf fl i_org bw fuel dp).1.df_lnum i_org
                  + trim_off bw ((trim_loop H diffbuf fl i_org bw fuel dp).1.df_count i_org)))
            ≠ DB_COUNT) := by
  induction fuel with
  | zero =>
    intro dp h
    simp only [trim_loop]
    exact ⟨trivial, Or.inl (show dp.df_count i_org ≤ 0 by simpa using h)⟩
  | succ n ih =>
    intro dp h
    simp only [trim_loop]
    by_cases h1 : dp.df_count i_org > 0
    · rw [if_pos h1, if_pos (hs _)]
      by_cases h2 : first_mismatch H diffbuf fl i_org bw dp
          (ml_get_slot H diffbuf i_org (dp.df_lnum i_org + trim_off bw (dp.df_count i_org)))
          ≠ DB_COUNT
      · rw [if_pos h2]
        exact ⟨rfl, Or.inr h2⟩
      · rw [if_neg h2]
        apply ih
        rw [remove_line_count diffbuf i_org bw dp hi hp]
        push_cast at h
        omega
    · rw [if_neg h1]
      exact ⟨rfl, Or.inl (show dp.df_count i_org ≤ 0 by omega)⟩

theorem remove_line_backward_lnum (diffbuf : Nat → Option buf_T) (i_org : Nat)
    (dp : diff_T) (j : Nat) : (remove_line diffbuf i_org true dp).df_lnum j = dp.df_lnum j := by
  unfold remove_line
  rw [for_slots_lnum]
  split <;> simp

theorem remove_line_count_le (diffbuf : Nat → Option buf_T) (i_org : Nat) (bw : Bool)
    (dp : diff_T) (j : Nat) : (remove_line diffbuf i_org bw dp).df_count j ≤ dp.df_count j := by
  unfold remove_line
  rw [for_slots_count]
  split <;> simp

theorem trim_loop_backward_lnum (H : Host) (diffbuf : Nat → Option buf_T) (fl i_org : Nat)
    (j : Nat) (fuel : Nat) (dp : diff_T) :
    (trim_loop H diffbuf fl i_org true fuel dp).1.df_lnum j = dp.df_lnum j := by
  induction fuel generalizing dp with
  | zero => simp [trim_loop]
  | succ n ih =>
    simp only [trim_loop]
    split
    · split
      · split
        · rfl
        · rw [ih, remove_line_backward_lnum]
      · rfl
    · rfl

theorem trim_loop_count_le (H : Host) (diffbuf : Nat → Option buf_T) (fl i_org : Nat)
    (bw : Bool) (j : Nat) (fuel : Nat) (dp : diff_T) :
    (trim_loop H diffbuf fl i_org bw fuel dp).1.df_count j ≤ dp.df_count j := by
  induction fuel generalizing dp with
  | zero => simp [trim_loop]
  | succ n ih =>
    simp only [trim_loop]
    split
    · split
      · split
        · exact le_refl _
        · exact le_trans (ih _) (remove_line_count_le _ _ _ _ _)
      · exact le_refl _
    · exact le_refl _

/-- The loop removes a line only where every participating buffer has one: counts that
were not negative stay so. -/
theorem trim_loop_nonneg (H : Host) (diffbuf : Nat → Option buf_T) (fl i_org : Nat)
    (bw : Bool) (hi : i_org < DB_COUNT) (fuel : Nat) :
    ∀ dp : diff_T, (∀ j, participating diffbuf j = true → 0 ≤ dp.df_count j) →
      ∀ j, participating diffbuf j = true →
        0 ≤ (trim_loop H diffbuf fl i_org bw fuel dp).1.df_count j := by
  induction fuel with
  | zero => intro dp h j hj; simpa [trim_loop] using h j hj
  | succ n ih =>
    intro dp h j hj
    simp only [trim_loop]
    by_cases h1 : dp.df_count i_org > 0
    · rw [if_pos h1]
      split
      · by_cases h2 : first_mismatch H diffbuf fl i_org bw dp
            (ml_get_slot H diffbuf i_org (dp.df_lnum i_org + trim_off bw (dp.df_count i_org)))
            ≠ DB_COUNT
        · rw [if_pos h2]; exact h j hj
        · rw [if_neg h2]
          apply ih _ _ j hj
          intro k hk
          unfold remove_line
          rw [for_slots_count]
          by_cases h3 : i_org ≤ k ∧ k < DB_COUNT ∧ participating diffbuf k = true
          · rw [if_pos h3]
            by_cases h4 : k = i_org
            · subst h4; simp only; omega
            · have := first_mismatch_none H diffbuf fl i_org bw dp _ hi (not_not.1 h2) k
                (by omega) h3.2.1 hk
              simp only
              omega
          · rw [if_neg h3]; exact h k hk
      · exact h j hj
    · rw [if_neg h1]; exact h j hj

theorem origin_participating (diffbuf : Nat → Option buf_T)
    (h : ∃ i, i < DB_COUNT ∧ participating diffbuf i = true) :
    find_idx (participating diffbuf) DB_COUNT 0 < DB_COUNT
      ∧ participating diffbuf (find_idx (participating diffbuf) DB_COUNT 0) = true := by
  obtain ⟨i, hi, hp⟩ := h
  have hne : find_idx (participating diffbuf) DB_COUNT 0 ≠ 0 + DB_COUNT := by
    intro e
    have := (find_idx_eq_end _ _ _).1 e i (by omega) (by omega)
    rw [hp] at this
    exact Bool.noConfusion this
  have := find_idx_found _ _ _ hne
  exact ⟨by omega, this.1⟩

/-- Claim C18: let at least two buffers participate, let `vim_strsave` succeed and let no
participating count of the block be negative.  If after `diff_check_unchanged` the
origin (the first participating buffer) still has `count[origin] > 0`, then some other
participating buffer has count 0 in the block or its first block line differs under
`diff_cmp` from the first block line of the origin; and the same holds for the last
block lines. -/
theorem C18_trimmed_block_edges_differ (H : Host) (diffbuf : Nat → Option buf_T)
    (diff_flags : Nat) (dp : diff_T)
    (h2 : ∃ i j, i < DB_COUNT ∧ j < DB_COUNT ∧ i ≠ j
      ∧ participating diffbuf i = true ∧ participating diffbuf j = true)
    (hs : ∀ l, H.strsave_ok l = true)
    (hc : ∀ i, participating diffbuf i = true → 0 ≤ dp.df_count i)
    (hpos : 0 < (diff_check_unchanged H diffbuf diff_flags dp).df_count
      (find_idx (participating diffbuf) DB_COUNT 0)) :
    (∃ i, i < DB_COUNT ∧ i ≠ find_idx (participating diffbuf) DB_COUNT 0
      ∧ participating diffbuf i = true
      ∧ ((diff_check_unchanged H diffbuf diff_flags dp).df_count i = 0
        ∨ diff_cmp H diff_flags
            (ml_get_slot H diffbuf (find_idx (participating diffbuf) DB_COUNT 0)
              ((diff_check_unchanged H diffbuf diff_flags dp).df_lnum
                (find_idx (participating diffbuf) DB_COUNT 0)))
            (ml_get_slot H diffbuf i
              ((diff_check_unchanged H diffbuf diff_flags dp).df_lnum i)) ≠ 0))
    ∧ (∃ i, i < DB_COUNT ∧ i ≠ find_idx (participating diffbuf) DB_COUNT 0
      ∧ participating diffbuf i = true
      ∧ ((diff_check_unchanged H diffbuf diff_flags dp).df_count i = 0
        ∨ diff_cmp H diff_flags
            (ml_get_slot H diffbuf (find_idx (participating diffbuf) DB_COUNT 0)
              ((diff_check_unchanged H diffbuf diff_flags dp).df_lnum
                  (find_idx (participating diffbuf) DB_COUNT 0)
                + (diff_check_unchanged H diffbuf diff_flags dp).df_count
                  (find_idx (participating diffbuf) DB_COUNT 0) - 1))
            (ml_get_slot H diffbuf i
              ((diff_check_unchanged H diffbuf diff_flags dp).df_lnum i
                + (diff_check_unchanged H diffbuf diff_flags dp).df_count i - 1)) ≠ 0)) := by
  obtain ⟨a, b, ha, _, _, hpa, _⟩ := h2
  obtain ⟨hi, hp⟩ := origin_participating diffbuf ⟨a, ha, hpa⟩
  have hfw := trim_loop_exit H diffbuf diff_flags _ false hi hp hs
    (dp.df_count (find_idx (participating diffbuf) DB_COUNT 0)).toNat dp (Int.self_le_toNat _)
  have e : diff_check_unchanged H diffbuf diff_flags dp
      = (trim_loop H diffbuf diff_flags (find_idx (participating diffbuf) DB_COUNT 0) true
          ((trim_loop H diffbuf diff_flags (find_idx (participating diffbuf) DB_COUNT 0) false
            (dp.df_count (find_idx (participating diffbuf) DB_COUNT 0)).toNat dp).1.df_count
              (find_idx (participating diffbuf) DB_COUNT 0)).toNat
          (trim_loop H diffbuf diff_flags (find_idx (participating diffbuf) DB_COUNT 0) false
            (dp.df_count (find_idx (participating diffbuf) DB_COUNT 0)).toNat dp).1).1 := by
    unfold diff_check_unchanged
    simp only
    rw [if_neg (Nat.ne_of_lt hi), hfw.1]
    simp
  rw [e] at hpos ⊢
  clear e
  generalize find_idx (participating diffbuf) DB_COUNT 0 = org at hi hp hpos hfw ⊢
  have hfn := trim_loop_nonneg H diffbuf diff_flags org false hi (dp.df_count org).toNat dp hc
  generalize trim_loop H diffbuf diff_flags org false (dp.df_count org).toNat dp = r1
    at hfw hfn hpos ⊢
  have hbw := trim_loop_exit H diffbuf diff_flags org true hi hp hs
    (r1.1.df_count org).toNat r1.1 (Int.self_le_toNat _)
  have hbn := trim_loop_nonneg H diffbuf diff_flags org true hi (r1.1.df_count org).toNat
    r1.1 hfn
  have hbl := fun j => trim_loop_backward_lnum H diffbuf diff_flags org j
    (r1.1.df_count org).toNat r1.1
  have hbc := fun j => trim_loop_count_le H diffbuf diff_flags org true j
    (r1.1.df_count org).toNat r1.1
  generalize (trim_loop H diffbuf diff_flags org true (r1.1.df_count org).toNat r1.1) = r2
    at hbw hbn hbl hbc hpos ⊢
  constructor
  · rcases hfw.2 with h0 | hm
    · have := hbc org; omega
    · obtain ⟨i, h1, h3, h4, h5⟩ := first_mismatch_found H diffbuf diff_flags org false r1.1 _ hi hm
      refine ⟨i, h3, by omega, h4, ?_⟩
      simp only [trim_off, Bool.false_eq_true, if_false, add_zero] at h5
      rcases h5 with h5 | h5 | h5
      · omega
      · left
        have := hbc i
        have := hbn i h4
        omega
      · right
        rw [hbl org, hbl i]
        exact h5
  · rcases hbw.2 with h0 | hm
    · omega
    · obtain ⟨i, h1, h3, h4, h5⟩ := first_mismatch_found H diffbuf diff_flags org true r2.1 _ hi hm
      refine ⟨i, h3, by omega, h4, ?_⟩
      simp only [trim_off, if_true] at h5
      rcases h5 with h5 | h5 | h5
      · left
        have := hbn i h4
        omega
      · omega
      · right
        rw [add_sub_assoc, add_sub_assoc]
        exact h5

theorem C18_witness :
    ((∃ i j, i < DB_COUNT ∧ j < DB_COUNT ∧ i ≠ j
        ∧ participating (slots 2) i = true ∧ participating (slots 2) j = true)
      ∧ (∀ l, (host_of edge_bufs).strsave_ok l = true)
      ∧ (block_of [1, 1] [3, 3]).view = ([1, 1, 0, 0], [3, 3, 0, 0])
      ∧ edge_block.view = ([2, 2, 0, 0], [1, 1, 0, 0])
      ∧ 0 < edge_block.df_count (find_idx (participating (slots 2)) DB_COUNT 0))
    ∧ ((∃ i, i < DB_COUNT ∧ i ≠ find_idx (participating (slots 2)) DB_COUNT 0
      ∧ participating (slots 2) i = true
      ∧ (edge_block.df_count i = 0
        ∨ diff_cmp (host_of edge_bufs) DIFF_FILLER
            (ml_get_slot (host_of edge_bufs) (slots 2)
              (find_idx (participating (slots 2)) DB_COUNT 0)
              (edge_block.df_lnum (find_idx (participating (slots 2)) DB_COUNT 0)))
            (ml_get_slot (host_of edge_bufs) (slots 2) i (edge_block.df_lnum i)) ≠ 0))
    ∧ (∃ i, i < DB_COUNT ∧ i ≠ find_idx (participating (slots 2)) DB_COUNT 0
      ∧ participating (slots 2) i = true
      ∧ (edge_block.df_count i = 0
        ∨ diff_cmp (host_of edge_bufs) DIFF_FILLER
            (ml_get_slot (host_of edge_bufs) (slots 2)
              (find_idx (participating (slots 2)) DB_COUNT 0)
              (edge_block.df_lnum (find_idx (participating (slots 2)) DB_COUNT 0)
                + edge_block.df_count (find_idx (participating (slots 2)) DB_COUNT 0) - 1))
            (ml_get_slot (host_of edge_bufs) (slots 2) i
              (edge_block.df_lnum i + edge_block.df_count i - 1)) ≠ 0))) :=
  ⟨⟨⟨0, 1, by decide⟩, fun _ => rfl, by decide, by decide, by decide⟩,
    C18_trimmed_block_edges_differ (host_of edge_bufs) (slots 2) DIFF_FILLER
      (block_of [1, 1] [3, 3]) ⟨0, 1, by decide⟩ (fun _ => rfl)
      (by
        intro i hi
        have : i < 2 := by
          by_contra h
          simp [participating, slots, h] at hi
        interval_cases i <;> decide)
      (by decide)⟩

/-! ## The value of `diff_check` -/

theorem find_idx_ne_end (p : Nat → Bool) (n i : Nat) :
    find_idx p n i ≠ i + n ↔ ∃ j, i ≤ j ∧ j < i + n ∧ p j = true := by
  rw [Ne, find_idx_eq_end]
  constructor
  · intro h
    by_contra hc
    apply h
    intro j h1 h2
    by_contra hp
    exact hc ⟨j, h1, h2, by simpa using hp⟩
  · rintro ⟨j, h1, h2, hp⟩ h
    rw [h j h1 h2] at hp
    exact Bool.noConfusion hp

/-- A search over all the slots finds something exactly when some slot passes the
test. -/
theorem find_idx_slots (p : Nat → Bool) :
    find_idx p DB_COUNT 0 ≠ DB_COUNT ↔ ∃ j, j < DB_COUNT ∧ p j = true := by
  have := find_idx_ne_end p DB_COUNT 0
  simp only [Nat.zero_add, Nat.zero_le, true_and] at this
  exact this

theorem diff_equal_entry_iff (H : Host) (diffbuf : Nat → Option buf_T) (fl : Nat)
    (dp : diff_T) (idx1 idx2 : Nat) (hs : ∀ l, H.strsave_ok l = true) :
    diff_equal_entry H diffbuf fl dp idx1 idx2 = true
      ↔ dp.df_count idx1 = dp.df_count idx2
        ∧ lines_pairwise_equal H diffbuf fl dp idx1 idx2 := by
  unfold diff_equal_entry lines_pairwise_equal
  by_cases hc : dp.df_count idx1 = dp.df_count idx2
  · rw [if_neg (not_not.2 hc)]
    simp only [List.all_eq_true, List.mem_range, hs, Bool.true_and, decide_eq_true_eq, hc,
      true_and]
  · rw [if_pos hc]
    simp [hc]

/-- The value of `check_inside`: -1 when some counterpart has another count or lines
that are not equal, else -2. -/
theorem check_inside_eq (H : Host) (diffbuf : Nat → Option buf_T) (fl : Nat)
    (dp : diff_T) (idx : Nat) (hs : ∀ l, H.strsave_ok l = true) :
    ((∃ i, i < DB_COUNT ∧ i ≠ idx ∧ participating diffbuf i = true ∧ dp.df_count i ≠ 0
        ∧ (dp.df_count i ≠ dp.df_count idx
          ∨ ¬ lines_pairwise_equal H diffbuf fl dp idx i))
      → check_inside H diffbuf fl dp idx = -1)
    ∧ ((∀ i, i < DB_COUNT → i ≠ idx → participating diffbuf i = true → dp.df_count i ≠ 0
        → dp.df_count i = dp.df_count idx ∧ lines_pairwise_equal H diffbuf fl dp idx i)
      → check_inside H diffbuf fl dp idx = -2) := by
  have e1 := find_idx_slots (fun i => counterpart diffbuf dp idx i
      && decide (dp.df_count i ≠ dp.df_count idx))
  have e2 := find_idx_slots (counterpart diffbuf dp idx)
  have e3 := find_idx_slots (fun i => counterpart diffbuf dp idx i
      && !diff_equal_entry H diffbuf fl dp idx i)
  simp only [counterpart, Bool.and_eq_true, decide_eq_true_eq, Bool.not_eq_true',
    ← Bool.not_eq_true, diff_equal_entry_iff H diffbuf fl dp _ _ hs] at e1 e2 e3
  unfold check_inside
  constructor
  · rintro ⟨i, hi, h1, h2, h3, h4⟩
    by_cases hA : find_idx (fun i => counterpart diffbuf dp idx i
        && decide (dp.df_count i ≠ dp.df_count idx)) DB_COUNT 0 ≠ DB_COUNT
    · rw [if_pos hA]
    · rw [if_neg hA]
      have hcmp : find_idx (counterpart diffbuf dp idx) DB_COUNT 0 ≠ DB_COUNT :=
        e2.2 ⟨i, hi, ⟨h1, h2⟩, h3⟩
      have hne : dp.df_count i = dp.df_count idx := by
        by_contra hc
        exact hA (e1.2 ⟨i, hi, ⟨⟨h1, h2⟩, h3⟩, hc⟩)
      have hl : ¬ lines_pairwise_equal H diffbuf fl dp idx i := by
        rcases h4 with h4 | h4
        · exact absurd hne h4
        · exact h4
      simp only [hcmp, decide_True, if_true, ne_eq, not_false_eq_true]
      rw [if_pos]
      exact e3.2 ⟨i, hi, ⟨⟨h1, h2⟩, h3⟩, fun h => hl h.2⟩
  · intro hall
    have hA : ¬ find_idx (fun i => counterpart diffbuf dp idx i
        && decide (dp.df_count i ≠ dp.df_count idx)) DB_COUNT 0 ≠ DB_COUNT := by
      intro h
      obtain ⟨i, hi, ⟨⟨h1, h2⟩, h3⟩, h4⟩ := e1.1 h
      exact h4 (hall i hi h1 h2 h3).1
    have hB : ¬ find_idx (fun i => counterpart diffbuf dp idx i
        && !diff_equal_entry H diffbuf fl dp idx i) DB_COUNT 0 ≠ DB_COUNT := by
      intro h
      obtain ⟨i, hi, ⟨⟨h1, h2⟩, h3⟩, h4⟩ := e3.1 h
      exact h4 ⟨(hall i hi h1 h2 h3).1.symm, (hall i hi h1 h2 h3).2⟩
    rw [if_neg hA]
    simp only [hB, if_false]
    split <;> rfl

/-- The search of `diff_check` stops at the first block that does not end above
`lnum`. -/
theorem find_first (idx : Nat) (lnum : Int) (pre post : List diff_T) (dp : diff_T)
    (hpre : ∀ a ∈ pre, a.df_lnum idx + a.df_count idx < lnum)
    (h2 : lnum ≤ dp.df_lnum idx + dp.df_count idx) :
    (pre ++ dp :: post).find? (fun b => decide (lnum ≤ b.df_lnum idx + b.df_count idx))
      = some dp := by
  rw [List.find?_append]
  have hnone : pre.find? (fun b => decide (lnum ≤ b.df_lnum idx + b.df_count idx)) = none := by
    rw [List.find?_eq_none]
    intro a ha
    have := hpre a ha
    simp only [decide_eq_true_eq, not_le]
    omega
  rw [hnone]
  simp only [Option.none_or, List.find?_cons]
  rw [show decide (lnum ≤ dp.df_lnum idx + dp.df_count idx) = true from decide_eq_true h2]

/-- In a list that is ordered with gaps, the search of `diff_check` stops at the block
`dp` for every line from the start of `dp` to the line just below it. -/
theorem find_block (diffbuf : Nat → Option buf_T) (idx : Nat) (hidx : idx < DB_COUNT)
    (hpart : participating diffbuf idx = true) (l : List diff_T) (dp : diff_T) (lnum : Int)
    (hord : ordered_with_gap diffbuf l) (hwf : well_formed diffbuf l) (hmem : dp ∈ l)
    (h1 : dp.df_lnum idx ≤ lnum) (h2 : lnum ≤ dp.df_lnum idx + dp.df_count idx) :
    l.find? (fun b => decide (lnum ≤ b.df_lnum idx + b.df_count idx)) = some dp := by
  obtain ⟨pre, post, rfl⟩ := List.append_of_mem hmem
  have hab := ends_above diffbuf idx hidx hpart dp post pre hord
    (fun a ha => (hwf a (List.mem_append_left _ ha) idx hidx hpart).2)
  exact find_first idx lnum pre post dp (fun a ha => by have := hab a ha; omega) h2

/-- The value of `diff_check` when nothing makes the function return early and the
search stops at the block `dp`, which does not start below `lnum`. -/
theorem diff_check_found (H : Host) (S : DiffState) (wp : win_T) (lnum : Int) (dp : diff_T)
    (hinv : S.diff_invalid = false) (hw : wp.w_p_diff = true)
    (hl1 : 1 ≤ lnum) (hl2 : lnum ≤ H.ml_line_count wp.w_buffer)
    (hidx : diff_buf_idx S.diffbuf wp.w_buffer ≠ DB_COUNT)
    (hfold : H.hasFoldingWin wp lnum = false)
    (hf : S.first_diff.find? (fun b => decide (lnum ≤
        b.df_lnum (diff_buf_idx S.diffbuf wp.w_buffer)
          + b.df_count (diff_buf_idx S.diffbuf wp.w_buffer))) = some dp)
    (h1 : dp.df_lnum (diff_buf_idx S.diffbuf wp.w_buffer) ≤ lnum) :
    (diff_check H S wp lnum).2 =
      if lnum < dp.df_lnum (diff_buf_idx S.diffbuf wp.w_buffer)
          + dp.df_count (diff_buf_idx S.diffbuf wp.w_buffer) then
        check_inside H S.diffbuf S.diff_flags dp (diff_buf_idx S.diffbuf wp.w_buffer)
      else if S.diff_flags &&& DIFF_FILLER = 0 then 0
      else max_count S.diffbuf dp - dp.df_count (diff_buf_idx S.diffbuf wp.w_buffer) := by
  have hne : S.first_diff.isEmpty = false := by
    cases hl : S.first_diff with
    | nil => rw [hl] at hf; simp at hf
    | cons a t => rfl
  unfold diff_check
  simp only [hinv, Bool.false_eq_true, if_false, hne, hw, Bool.not_true, Bool.or_self]
  rw [if_neg (by omega), if_neg hidx]
  simp only [hfold, Bool.false_eq_true, if_false, hf]
  rw [if_neg (by omega)]

/-- The value of `diff_check` for a line of a block, or the line just below it, of a list
that is ordered with gaps. -/
theorem diff_check_at (H : Host) (S : DiffState) (wp : win_T) (lnum : Int) (dp : diff_T)
    (hinv : S.diff_invalid = false) (hw : wp.w_p_diff = true)
    (hl1 : 1 ≤ lnum) (hl2 : lnum ≤ H.ml_line_count wp.w_buffer)
    (hidx : diff_buf_idx S.diffbuf wp.w_buffer ≠ DB_COUNT)
    (hfold : H.hasFoldingWin wp lnum = false)
    (hord : ordered_with_gap S.diffbuf S.first_diff)
    (hwf : well_formed S.diffbuf S.first_diff) (hmem : dp ∈ S.first_diff)
    (h1 : dp.df_lnum (diff_buf_idx S.diffbuf wp.w_buffer) ≤ lnum)
    (h2 : lnum ≤ dp.df_lnum (diff_buf_idx S.diffbuf wp.w_buffer)
      + dp.df_count (diff_buf_idx S.diffbuf wp.w_buffer)) :
    (diff_check H S wp lnum).2 =
      if lnum < dp.df_lnum (diff_buf_idx S.diffbuf wp.w_buffer)
          + dp.df_count (diff_buf_idx S.diffbuf wp.w_buffer) then
        check_inside H S.diffbuf S.diff_flags dp (diff_buf_idx S.diffbuf wp.w_buffer)
      else if S.diff_flags &&& DIFF_FILLER = 0 then 0
      else max_count S.diffbuf dp - dp.df_count (diff_buf_idx S.diffbuf wp.w_buffer) := by
  obtain ⟨hi, hp⟩ := diff_buf_idx_participating S.diffbuf wp.w_buffer hidx
  exact diff_check_found H S wp lnum dp hinv hw hl1 hl2 hidx hfold
    (find_block S.diffbuf _ hi hp S.first_diff dp lnum hord hwf hmem h1 h2) h1

/-- The loop for `maxcount` starting from `m0`: the result is at least `m0` and every
participating count of the slots visited, and it is `m0` or one of these counts. -/
theorem max_fold (diffbuf : Nat → Option buf_T) (dp : diff_T) (l : List Nat) :
    ∀ m0 : Int,
      m0 ≤ l.foldl (fun maxcount i =>
          if participating diffbuf i && decide (dp.df_count i > maxcount) then dp.df_count i
          else maxcount) m0
      ∧ (∀ i ∈ l, participating diffbuf i = true →
          dp.df_count i ≤ l.foldl (fun maxcount i =>
            if participating diffbuf i && decide (dp.df_count i > maxcount) then dp.df_count i
            else maxcount) m0)
      ∧ (l.foldl (fun maxcount i =>
            if participating diffbuf i && decide (dp.df_count i > maxcount) then dp.df_count i
            else maxcount) m0 = m0
          ∨ ∃ i ∈ l, participating diffbuf i = true ∧
            dp.df_count i = l.foldl (fun maxcount i =>
              if participating diffbuf i && decide (dp.df_count i > maxcount) then
                dp.df_count i
              else maxcount) m0) := by
  induction l with
  | nil => intro m0; simp
  | cons a t ih =>
    intro m0
    simp only [List.foldl_cons]
    by_cases hc : (participating diffbuf a && decide (dp.df_count a > m0)) = true
    · rw [if_pos hc]
      simp only [Bool.and_eq_true, decide_eq_true_eq] at hc
      obtain ⟨h1, h2, h3⟩ := ih (dp.df_count a)
      refine ⟨by omega, ?_, ?_⟩
      · intro i hi hp
        rcases List.mem_cons.1 hi with h | h
        · subst h; exact h1
        · exact h2 i h hp
      · right
        rcases h3 with h3 | ⟨i, hi, hp, he⟩
        · exact ⟨a, List.mem_cons_self _ _, hc.1, h3.symm⟩
        · exact ⟨i, List.mem_cons_of_mem _ hi, hp, he⟩
    · rw [if_neg hc]
      simp only [Bool.and_eq_true, decide_eq_true_eq, not_and, not_lt] at hc
      obtain ⟨h1, h2, h3⟩ := ih m0
      refine ⟨h1, ?_, ?_⟩
      · intro i hi hp
        rcases List.mem_cons.1 hi with h | h
        · subst h; have := hc hp; omega
        · exact h2 i h hp
      · rcases h3 with h3 | ⟨i, hi, hp, he⟩
        · exact Or.inl h3
        · exact Or.inr ⟨i, List.mem_cons_of_mem _ hi, hp, he⟩

/-- When the buffer of slot `idx` participates with a count that is not negative,
`max_count` is the greatest participating count of the block. -/
theorem max_count_is_max (diffbuf : Nat → Option buf_T) (dp : diff_T) (idx : Nat)
    (hidx : idx < DB_COUNT) (hpart : participating diffbuf idx = true)
    (hc : 0 ≤ dp.df_count idx) :
    (∀ i, i < DB_COUNT → participating diffbuf i = true → dp.df_count i ≤ max_count diffbuf dp)
      ∧ ∃ i, i < DB_COUNT ∧ participating diffbuf i = true
          ∧ dp.df_count i = max_count diffbuf dp := by
  obtain ⟨h1, h2, h3⟩ := max_fold diffbuf dp (List.range DB_COUNT) 0
  unfold max_count
  refine ⟨fun i hi hp => h2 i (List.mem_range.2 hi) hp, ?_⟩
  rcases h3 with h3 | ⟨i, hi, hp, he⟩
  · refine ⟨idx, hidx, hpart, ?_⟩
    have := h2 idx (List.mem_range.2 hidx) hpart
    rw [h3] at this ⊢
    omega
  · exact ⟨i, List.mem_range.1 hi, hp, he⟩

theorem diff_read_flags (H : Host) (S : DiffState) (idx_orig idx_new : Nat)
    (file : Option (List (List Char))) :
    (diff_read H S idx_orig idx_new file).diff_flags = S.diff_flags := by
  unfold diff_read
  split
  · rfl
  · simp only
    split <;> rfl

theorem update_one_flags (H : Host) (idx_orig : Nat) (orig : buf_T) (S : DiffState)
    (idx_new : Nat) : (update_one H idx_orig orig S idx_new).diff_flags = S.diff_flags := by
  unfold update_one
  split
  · rfl
  · split
    · exact diff_read_flags _ _ _ _ _
    · rfl

theorem ex_diffupdate_flags (H : Host) (S : DiffState) :
    (ex_diffupdate H S).diff_flags = S.diff_flags := by
  have hfold : ∀ (l : List Nat) (i : Nat) (b : buf_T) (S0 : DiffState),
      (l.foldl (update_one H i b) S0).diff_flags = S0.diff_flags := by
    intro l i b
    induction l with
    | nil => intro S0; rfl
    | cons a t ih => intro S0; rw [List.foldl_cons, ih, update_one_flags]
  unfold ex_diffupdate
  simp only
  split
  · split
    · rfl
    · split
      · rfl
      · split
        · rw [hfold]; rfl
        · rfl
  · rfl

theorem check_inside_values (H : Host) (diffbuf : Nat → Option buf_T) (fl : Nat)
    (dp : diff_T) (idx : Nat) :
    check_inside H diffbuf fl dp idx = -1 ∨ check_inside H diffbuf fl dp idx = -2 := by
  unfold check_inside
  split
  · exact Or.inl rfl
  · simp only
    split
    · split
      · exact Or.inl rfl
      · exact Or.inr rfl
    · exact Or.inr rfl

/-- Claim C11: let the list be ordered with gaps and well formed, let nothing make
`diff_check` return early (list up to date, window in diff mode, `lnum` a line of the
buffer, buffer in slot `idx`, no closed fold, `vim_strsave` succeeds) and let `lnum` lie
inside the block `dp` (`start[idx] <= lnum < start[idx] + count[idx]`).  Then
`diff_check` returns -1 if some other participating buffer `i` has `count[i] != 0` and
`count[i] != count[idx]`; it returns -1 if all these counts equal `count[idx]` but for
some such `i` the lines of the block in `idx` and `i` are not pairwise equal under
`diff_cmp`; in every other case it returns -2. -/
theorem C11_inside_block_changed_or_inserted (H : Host) (S : DiffState) (wp : win_T)
    (lnum : Int) (dp : diff_T)
    (hinv : S.diff_invalid = false) (hw : wp.w_p_diff = true)
    (hl1 : 1 ≤ lnum) (hl2 : lnum ≤ H.ml_line_count wp.w_buffer)
    (hidx : diff_buf_idx S.diffbuf wp.w_buffer ≠ DB_COUNT)
    (hfold : H.hasFoldingWin wp lnum = false)
    (hs : ∀ l, H.strsave_ok l = true)
    (hord : ordered_with_gap S.diffbuf S.first_diff)
    (hwf : well_formed S.diffbuf S.first_diff) (hmem : dp ∈ S.first_diff)
    (h1 : dp.df_lnum (diff_buf_idx S.diffbuf wp.w_buffer) ≤ lnum)
    (h2 : lnum < dp.df_lnum (diff_buf_idx S.diffbuf wp.w_buffer)
      + dp.df_count (diff_buf_idx S.diffbuf wp.w_buffer)) :
    ((∃ i, i < DB_COUNT ∧ i ≠ diff_buf_idx S.diffbuf wp.w_buffer
        ∧ participating S.diffbuf i = true ∧ dp.df_count i ≠ 0
        ∧ dp.df_count i ≠ dp.df_count (diff_buf_idx S.diffbuf wp.w_buffer))
      → (diff_check H S wp lnum).2 = -1)
    ∧ ((∀ i, i < DB_COUNT → i ≠ diff_buf_idx S.diffbuf wp.w_buffer
          → participating S.diffbuf i = true → dp.df_count i ≠ 0
          → dp.df_count i = dp.df_count (diff_buf_idx S.diffbuf wp.w_buffer))
      → (∃ i, i < DB_COUNT ∧ i ≠ diff_buf_idx S.diffbuf wp.w_buffer
          ∧ participating S.diffbuf i = true ∧ dp.df_count i ≠ 0
          ∧ ¬ lines_pairwise_equal H S.diffbuf S.diff_flags dp
              (diff_buf_idx S.diffbuf wp.w_buffer) i)
      → (diff_check H S wp lnum).2 = -1)
    ∧ ((∀ i, i < DB_COUNT → i ≠ diff_buf_idx S.diffbuf wp.w_buffer
          → participating S.diffbuf i = true → dp.df_count i ≠ 0
          → dp.df_count i = dp.df_count (diff_buf_idx S.diffbuf wp.w_buffer)
            ∧ lines_pairwise_equal H S.diffbuf S.diff_flags dp
                (diff_buf_idx S.diffbuf wp.w_buffer) i)
      → (diff_check H S wp lnum).2 = -2) := by
  rw [diff_check_at H S wp lnum dp hinv hw hl1 hl2 hidx hfold hord hwf hmem h1 (le_of_lt h2),
    if_pos h2]
  have hc := check_inside_eq H S.diffbuf S.diff_flags dp (diff_buf_idx S.diffbuf wp.w_buffer) hs
  refine ⟨?_, ?_, hc.2⟩
  · rintro ⟨i, hi, a, b, c, d⟩
    exact hc.1 ⟨i, hi, a, b, c, Or.inl d⟩
  · rintro _ ⟨i, hi, a, b, c, d⟩
    exact hc.1 ⟨i, hi, a, b, c, Or.inr d⟩

/-- Claim C12, as amended: under the conditions of C11, for a line inside the block `dp`
`diff_check` returns -1 if and only if some other participating buffer `i` with
`count[i] != 0` has `count[i] != count[idx]` or has, at some offset `k` of the block, a
line that differs under `diff_cmp` from the line of `idx` at the same offset; when it
does not return -1 it returns -2. -/
theorem C12_changed_iff_some_counterpart_differs (H : Host) (S : DiffState) (wp : win_T)
    (lnum : Int) (dp : diff_T)
    (hinv : S.diff_invalid = false) (hw : wp.w_p_diff = true)
    (hl1 : 1 ≤ lnum) (hl2 : lnum ≤ H.ml_line_count wp.w_buffer)
    (hidx : diff_buf_idx S.diffbuf wp.w_buffer ≠ DB_COUNT)
    (hfold : H.hasFoldingWin wp lnum = false)
    (hs : ∀ l, H.strsave_ok l = true)
    (hord : ordered_with_gap S.diffbuf S.first_diff)
    (hwf : well_formed S.diffbuf S.first_diff) (hmem : dp ∈ S.first_diff)
    (h1 : dp.df_lnum (diff_buf_idx S.diffbuf wp.w_buffer) ≤ lnum)
    (h2 : lnum < dp.df_lnum (diff_buf_idx S.diffbuf wp.w_buffer)
      + dp.df_count (diff_buf_idx S.diffbuf wp.w_buffer)) :
    ((diff_check H S wp lnum).2 = -1 ↔
      ∃ i, i < DB_COUNT ∧ i ≠ diff_buf_idx S.diffbuf wp.w_buffer
        ∧ participating S.diffbuf i = true ∧ dp.df_count i ≠ 0
        ∧ (dp.df_count i ≠ dp.df_count (diff_buf_idx S.diffbuf wp.w_buffer)
          ∨ ∃ k : Nat, (k : Int) < dp.df_count (diff_buf_idx S.diffbuf wp.w_buffer)
            ∧ diff_cmp H S.diff_flags
                (ml_get_slot H S.diffbuf (diff_buf_idx S.diffbuf wp.w_buffer)
                  (dp.df_lnum (diff_buf_idx S.diffbuf wp.w_buffer) + (k : Int)))
                (ml_get_slot H S.diffbuf i (dp.df_lnum i + (k : Int))) ≠ 0))
    ∧ ((diff_check H S wp lnum).2 ≠ -1 → (diff_check H S wp lnum).2 = -2) := by
  rw [diff_check_at H S wp lnum dp hinv hw hl1 hl2 hidx hfold hord hwf hmem h1 (le_of_lt h2),
    if_pos h2]
  have hc := check_inside_eq H S.diffbuf S.diff_flags dp (diff_buf_idx S.diffbuf wp.w_buffer) hs
  have hv := check_inside_values H S.diffbuf S.diff_flags dp (diff_buf_idx S.diffbuf wp.w_buffer)
  have hl : ∀ i, ¬ lines_pairwise_equal H S.diffbuf S.diff_flags dp
        (diff_buf_idx S.diffbuf wp.w_buffer) i
      ↔ ∃ k : Nat, (k : Int) < dp.df_count (diff_buf_idx S.diffbuf wp.w_buffer)
          ∧ diff_cmp H S.diff_flags
              (ml_get_slot H S.diffbuf (diff_buf_idx S.diffbuf wp.w_buffer)
                (dp.df_lnum (diff_buf_idx S.diffbuf wp.w_buffer) + (k : Int)))
              (ml_get_slot H S.diffbuf i (dp.df_lnum i + (k : Int))) ≠ 0 := by
    intro i
    unfold lines_pairwise_equal
    simp only [not_forall, exists_prop, Int.lt_toNat]
  refine ⟨⟨?_, ?_⟩, ?_⟩
  · intro hm
    by_contra hno
    have : check_inside H S.diffbuf S.diff_flags dp (diff_buf_idx S.diffbuf wp.w_buffer) = -2 := by
      apply hc.2
      intro i hi a b c
      refine ⟨?_, ?_⟩
      · by_contra hd
        exact hno ⟨i, hi, a, b, c, Or.inl hd⟩
      · by_contra hd
        exact hno ⟨i, hi, a, b, c, Or.inr ((hl i).1 hd)⟩
    rw [this] at hm
    exact absurd hm (by decide)
  · rintro ⟨i, hi, a, b, c, d⟩
    apply hc.1
    refine ⟨i, hi, a, b, c, ?_⟩
    rcases d with d | d
    · exact Or.inl d
    · exact Or.inr ((hl i).2 d)
  · intro hne
    rcases hv with hv | hv
    · exact absurd hv hne
    · exact hv

/-- Claim C13: with `FILLER` on, let nothing make `diff_check` return early (list up to
date, window in diff mode, `lnum` a line of the buffer, buffer in slot `idx`, no closed
fold), let `dp` be the first block of the list with `lnum <= start[idx] + count[idx]`
and let `lnum` be the line just below it (`lnum = start[idx] + count[idx]`, with
`lnum >= start[idx]`).  Then `diff_check` returns the greatest `count[i]` of a
participating buffer minus `count[idx]`, and this is not negative. -/
theorem C13_filler_below_block (H : Host) (S : DiffState) (wp : win_T)
    (lnum : Int) (pre post : List diff_T) (dp : diff_T)
    (hfill : S.diff_flags &&& DIFF_FILLER ≠ 0)
    (hinv : S.diff_invalid = false) (hw : wp.w_p_diff = true)
    (hl1 : 1 ≤ lnum) (hl2 : lnum ≤ H.ml_line_count wp.w_buffer)
    (hidx : diff_buf_idx S.diffbuf wp.w_buffer ≠ DB_COUNT)
    (hfold : H.hasFoldingWin wp lnum = false)
    (hlist : S.first_diff = pre ++ dp :: post)
    (hpre : ∀ a ∈ pre, a.df_lnum (diff_buf_idx S.diffbuf wp.w_buffer)
      + a.df_count (diff_buf_idx S.diffbuf wp.w_buffer) < lnum)
    (h1 : dp.df_lnum (diff_buf_idx S.diffbuf wp.w_buffer) ≤ lnum)
    (h2 : lnum = dp.df_lnum (diff_buf_idx S.diffbuf wp.w_buffer)
      + dp.df_count (diff_buf_idx S.diffbuf wp.w_buffer)) :
    (∀ i, i < DB_COUNT → participating S.diffbuf i = true →
        dp.df_count i - dp.df_count (diff_buf_idx S.diffbuf wp.w_buffer)
          ≤ (diff_check H S wp lnum).2)
    ∧ (∃ i, i < DB_COUNT ∧ participating S.diffbuf i = true
        ∧ (diff_check H S wp lnum).2
          = dp.df_count i - dp.df_count (diff_buf_idx S.diffbuf wp.w_buffer))
    ∧ 0 ≤ (diff_check H S wp lnum).2 := by
  obtain ⟨hi, hp⟩ := diff_buf_idx_participating S.diffbuf wp.w_buffer hidx
  rw [diff_check_found H S wp lnum dp hinv hw hl1 hl2 hidx hfold
      (by rw [hlist]; exact find_first _ lnum pre post dp hpre (le_of_eq h2)) h1,
    if_neg (by omega), if_neg hfill]
  obtain ⟨m1, i, hi', hp', he⟩ := max_count_is_max S.diffbuf dp
    (diff_buf_idx S.diffbuf wp.w_buffer) hi hp (by omega)
  refine ⟨?_, ⟨i, hi', hp', by rw [he]⟩, ?_⟩
  · intro j hj hpj
    have := m1 j hj hpj
    omega
  · have := m1 _ hi hp
    omega

/-- Claim C14, as amended: no filler line is reported at the append position: for every
list, window and host `diff_check` returns 0 for the line one past the last line of
the buffer (the safety check of lines 1041-1043). -/
theorem C14_no_filler_at_append_position (H : Host) (S : DiffState) (wp : win_T) :
    (diff_check H S wp (H.ml_line_count wp.w_buffer + 1)).2 = 0 := by
  unfold diff_check
  simp only
  generalize (if S.diff_invalid then ex_diffupdate H S else S) = S1
  split
  · rfl
  · rw [if_pos (Or.inr (by omega))]

/-- Claim C15: when the `FILLER` flag is clear, `diff_check` returns 0, -1 or -2 and
`diff_check_fill` returns 0, for every list, host, window and line number. -/
theorem C15_no_filler_flag_no_positive_value (H : Host) (S : DiffState) (wp : win_T)
    (lnum : Int) (hf : S.diff_flags &&& DIFF_FILLER = 0) :
    ((diff_check H S wp lnum).2 = 0 ∨ (diff_check H S wp lnum).2 = -1
        ∨ (diff_check H S wp lnum).2 = -2)
      ∧ (diff_check_fill H S wp lnum).2 = 0 := by
  constructor
  · have hf1 : (if S.diff_invalid then ex_diffupdate H S else S).diff_flags &&& DIFF_FILLER = 0 := by
      split
      · rw [ex_diffupdate_flags]; exact hf
      · exact hf
    unfold diff_check
    simp only
    generalize (if S.diff_invalid then ex_diffupdate H S else S) = S1 at hf1 ⊢
    split
    · exact Or.inl rfl
    · split
      · exact Or.inl rfl
      · split
        · exact Or.inl rfl
        · split
          · exact Or.inl rfl
          · split
            · exact Or.inl rfl
            · split
              · exact Or.inl rfl
              · split
                · exact Or.inr (check_inside_values _ _ _ _ _)
                · exact Or.inl rfl
  · unfold diff_check_fill
    rw [if_pos hf]

theorem C11_witness :
    ((2 : Int) ≤ 2 ∧ (2 : Int) < 2 + 1)
      ∧ (diff_check (host_of changed_line_bufs) (state_of 2 [block_of [2, 2] [1, 1]] false)
          (win_of 0) 2).2 = -1 :=
  ⟨by decide,
    (C11_inside_block_changed_or_inserted (host_of changed_line_bufs)
      (state_of 2 [block_of [2, 2] [1, 1]] false) (win_of 0) 2 (block_of [2, 2] [1, 1])
      rfl rfl (by decide) (by decide) (by decide) rfl (fun _ => rfl) (by decide) (by decide)
      (List.mem_cons_self _ _) (by decide) (by decide)).2.1 (by decide) ⟨1, by decide⟩⟩

/-- Claim C12 fails as stated: in the three-way example line 3 of C lies in the block
`{start=[2,2,2], count=[0,1,2]}`; A and B have no line at its offset 1, so no other
buffer has a differing line at the mapped position, yet `diff_check` returns -1 (not
-2) because B has the count 1, which is neither 0 nor the count 2 of C. -/
theorem C12_counterexample :
    (block_of [2, 2, 2] [0, 1, 2]).df_lnum 2 ≤ 3
      ∧ (3 : Int) < (block_of [2, 2, 2] [0, 1, 2]).df_lnum 2
          + (block_of [2, 2, 2] [0, 1, 2]).df_count 2
      ∧ ¬ differs_at_mapped_position (host_of three_way) (slots 3) DIFF_FILLER
          (block_of [2, 2, 2] [0, 1, 2]) 2 3
      ∧ (diff_check (host_of three_way) (state_of 3 three_way_blocks false) (win_of 2) 3).2
          = -1 := by
  decide

theorem C12_witness :
    ((diff_check (host_of three_way) (state_of 3 three_way_blocks false) (win_of 2) 3).2 = -1 ↔
      ∃ i, i < DB_COUNT ∧ i ≠ diff_buf_idx (slots 3) 2
        ∧ participating (slots 3) i = true ∧ (block_of [2, 2, 2] [0, 1, 2]).df_count i ≠ 0
        ∧ ((block_of [2, 2, 2] [0, 1, 2]).df_count i
            ≠ (block_of [2, 2, 2] [0, 1, 2]).df_count (diff_buf_idx (slots 3) 2)
          ∨ ∃ k : Nat, (k : Int)
              < (block_of [2, 2, 2] [0, 1, 2]).df_count (diff_buf_idx (slots 3) 2)
            ∧ diff_cmp (host_of three_way) DIFF_FILLER
                (ml_get_slot (host_of three_way) (slots 3) (diff_buf_idx (slots 3) 2)
                  ((block_of [2, 2, 2] [0, 1, 2]).df_lnum (diff_buf_idx (slots 3) 2)
                    + (k : Int)))
                (ml_get_slot (host_of three_way) (slots 3) i
                  ((block_of [2, 2, 2] [0, 1, 2]).df_lnum i + (k : Int))) ≠ 0))
      ∧ (diff_check (host_of three_way) (state_of 3 three_way_blocks false) (win_of 2) 3).2
          = -1 :=
  ⟨(C12_changed_iff_some_counterpart_differs (host_of three_way)
      (state_of 3 three_way_blocks false) (win_of 2) 3 (block_of [2, 2, 2] [0, 1, 2])
      rfl rfl (by decide) (by decide) (by decide) rfl (fun _ => rfl) (by decide) (by decide)
      (List.mem_cons_self _ _) (by decide) (by decide)).1,
    by decide⟩

theorem C13_witness :
    (DIFF_FILLER &&& DIFF_FILLER ≠ 0
        ∧ (2 : Int) = (block_of [2, 2] [0, 1]).df_lnum 0 + (block_of [2, 2] [0, 1]).df_count 0)
      ∧ ((∀ i, i < DB_COUNT → participating (slots 2) i = true →
            (block_of [2, 2] [0, 1]).df_count i
                - (block_of [2, 2] [0, 1]).df_count (diff_buf_idx (slots 2) 0)
              ≤ (diff_check (host_of inserted_line_bufs)
                  (state_of 2 [block_of [2, 2] [0, 1]] false) (win_of 0) 2).2)
        ∧ (∃ i, i < DB_COUNT ∧ participating (slots 2) i = true
            ∧ (diff_check (host_of inserted_line_bufs)
                (state_of 2 [block_of [2, 2] [0, 1]] false) (win_of 0) 2).2
              = (block_of [2, 2] [0, 1]).df_count i
                - (block_of [2, 2] [0, 1]).df_count (diff_buf_idx (slots 2) 0))
        ∧ 0 ≤ (diff_check (host_of inserted_line_bufs)
            (state_of 2 [block_of [2, 2] [0, 1]] false) (win_of 0) 2).2)
      ∧ (diff_check (host_of inserted_line_bufs)
          (state_of 2 [block_of [2, 2] [0, 1]] false) (win_of 0) 2).2 = 1 :=
  ⟨by decide,
    C13_filler_below_block (host_of inserted_line_bufs)
      (state_of 2 [block_of [2, 2] [0, 1]] false) (win_of 0) 2 [] [] (block_of [2, 2] [0, 1])
      (by decide) rfl rfl (by decide) (by decide) (by decide) rfl rfl (by simp)
      (by decide) (by decide),
    by decide⟩

/-- Claim C14 fails as stated: in the three-way example with `FILLER` on, the block
starts in A at line 2, one past the last line of A, with count 0 there, and the
greatest count is 2; `diff_check` returns 0 for line 2 of A, not 2. -/
theorem C14_counterexample :
    (state_of 3 three_way_blocks false).diff_flags &&& DIFF_FILLER ≠ 0
      ∧ (host_of three_way).ml_line_count 0 = 1
      ∧ (block_of [2, 2, 2] [0, 1, 2]).df_lnum 0 = (host_of three_way).ml_line_count 0 + 1
      ∧ (block_of [2, 2, 2] [0, 1, 2]).df_count 0 = 0
      ∧ max_count (slots 3) (block_of [2, 2, 2] [0, 1, 2]) = 2
      ∧ (diff_check (host_of three_way) (state_of 3 three_way_blocks false) (win_of 0)
          ((host_of three_way).ml_line_count 0 + 1)).2 = 0 := by
  decide

theorem C15_witness :
    (no_flags (state_of 2 [block_of [2, 2] [0, 1]] false)).diff_flags &&& DIFF_FILLER = 0
      ∧ (((diff_check (host_of inserted_line_bufs)
              (no_flags (state_of 2 [block_of [2, 2] [0, 1]] false)) (win_of 0) 2).2 = 0
          ∨ (diff_check (host_of inserted_line_bufs)
              (no_flags (state_of 2 [block_of [2, 2] [0, 1]] false)) (win_of 0) 2).2 = -1
          ∨ (diff_check (host_of inserted_line_bufs)
              (no_flags (state_of 2 [block_of [2, 2] [0, 1]] false)) (win_of 0) 2).2 = -2)
        ∧ (diff_check_fill (host_of inserted_line_bufs)
            (no_flags (state_of 2 [block_of [2, 2] [0, 1]] false)) (win_of 0) 2).2 = 0)
      ∧ (diff_check (host_of inserted_line_bufs)
          (no_flags (state_of 2 [block_of [2, 2] [0, 1]] false)) (win_of 0) 2).2 = 0
      ∧ (diff_check (host_of inserted_line_bufs)
          (no_flags (state_of 2 [block_of [2, 2] [0, 1]] false)) (win_of 1) 2).2 = -2 :=
  ⟨by decide,
    C15_no_filler_flag_no_positive_value (host_of inserted_line_bufs)
      (no_flags (state_of 2 [block_of [2, 2] [0, 1]] false)) (win_of 0) 2 (by decide),
    by decide, by decide⟩

/-! ## The target and the blocks of a transfer -/

theorem other_buf_eq (diffbuf : Nat → Option buf_T) (curbuf : buf_T) (i : Nat) :
    other_buf diffbuf curbuf i = decide (diffbuf i ≠ none ∧ diffbuf i ≠ some curbuf) := by
  unfold other_buf
  cases h : diffbuf i with
  | none => simp
  | some b => simp

/-- The two searches of `ex_diffgetput` for the other buffer succeed only when exactly
one slot passes the test. -/
theorem two_searches (q : Nat → Bool)
    (h : ((List.range DB_COUNT).filter q).length ≠ 1) :
    find_idx q DB_COUNT 0 = DB_COUNT
      ∨ find_idx q (DB_COUNT - (find_idx q DB_COUNT 0 + 1)) (find_idx q DB_COUNT 0 + 1)
          ≠ DB_COUNT := by
  have hr : List.range DB_COUNT = [0, 1, 2, 3] := by decide
  rw [hr] at h
  cases h0 : q 0 <;> cases h1 : q 1 <;> cases h2 : q 2 <;> cases h3 : q 3 <;>
    simp [find_idx, DB_COUNT, List.filter, h0, h1, h2, h3] at h ⊢

theorem getput_target_none (H : Host) (diffbuf : Nat → Option buf_T) (curbuf : buf_T)
    (h : (other_slots diffbuf curbuf).length ≠ 1) :
    getput_target H diffbuf curbuf [] = none := by
  have hq : (fun i => decide (diffbuf i ≠ none ∧ diffbuf i ≠ some curbuf))
      = other_buf diffbuf curbuf := by
    funext i; rw [other_buf_eq]
  unfold other_slots at h
  rw [hq] at h
  unfold getput_target
  simp only [if_true]
  rcases two_searches _ h with h1 | h1
  · rw [if_pos h1]
  · split
    · rfl
    · rfl

/-- Claim C17: with no target argument, when the current buffer does not participate or
when the number of slots that hold another buffer is not one (there is none, or more
than one), `ex_diffgetput` returns with the editor as it was: the block list, the lines
of every buffer and the busy flag are unchanged.  So a transfer is made only when the
current buffer participates and exactly one other participating buffer exists. -/
theorem C17_no_target_needs_exactly_one_other (H : Host) (E : Editor) (eap : exarg_T)
    (harg : eap.arg = [])
    (h : diff_buf_idx E.diff.diffbuf E.curbuf = DB_COUNT
      ∨ (other_slots E.diff.diffbuf E.curbuf).length ≠ 1) :
    ex_diffgetput H E eap = some E := by
  unfold ex_diffgetput
  simp only
  by_cases hc : diff_buf_idx E.diff.diffbuf E.curbuf = DB_COUNT
  · rw [if_pos hc]
  · rw [if_neg hc]
    rcases h with h | h
    · exact absurd h hc
    · rw [harg, getput_target_none H _ _ h]

theorem C17_witness :
    ((⟨cmdidx_T.CMD_diffput, [], 3, 3, 1⟩ : exarg_T).arg = []
        ∧ (other_slots (editor_of three_way 3 three_way_blocks 2).diff.diffbuf
            (editor_of three_way 3 three_way_blocks 2).curbuf).length = 2)
      ∧ ex_diffgetput (host_of []) (editor_of three_way 3 three_way_blocks 2)
          ⟨cmdidx_T.CMD_diffput, [], 3, 3, 1⟩
        = some (editor_of three_way 3 three_way_blocks 2) :=
  ⟨by decide,
    C17_no_target_needs_exactly_one_other (host_of []) (editor_of three_way 3 three_way_blocks 2)
      ⟨cmdidx_T.CMD_diffput, [], 3, 3, 1⟩ rfl (Or.inr (by decide))⟩

/-- Claim C16 fails on the code.  Two buffers, A = `a1`, `X`, `g`, `Y`, `a5` (current) and
B = `a1`, `P`, `Q`, `g`, `Z`, `a5`, the blocks `{start=[2,2], count=[1,2]}` and
`{start=[4,5], count=[1,1]}` (one unchanged line apart), `:1,5diffput`.  Both blocks
intersect the range, so B should end as `a1`, `X`, `g`, `Y`, `a5`.  The code ends with
B = `a1`, `a1`, `X`, `g`, `Y`, `X`, `g`, `Z`, `a5`: after the first block the call
`mark_adjust(lnum, lnum + count, ...)` (line 1615) names one line too many, so
`diff_mark_adjust` takes the second block as touched and turns it into
`{start=[1,2], count=[4,-2]}`.  With the blocks of scenario 1 (a single block) the
transfer is as claimed. -/
theorem C16_second_block_one_line_below_is_corrupted :
    ordered_with_gap (slots 2) near_blocks ∧ well_formed (slots 2) near_blocks
      ∧ (ex_diffgetput (host_of []) (editor_of near_blocks_bufs 2 near_blocks 0)
            ⟨cmdidx_T.CMD_diffput, [], 1, 5, 2⟩).map
          (fun E => (E.lines 1, E.diff.first_diff.map diff_T.view))
        = some (lines_of ["a1", "a1", "X", "g", "Y", "X", "g", "Z", "a5"], [])
      ∧ lines_of ["a1", "a1", "X", "g", "Y", "X", "g", "Z", "a5"]
        ≠ lines_of ["a1", "X", "g", "Y", "a5"]
      ∧ (mark_adjust ((host_of []).on (fun b =>
              [lines_of ["a1", "X", "g", "Y", "a5"], lines_of ["a1", "X", "g", "Z", "a5"]].getD b []))
            (state_of 2 [block_of [4, 5] [1, 1]] true) 1 2 (2 + 2) MAXLNUM (-1)).first_diff.map
          diff_T.view
        = [([1, 2, 0, 0], [4, -2, 0, 0])]
      ∧ (ex_diffgetput (host_of []) (editor_of changed_line_bufs 2 [block_of [2, 2] [1, 1]] 0)
            ⟨cmdidx_T.CMD_diffput, [], 2, 2, 1⟩).map
          (fun E => (E.lines 1, E.diff.first_diff.map diff_T.view))
        = some (lines_of ["x", "y", "z"], []) :=
  ⟨by decide, by decide, by decide, by decide, by decide, by decide⟩

/-! ## A fifth buffer -/

/-- Claim C26: when each of the four slots holds a buffer other than `buf`,
`diff_buf_add(buf)` changes nothing: the slots, the block list and the invalid flag
(and the other statics) are as before. -/
theorem C26_fifth_buffer_not_added (S : DiffState) (buf : buf_T)
    (h : ∀ i, i < DB_COUNT → ∃ b, S.diffbuf i = some b ∧ b ≠ buf) :
    diff_buf_add S buf = S := by
  have h1 : diff_buf_idx S.diffbuf buf = DB_COUNT := by
    unfold diff_buf_idx
    have := (find_idx_eq_end (fun idx => S.diffbuf idx == some buf) DB_COUNT 0).2
    rw [Nat.zero_add] at this
    apply this
    intro j _ hj
    obtain ⟨b, hb, hne⟩ := h j hj
    simp [hb, hne]
  have h2 : find_idx (fun i => (S.diffbuf i).isNone) DB_COUNT 0 = DB_COUNT := by
    have := (find_idx_eq_end (fun i => (S.diffbuf i).isNone) DB_COUNT 0).2
    rw [Nat.zero_add] at this
    apply this
    intro j _ hj
    obtain ⟨b, hb, _⟩ := h j hj
    simp [hb]
  unfold diff_buf_add
  rw [if_neg (not_not.2 h1)]
  simp only [h2, if_true]

theorem C26_witness :
    (∀ i, i < DB_COUNT → ∃ b, (state_of 4 three_blocks false).diffbuf i = some b ∧ b ≠ 7)
      ∧ diff_buf_add (state_of 4 three_blocks false) 7 = state_of 4 three_blocks false
      ∧ (diff_buf_add (state_of 3 three_blocks false) 7).diffbuf 3 = some 7 :=
  ⟨fun i hi => ⟨i, if_pos hi, fun h7 => by subst h7; exact absurd hi (by decide)⟩,
    C26_fifth_buffer_not_added (state_of 4 three_blocks false) 7
      (fun i hi => ⟨i, if_pos hi, fun h7 => by subst h7; exact absurd hi (by decide)⟩),
    by decide⟩

/-! ## The fold query -/

theorem starts_ordered_tail (idx : Nat) (a : diff_T) (l : List diff_T)
    (h : starts_ordered idx (a :: l)) : starts_ordered idx l := by
  cases l with
  | nil => trivial
  | cons b tl => exact h.2

theorem starts_ordered_head (idx : Nat) (l : List diff_T) :
    ∀ a : diff_T, starts_ordered idx (a :: l) → ∀ b ∈ l, a.df_lnum idx ≤ b.df_lnum idx := by
  induction l with
  | nil => intro a _ b hb; simp at hb
  | cons c tl ih =>
    intro a h b hb
    rcases List.mem_cons.1 hb with e | e
    · subst e; exact h.1
    · exact le_trans h.1 (ih c h.2 b e)

/-- On a list ordered by `start[idx]` the loop of `diff_infold` over the blocks gives
`TRUE` exactly when the line is away from every block. -/
theorem infold_walk_iff (idx : Nat) (context lnum : Int) (l : List diff_T)
    (hord : starts_ordered idx l) :
    infold_walk idx context lnum l = true ↔ away_from_blocks idx context lnum l := by
  induction l with
  | nil => simp [infold_walk, away_from_blocks]
  | cons dp tl ih =>
    have hh := starts_ordered_head idx tl dp hord
    have ht := ih (starts_ordered_tail idx dp tl hord)
    unfold away_from_blocks at ht ⊢
    simp only [infold_walk]
    by_cases h1 : dp.df_lnum idx - context > lnum
    · rw [if_pos h1]
      simp only [true_iff]
      intro b hb
      rcases List.mem_cons.1 hb with e | e
      · subst e; exact Or.inl h1
      · have := hh b e
        exact Or.inl (by omega)
    · rw [if_neg h1]
      by_cases h2 : dp.df_lnum idx + dp.df_count idx + context > lnum
      · rw [if_pos h2]
        simp only [Bool.false_eq_true, false_iff]
        intro hall
        rcases hall dp (List.mem_cons_self _ _) with h | h <;> omega
      · rw [if_neg h2, ht]
        constructor
        · intro hall b hb
          rcases List.mem_cons.1 hb with e | e
          · subst e; exact Or.inr (by omega)
          · exact hall b e
        · intro hall b hb
          exact hall b (List.mem_cons_of_mem _ hb)

/-- The loop of `diff_infold` over the slots `l`, when `idx` is the only slot that holds
`buf`: `idx` if it is among them, and `other` as soon as another of them holds a
buffer. -/
theorem infold_fold (diffbuf : Nat → Option buf_T) (buf : buf_T) (idx : Nat)
    (hbuf : diffbuf idx = some buf) (l : List Nat)
    (huniq : ∀ j ∈ l, diffbuf j = some buf → j = idx) :
    ∀ init : Int × Bool,
      ((idx ∈ l → (l.foldl (fun r i =>
            if diffbuf i = some buf then ((i : Int), r.2)
            else if (diffbuf i).isSome then (r.1, true)
            else r) init).1 = (idx : Int))
        ∧ ((init.2 = true ∨ ∃ j ∈ l, j ≠ idx ∧ participating diffbuf j = true) →
          (l.foldl (fun r i =>
            if diffbuf i = some buf then ((i : Int), r.2)
            else if (diffbuf i).isSome then (r.1, true)
            else r) init).2 = true)
        ∧ (idx ∉ l → (l.foldl (fun r i =>
            if diffbuf i = some buf then ((i : Int), r.2)
            else if (diffbuf i).isSome then (r.1, true)
            else r) init).1 = init.1)) := by
  induction l with
  | nil =>
    intro init
    refine ⟨fun h => absurd h (List.not_mem_nil _), ?_, fun _ => rfl⟩
    rintro (h | ⟨j, hj, _⟩)
    · exact h
    · exact absurd hj (List.not_mem_nil _)
  | cons a t ih =>
    intro init
    have hu : ∀ j ∈ t, diffbuf j = some buf → j = idx :=
      fun j hj => huniq j (List.mem_cons_of_mem _ hj)
    simp only [List.foldl_cons]
    by_cases ha : diffbuf a = some buf
    · have hai : a = idx := huniq a (List.mem_cons_self _ _) ha
      rw [if_pos ha]
      obtain ⟨i1, i2, i3⟩ := ih hu ((a : Int), init.2)
      refine ⟨?_, ?_, ?_⟩
      · intro _
        by_cases hm : idx ∈ t
        · exact i1 hm
        · rw [i3 hm, hai]
      · rintro (h | ⟨j, hj, hne, hp⟩)
        · exact i2 (Or.inl h)
        · rcases List.mem_cons.1 hj with e | e
          · exact absurd (e.trans hai) hne
          · exact i2 (Or.inr ⟨j, e, hne, hp⟩)
      · intro hn
        exact absurd (hai ▸ List.mem_cons_self a t) hn
    · rw [if_neg ha]
      have hne : a ≠ idx := fun e => ha (e ▸ hbuf)
      by_cases hs : (diffbuf a).isSome = true
      · rw [if_pos hs]
        obtain ⟨i1, i2, i3⟩ := ih hu (init.1, true)
        refine ⟨?_, fun _ => i2 (Or.inl rfl), ?_⟩
        · intro hm
          rcases List.mem_cons.1 hm with e | e
          · exact absurd e.symm hne
          · exact i1 e
        · intro hn
          exact i3 (fun hm => hn (List.mem_cons_of_mem _ hm))
      · rw [if_neg hs]
        obtain ⟨i1, i2, i3⟩ := ih hu init
        refine ⟨?_, ?_, ?_⟩
        · intro hm
          rcases List.mem_cons.1 hm with e | e
          · exact absurd e.symm hne
          · exact i1 e
        · rintro (h | ⟨j, hj, hnj, hp⟩)
          · exact i2 (Or.inl h)
          · rcases List.mem_cons.1 hj with e | e
            · subst e
              exact absurd hp hs
            · exact i2 (Or.inr ⟨j, e, hnj, hp⟩)
        · intro hn
          exact i3 (fun hm => hn (List.mem_cons_of_mem _ hm))

theorem infold_slots_eq (diffbuf : Nat → Option buf_T) (buf : buf_T) (idx : Nat)
    (hidx : idx < DB_COUNT) (hbuf : diffbuf idx = some buf)
    (huniq : ∀ j, j < DB_COUNT → diffbuf j = some buf → j = idx)
    (hother : ∃ j, j < DB_COUNT ∧ j ≠ idx ∧ participating diffbuf j = true) :
    infold_slots diffbuf buf = ((idx : Int), true) := by
  obtain ⟨i1, i2, _⟩ := infold_fold diffbuf buf idx hbuf (List.range DB_COUNT)
    (fun j hj => huniq j (List.mem_range.1 hj)) (-1, false)
  obtain ⟨j, hj, hne, hp⟩ := hother
  unfold infold_slots
  exact Prod.ext (i1 (List.mem_range.2 hidx)) (i2 (Or.inr ⟨j, List.mem_range.2 hj, hne, hp⟩))

/-- The value of `diff_infold` for a window in diff mode on the buffer of slot `idx`,
with another buffer taking part and the list up to date. -/
theorem diff_infold_value (H : Host) (S : DiffState) (wp : win_T) (lnum : Int) (idx : Nat)
    (hw : wp.w_p_diff = true) (hinv : S.diff_invalid = false)
    (hidx : idx < DB_COUNT) (hbuf : S.diffbuf idx = some wp.w_buffer)
    (huniq : ∀ j, j < DB_COUNT → S.diffbuf j = some wp.w_buffer → j = idx)
    (hother : ∃ j, j < DB_COUNT ∧ j ≠ idx ∧ participating S.diffbuf j = true) :
    (diff_infold H S wp lnum).2 =
      if S.first_diff.isEmpty then false
      else infold_walk idx S.diff_context lnum S.first_diff := by
  have e := infold_slots_eq S.diffbuf wp.w_buffer idx hidx hbuf huniq hother
  unfold diff_infold
  simp only [hw, Bool.not_true, Bool.false_eq_true, if_false, e, hinv]
  rw [if_neg (by simp)]
  split <;> simp

/-- Claim C22 fails as stated: with two buffers in diff mode and the empty list every
block (there is none) is away from line 5, yet `diff_infold` returns `FALSE`: line
1452 returns `FALSE` when there is no block. -/
theorem C22_counterexample :
    (state_of 2 [] false).first_diff = []
      ∧ starts_ordered 0 (state_of 2 [] false).first_diff
      ∧ participating (state_of 2 [] false).diffbuf 0 = true
      ∧ participating (state_of 2 [] false).diffbuf 1 = true
      ∧ away_from_blocks 0 (state_of 2 [] false).diff_context 5
          (state_of 2 [] false).first_diff
      ∧ (diff_infold (host_of []) (state_of 2 [] false) (win_of 0) 5).2 = false :=
  ⟨rfl, by decide, by decide, by decide, by decide, by decide⟩

/-- Claim C22, as amended: for a window in diff mode on the buffer of slot `idx`, with at
least one other buffer taking part and the list up to date, `diff_infold` returns
`FALSE` when the list is empty; for a list that is not empty and is ordered by
`start[idx]` it returns `TRUE` if and only if for every block
`lnum < start[idx] - context` or `lnum >= start[idx] + count[idx] + context`. -/
theorem C22_infold_iff_away_from_blocks (H : Host) (S : DiffState) (wp : win_T)
    (lnum : Int) (idx : Nat)
    (hw : wp.w_p_diff = true) (hinv : S.diff_invalid = false)
    (hidx : idx < DB_COUNT) (hbuf : S.diffbuf idx = some wp.w_buffer)
    (huniq : ∀ j, j < DB_COUNT → S.diffbuf j = some wp.w_buffer → j = idx)
    (hother : ∃ j, j < DB_COUNT ∧ j ≠ idx ∧ participating S.diffbuf j = true)
    (hord : starts_ordered idx S.first_diff) :
    (S.first_diff = [] → (diff_infold H S wp lnum).2 = false)
      ∧ (S.first_diff ≠ [] →
          ((diff_infold H S wp lnum).2 = true
            ↔ away_from_blocks idx S.diff_context lnum S.first_diff)) := by
  rw [diff_infold_value H S wp lnum idx hw hinv hidx hbuf huniq hother]
  constructor
  · intro h
    rw [h]
    rfl
  · intro h
    have : S.first_diff.isEmpty = false := by
      cases hl : S.first_diff with
      | nil => exact absurd hl h
      | cons a t => rfl
    rw [this]
    simp only [Bool.false_eq_true, if_false]
    exact infold_walk_iff idx S.diff_context lnum S.first_diff hord

theorem C22_witness :
    ((state_of 2 three_blocks false).first_diff = []
        → (diff_infold (host_of []) (state_of 2 three_blocks false) (win_of 0) 16).2 = false)
      ∧ ((state_of 2 three_blocks false).first_diff ≠ [] →
          ((diff_infold (host_of []) (state_of 2 three_blocks false) (win_of 0) 16).2 = true
            ↔ away_from_blocks 0 (state_of 2 three_blocks false).diff_context 16
                (state_of 2 three_blocks false).first_diff))
      ∧ (diff_infold (host_of []) (state_of 2 three_blocks false) (win_of 0) 16).2 = true
      ∧ (diff_infold (host_of []) (state_of 2 three_blocks false) (win_of 0) 14).2 = false :=
  ⟨(C22_infold_iff_away_from_blocks (host_of []) (state_of 2 three_blocks false) (win_of 0)
      16 0 rfl rfl (by decide) rfl
      (fun j hj h => by
        have hj4 : j < 4 := hj
        interval_cases j
        · rfl
        · exact absurd h (by decide)
        · exact absurd h (by decide)
        · exact absurd h (by decide))
      ⟨1, by decide⟩ (by decide)).1,
    (C22_infold_iff_away_from_blocks (host_of []) (state_of 2 three_blocks false) (win_of 0)
      16 0 rfl rfl (by decide) rfl
      (fun j hj h => by
        have hj4 : j < 4 := hj
        interval_cases j
        · rfl
        · exact absurd h (by decide)
        · exact absurd h (by decide)
        · exact absurd h (by decide))
      ⟨1, by decide⟩ (by decide)).2,
    by decide, by decide⟩

/-! ## The top line of a scroll-bound window -/

theorem diff_read_diffbuf (H : Host) (S : DiffState) (idx_orig idx_new : Nat)
    (file : Option (List (List Char))) :
    (diff_read H S idx_orig idx_new file).diffbuf = S.diffbuf := by
  unfold diff_read
  split
  · rfl
  · simp only
    split <;> rfl

theorem update_one_diffbuf (H : Host) (idx_orig : Nat) (orig : buf_T) (S : DiffState)
    (idx_new : Nat) : (update_one H idx_orig orig S idx_new).diffbuf = S.diffbuf := by
  unfold update_one
  split
  · rfl
  · split
    · exact diff_read_diffbuf _ _ _ _ _
    · rfl

theorem ex_diffupdate_diffbuf (H : Host) (S : DiffState) :
    (ex_diffupdate H S).diffbuf = S.diffbuf := by
  have hfold : ∀ (l : List Nat) (i : Nat) (b : buf_T) (S0 : DiffState),
      (l.foldl (update_one H i b) S0).diffbuf = S0.diffbuf := by
    intro l i b
    induction l with
    | nil => intro S0; rfl
    | cons a t ih => intro S0; rw [List.foldl_cons, ih, update_one_diffbuf]
  unfold ex_diffupdate
  simp only
  split
  · split
    · rfl
    · split
      · rfl
      · split
        · rw [hfold]; rfl
        · rfl
  · rfl

theorem topline_in_block_buffer (fl : Nat) (fromwin towin : win_T) (dp : diff_T)
    (idx i : Nat) : (topline_in_block fl fromwin towin dp idx i).w_buffer = towin.w_buffer := by
  unfold topline_in_block
  simp only
  split
  · split
    · rfl
    · split
      · split <;> rfl
      · split
        · split <;> rfl
        · rfl
  · rfl

/-- The two safety checks leave a top line from 1 to the number of lines of the buffer,
when the buffer has a line. -/
theorem clamp_topline_range (H : Host) (towin : win_T)
    (h : 1 ≤ H.ml_line_count towin.w_buffer) :
    (clamp_topline H towin).w_buffer = towin.w_buffer
      ∧ 1 ≤ (clamp_topline H towin).w_topline
      ∧ (clamp_topline H towin).w_topline ≤ H.ml_line_count towin.w_buffer := by
  unfold clamp_topline
  simp only
  by_cases h1 : towin.w_topline > H.ml_line_count towin.w_buffer
  · rw [if_pos h1]
    simp only
    rw [if_neg (by omega)]
    exact ⟨rfl, h, le_refl _⟩
  · rw [if_neg h1]
    by_cases h2 : towin.w_topline < 1
    · rw [if_pos h2]
      exact ⟨rfl, le_refl _, h⟩
    · rw [if_neg h2]
      exact ⟨rfl, by omega, by omega⟩

/-- Claim C23: when the buffers of both windows are in diff mode and the buffer of
`towin` has at least one line, `diff_set_topline` reaches its safety checks and the
top line of `towin` after them, before the fold adjustment, is at least 1 and at most
the number of lines of that buffer; for every list (also a stale one, which is
rebuilt first), every top line of `fromwin` and every host. -/
theorem C23_topline_within_buffer (H : Host) (S : DiffState) (fromwin towin : win_T)
    (hfrom : diff_buf_idx S.diffbuf fromwin.w_buffer ≠ DB_COUNT)
    (hto : diff_buf_idx S.diffbuf towin.w_buffer ≠ DB_COUNT)
    (hlc : 1 ≤ H.ml_line_count towin.w_buffer) :
    (topline_before_fold H S fromwin towin).2.2 = true
      ∧ (topline_before_fold H S fromwin towin).2.1.w_buffer = towin.w_buffer
      ∧ 1 ≤ (topline_before_fold H S fromwin towin).2.1.w_topline
      ∧ (topline_before_fold H S fromwin towin).2.1.w_topline
          ≤ H.ml_line_count towin.w_buffer := by
  have hb : (if S.diff_invalid then ex_diffupdate H S else S).diffbuf = S.diffbuf := by
    split
    · exact ex_diffupdate_diffbuf H S
    · rfl
  unfold topline_before_fold
  simp only
  rw [if_neg hfrom]
  generalize (if S.diff_invalid then ex_diffupdate H S else S) = S1 at hb ⊢
  split
  · have hc := clamp_topline_range H
      { towin with
        w_topfill := 0
        w_topline := H.ml_line_count towin.w_buffer
          - (H.ml_line_count fromwin.w_buffer - fromwin.w_topline) } hlc
    exact ⟨rfl, hc.1, hc.2.1, hc.2.2⟩
  · rename_i dp _
    rw [hb, if_neg hto]
    have hbuf := topline_in_block_buffer S1.diff_flags fromwin { towin with w_topfill := 0 } dp
      (diff_buf_idx S.diffbuf fromwin.w_buffer) (diff_buf_idx S.diffbuf towin.w_buffer)
    have hc := clamp_topline_range H
      (topline_in_block S1.diff_flags fromwin { towin with w_topfill := 0 } dp
        (diff_buf_idx S.diffbuf fromwin.w_buffer) (diff_buf_idx S.diffbuf towin.w_buffer))
      (by rw [hbuf]; exact hlc)
    rw [hbuf] at hc
    exact ⟨rfl, hc.1, hc.2.1, hc.2.2⟩

theorem C23_witness :
    (diff_buf_idx (state_of 2 [block_of [2, 2] [0, 1]] false).diffbuf
          (⟨0, true, 100, 0⟩ : win_T).w_buffer ≠ DB_COUNT
        ∧ diff_buf_idx (state_of 2 [block_of [2, 2] [0, 1]] false).diffbuf (win_of 1).w_buffer
          ≠ DB_COUNT
        ∧ 1 ≤ (host_of inserted_line_bufs).ml_line_count (win_of 1).w_buffer)
      ∧ ((topline_before_fold (host_of inserted_line_bufs)
            (state_of 2 [block_of [2, 2] [0, 1]] false) ⟨0, true, 100, 0⟩ (win_of 1)).2.2 = true
        ∧ (topline_before_fold (host_of inserted_line_bufs)
            (state_of 2 [block_of [2, 2] [0, 1]] false) ⟨0, true, 100, 0⟩
            (win_of 1)).2.1.w_buffer = (win_of 1).w_buffer
        ∧ 1 ≤ (topline_before_fold (host_of inserted_line_bufs)
            (state_of 2 [block_of [2, 2] [0, 1]] false) ⟨0, true, 100, 0⟩
            (win_of 1)).2.1.w_topline
        ∧ (topline_before_fold (host_of inserted_line_bufs)
            (state_of 2 [block_of [2, 2] [0, 1]] false) ⟨0, true, 100, 0⟩
            (win_of 1)).2.1.w_topline
          ≤ (host_of inserted_line_bufs).ml_line_count (win_of 1).w_buffer)
      ∧ (topline_before_fold (host_of inserted_line_bufs)
            (state_of 2 [block_of [2, 2] [0, 1]] false) ⟨0, true, 100, 0⟩
            (win_of 1)).2.1.w_topline = 3
      ∧ (topline_before_fold (host_of inserted_line_bufs)
            (state_of 2 [block_of [2, 2] [0, 1]] false) ⟨0, true, 2, 0⟩
            (win_of 1)).2.1.w_topline = 3
      ∧ (topline_before_fold (host_of inserted_line_bufs)
            (state_of 2 [block_of [2, 2] [0, 1]] false) ⟨0, true, -5, 0⟩
            (win_of 1)).2.1.w_topline = 1 :=
  ⟨by decide,
    C23_topline_within_buffer (host_of inserted_line_bufs)
      (state_of 2 [block_of [2, 2] [0, 1]] false) ⟨0, true, 100, 0⟩ (win_of 1)
      (by decide) (by decide) (by decide),
    by decide, by decide, by decide⟩

/-! ## The comparator with `ICASE` and `IWHITE` -/

theorem squeeze_eq_nil (s : List Char) : squeeze s = [] ↔ skipwhite s = [] := by
  induction s with
  | nil => simp [squeeze, skipwhite]
  | cons c cs ih =>
    by_cases hc : vim_iswhite c = true
    · cases cs with
      | nil => simp [squeeze, skipwhite, hc]
      | cons d r =>
        by_cases hd : vim_iswhite d = true
        · simp only [squeeze, skipwhite, hc, hd, if_true] at ih ⊢
          exact ih
        · simp [squeeze, skipwhite, hc, hd]
    · simp [squeeze, skipwhite, hc]

theorem squeeze_white (cs : List Char) :
    ∀ c : Char, vim_iswhite c = true →
      squeeze (c :: cs) = if skipwhite cs = [] then [] else ' ' :: squeeze (skipwhite cs) := by
  induction cs with
  | nil => intro c hc; simp [squeeze, skipwhite, hc]
  | cons d r ih =>
    intro c hc
    by_cases hd : vim_iswhite d = true
    · have := ih d hd
      simp only [squeeze, hc, hd, if_true, skipwhite] at this ⊢
      exact this
    · simp [squeeze, skipwhite, hc, hd]

theorem skipwhite_head (s : List Char) :
    ∀ d r, skipwhite s = d :: r → vim_iswhite d = false := by
  induction s with
  | nil => intro d r h; simp [skipwhite] at h
  | cons c cs ih =>
    intro d r h
    by_cases hc : vim_iswhite c = true
    · simp only [skipwhite, hc, if_true] at h
      exact ih d r h
    · simp only [skipwhite, hc] at h
      simp only [Bool.false_eq_true, if_false, List.cons.injEq] at h
      rw [← h.1]
      simpa using hc

/-- Folding the case of a character that is not white does not make it white. -/
theorem TO_LOWER_not_white (c : Char) (h : vim_iswhite c = false) :
    vim_iswhite (TO_LOWER c) = false := by
  unfold TO_LOWER Char.toLower
  simp only
  split
  · rename_i hn
    generalize c.toNat = n at hn
    obtain ⟨h1, h2⟩ := hn
    interval_cases n <;> decide
  · exact h

theorem TO_LOWER_white (c : Char) (h : vim_iswhite c = true) : TO_LOWER c = c := by
  unfold vim_iswhite at h
  simp only [Bool.or_eq_true, decide_eq_true_eq] at h
  rcases h with h | h <;> subst h <;> decide

/-- Two characters of which exactly one is white are not equal after folding. -/
theorem fold_ne_of_white (c1 c2 : Char) (h1 : vim_iswhite c1 = true)
    (h2 : vim_iswhite c2 = false) : TO_LOWER c1 ≠ TO_LOWER c2 := by
  intro e
  have := TO_LOWER_not_white c2 h2
  rw [← e, TO_LOWER_white c1 h1, h1] at this
  exact Bool.noConfusion this

theorem squeeze_skipwhite_iff (p1 p2 : List Char) (c1 c2 : Char)
    (h1 : vim_iswhite c1 = true) (h2 : vim_iswhite c2 = true) :
    squeeze (c1 :: p1) = squeeze (c2 :: p2)
      ↔ squeeze (skipwhite (c1 :: p1)) = squeeze (skipwhite (c2 :: p2)) := by
  rw [squeeze_white p1 c1 h1, squeeze_white p2 c2 h2]
  simp only [skipwhite, h1, h2, if_true]
  by_cases e1 : skipwhite p1 = [] <;> by_cases e2 : skipwhite p2 = []
  · simp [e1, e2]
  · rw [if_pos e1, if_neg e2, e1]
    have : squeeze (skipwhite p2) ≠ [] := by
      intro h
      have := (squeeze_eq_nil _).1 h
      cases hs : skipwhite p2 with
      | nil => exact e2 hs
      | cons d r =>
        have hd := skipwhite_head p2 d r hs
        rw [hs] at this
        simp [skipwhite, hd] at this
    simp only [squeeze]
    constructor
    · intro h; exact absurd h (by simp)
    · intro h; exact absurd h.symm this
  · rw [if_neg e1, if_pos e2, e2]
    have : squeeze (skipwhite p1) ≠ [] := by
      intro h
      have := (squeeze_eq_nil _).1 h
      cases hs : skipwhite p1 with
      | nil => exact e1 hs
      | cons d r =>
        have hd := skipwhite_head p1 d r hs
        rw [hs] at this
        simp [skipwhite, hd] at this
    simp only [squeeze]
    constructor
    · intro h; exact absurd h (by simp)
    · intro h; exact absurd h this
  · rw [if_neg e1, if_neg e2]
    simp

/-- The loop of `diff_cmp` on single-byte characters, with enough fuel: after it both
rests are white space exactly when the squeezed lines are equal. -/
theorem diff_cmp_loop_squeeze (H : Host) (hsb : ∀ s, H.mb_ptr2len_check s = 1) (fuel : Nat) :
    ∀ p1 p2 : List Char, p1.length ≤ fuel →
      ((skipwhite (diff_cmp_loop H fuel p1 p2).1 = []
          ∧ skipwhite (diff_cmp_loop H fuel p1 p2).2 = [])
        ↔ squeeze p1 = squeeze p2) := by
  induction fuel with
  | zero =>
    intro p1 p2 h
    have : p1 = [] := List.length_eq_zero.1 (Nat.le_zero.1 h)
    subst this
    simp only [diff_cmp_loop, skipwhite, true_and, squeeze]
    exact ⟨fun h => ((squeeze_eq_nil p2).2 h).symm, fun h => (squeeze_eq_nil p2).1 h.symm⟩
  | succ n ih =>
    intro p1 p2 h
    cases p1 with
    | nil =>
      simp only [diff_cmp_loop, skipwhite, true_and, squeeze]
      exact ⟨fun h => ((squeeze_eq_nil p2).2 h).symm, fun h => (squeeze_eq_nil p2).1 h.symm⟩
    | cons c1 r1 =>
      cases p2 with
      | nil =>
        simp only [diff_cmp_loop, skipwhite, and_true]
        rw [show squeeze ([] : List Char) = [] from rfl, squeeze_eq_nil]
        simp only [skipwhite]
      | cons c2 r2 =>
        simp only [List.length_cons] at h
        simp only [diff_cmp_loop, hsb]
        by_cases hw : (vim_iswhite c1 && vim_iswhite c2) = true
        · rw [if_pos hw]
          simp only [Bool.and_eq_true] at hw
          rw [ih _ _ (by
            have := skipwhite_length_le (c1 :: r1)
            simp only [skipwhite, hw.1, if_true] at this ⊢
            have := skipwhite_length_le r1
            omega)]
          exact (squeeze_skipwhite_iff r1 r2 c1 c2 hw.1 hw.2).symm
        · rw [if_neg hw]
          simp only [ne_eq, not_true_eq_false, if_false, gt_iff_lt, lt_self_iff_false]
          by_cases hb : c1 ≠ c2 ∧ TO_LOWER c1 ≠ TO_LOWER c2
          · rw [if_pos hb]
            simp only
            -- the loop breaks: the lines differ
            have hne : squeeze (c1 :: r1) ≠ squeeze (c2 :: r2) := by
              by_cases w1 : vim_iswhite c1 = true
              · have w2 : vim_iswhite c2 = false := by
                  cases hv : vim_iswhite c2
                  · rfl
                  · rw [w1, hv] at hw; exact absurd rfl hw
                rw [squeeze_white r1 c1 w1]
                simp only [squeeze, w2, Bool.false_eq_true, if_false]
                split
                · simp
                · intro e
                  have e1 := (List.cons.inj e).1
                  have := TO_LOWER_not_white c2 w2
                  rw [← e1] at this
                  exact absurd this (by decide)
              · have w1' : vim_iswhite c1 = false := by simpa using w1
                by_cases w2 : vim_iswhite c2 = true
                · rw [squeeze_white r2 c2 w2]
                  simp only [squeeze, w1', Bool.false_eq_true, if_false]
                  split
                  · simp
                  · intro e
                    have e1 := (List.cons.inj e).1
                    have := TO_LOWER_not_white c1 w1'
                    rw [e1] at this
                    exact absurd this (by decide)
                · have w2' : vim_iswhite c2 = false := by simpa using w2
                  simp only [squeeze, w1', w2', Bool.false_eq_true, if_false]
                  intro e
                  exact hb.2 (List.cons.inj e).1
            constructor
            · rintro ⟨a, b⟩
              exfalso
              by_cases w1 : vim_iswhite c1 = true
              · have w2 : vim_iswhite c2 = false := by
                  cases hv : vim_iswhite c2
                  · rfl
                  · rw [w1, hv] at hw; exact absurd rfl hw
                simp [skipwhite, w2] at b
              · simp [skipwhite, w1] at a
            · intro e
              exact absurd e hne
          · rw [if_neg hb]
            have hfold : TO_LOWER c1 = TO_LOWER c2 := by
              by_cases e : c1 = c2
              · rw [e]
              · by_contra hc
                exact hb ⟨e, hc⟩
            have w1 : vim_iswhite c1 = false := by
              cases hv1 : vim_iswhite c1
              · rfl
              · have w2 : vim_iswhite c2 = false := by
                  cases hv : vim_iswhite c2
                  · rfl
                  · rw [hv1, hv] at hw; exact absurd rfl hw
                exact absurd hfold (fold_ne_of_white c1 c2 hv1 w2)
            have w2 : vim_iswhite c2 = false := by
              cases hv2 : vim_iswhite c2
              · rfl
              · exact absurd hfold.symm (fold_ne_of_white c2 c1 hv2 w1)
            rw [ih r1 r2 (by omega)]
            simp only [squeeze, w1, w2, Bool.false_eq_true, if_false, hfold, List.cons.injEq,
              true_and]

theorem flags_set (fl : Nat) (hw : fl &&& DIFF_IWHITE ≠ 0) :
    fl &&& (DIFF_ICASE ||| DIFF_IWHITE) ≠ 0 := by
  intro h
  apply hw
  have e : (DIFF_ICASE ||| DIFF_IWHITE) &&& DIFF_IWHITE = DIFF_IWHITE := by decide
  rw [← e, ← Nat.and_assoc, h]
  exact Nat.zero_and _

/-- Claim C21: with both `IWHITE` and `ICASE` set and single-byte characters, `diff_cmp`
returns zero if and only if the two lines are equal after folding the case of
letters, collapsing every maximal run of spaces and tabs to one separator and
removing trailing white space. -/
theorem C21_compare_ignoring_case_and_white (H : Host) (diff_flags : Nat)
    (s1 s2 : List Char) (hsb : ∀ s, H.mb_ptr2len_check s = 1)
    (hf : diff_flags &&& DIFF_ICASE ≠ 0 ∧ diff_flags &&& DIFF_IWHITE ≠ 0) :
    diff_cmp H diff_flags s1 s2 = 0 ↔ squeeze s1 = squeeze s2 := by
  unfold diff_cmp
  rw [if_neg (flags_set diff_flags hf.2), if_neg (by
    intro h
    exact h.2 hf.2)]
  simp only
  rw [← diff_cmp_loop_squeeze H hsb s1.length s1 s2 (le_refl _)]
  by_cases h : skipwhite (diff_cmp_loop H s1.length s1 s2).1 ≠ []
      ∨ skipwhite (diff_cmp_loop H s1.length s1 s2).2 ≠ []
  · rw [if_pos h]
    simp only [one_ne_zero, false_iff, not_and_or]
    exact h
  · rw [if_neg h]
    simp only [true_iff]
    simp only [not_or, not_not] at h
    exact h

theorem C21_witness :
    ((∀ s, (host_of []).mb_ptr2len_check s = 1)
        ∧ (DIFF_ICASE ||| DIFF_IWHITE) &&& DIFF_ICASE ≠ 0
        ∧ (DIFF_ICASE ||| DIFF_IWHITE) &&& DIFF_IWHITE ≠ 0)
      ∧ (diff_cmp (host_of []) (DIFF_ICASE ||| DIFF_IWHITE) "a b".toList "A \t  b ".toList = 0
          ↔ squeeze "a b".toList = squeeze "A \t  b ".toList)
      ∧ squeeze "A \t  b ".toList = "a b".toList
      ∧ diff_cmp (host_of []) (DIFF_ICASE ||| DIFF_IWHITE) "a b".toList "A \t  b ".toList = 0
      ∧ diff_cmp (host_of []) (DIFF_ICASE ||| DIFF_IWHITE) "a b".toList "ab".toList ≠ 0
      ∧ squeeze "a b".toList ≠ squeeze "ab".toList :=
  ⟨⟨fun _ => rfl, by decide, by decide⟩,
    C21_compare_ignoring_case_and_white (host_of []) (DIFF_ICASE ||| DIFF_IWHITE)
      "a b".toList "A \t  b ".toList (fun _ => rfl) (by decide),
    by decide, by decide, by decide, by decide⟩

/-! ## The option parser -/

theorem kw_filler : "filler".toList = ['f', 'i', 'l', 'l', 'e', 'r'] := rfl
theorem kw_context : "context:".toList = ['c', 'o', 'n', 't', 'e', 'x', 't', ':'] := rfl
theorem kw_icase : "icase".toList = ['i', 'c', 'a', 's', 'e'] := rfl
theorem kw_iwhite : "iwhite".toList = ['i', 'w', 'h', 'i', 't', 'e'] := rfl

/-- A keyword without a comma that starts `t ++ rest`, where `t` has no comma and `rest`
is empty or begins with a comma, starts `t`. -/
theorem keyword_in_token (k t rest : List Char) (hk : ',' ∉ k)
    (hrest : rest = [] ∨ ∃ q, rest = ',' :: q)
    (h : (t ++ rest).take k.length = k) :
    k.length ≤ t.length ∧ t.take k.length = k := by
  by_cases hl : k.length ≤ t.length
  · rw [List.take_append_of_le_length hl] at h
    exact ⟨hl, h⟩
  · exfalso
    rw [List.take_append_eq_append_take] at h
    have hlt : t.length < k.length := by omega
    rw [List.take_of_length_le (le_of_lt hlt)] at h
    rcases hrest with e | ⟨q, e⟩
    · subst e
      have := congrArg List.length h
      simp at this
      omega
    · subst e
      have hpos : k.length - t.length = (k.length - t.length - 1) + 1 := by omega
      rw [hpos, List.take_succ_cons] at h
      apply hk
      rw [← h]
      simp

/-- After a keyword that is not the whole token, the next character is not a comma. -/
theorem keyword_not_token (k t rest : List Char) (ht : ',' ∉ t)
    (hl : k.length ≤ t.length) (h : t.take k.length = k) (hne : t ≠ k) :
    ∃ c q, (t ++ rest).drop k.length = c :: q ∧ c ≠ ',' := by
  rw [List.drop_append_of_le_length hl]
  cases hd : t.drop k.length with
  | nil =>
    exfalso
    apply hne
    have := List.take_append_drop k.length t
    rw [hd, h, List.append_nil] at this
    exact this.symm
  | cons c q =>
    refine ⟨c, q ++ rest, rfl, ?_⟩
    intro e
    apply ht
    have : c ∈ t := List.mem_of_mem_drop (by rw [hd]; exact List.mem_cons_self _ _)
    rw [← e]
    exact this

theorem comma_not_digit : isdigit ',' = false := by decide
theorem NUL_not_digit : isdigit NUL = false := by decide

/-- The rest after `t` does not start with a digit. -/
theorem rest_not_digit (rest : List Char) (hrest : rest = [] ∨ ∃ q, rest = ',' :: q) :
    ∀ c q, rest = c :: q → isdigit c = false := by
  intro c q e
  rcases hrest with h | ⟨q', h⟩
  · rw [h] at e; exact absurd e (by simp)
  · rw [h] at e
    rw [← (List.cons.inj e).1]
    exact comma_not_digit

/-- A recognized or empty token is consumed by the chain of `if`s, with its effect. -/
theorem diffopt_word_token (t rest : List Char) (r r1 : Int × Nat)
    (hrest : rest = [] ∨ ∃ q, rest = ',' :: q)
    (h : token_step t r = some r1) :
    diffopt_word (t ++ rest) r.1 r.2 = (rest, r1.1, r1.2) := by
  unfold token_step at h
  by_cases h0 : t = []
  · rw [if_pos h0] at h
    cases h
    subst h0
    rcases hrest with e | ⟨q, e⟩ <;> subst e <;>
      simp [diffopt_word, kw_filler, kw_context, kw_icase, kw_iwhite]
  rw [if_neg h0] at h
  by_cases h1 : t = "filler".toList
  · rw [if_pos h1] at h
    cases h
    subst h1
    simp [diffopt_word, kw_filler]
  rw [if_neg h1] at h
  by_cases h2 : context_token t
  · rw [if_pos h2] at h
    cases h
    obtain ⟨hk, hn⟩ := h2
    have ht : t = "context:".toList ++ t.drop 8 := by
      conv_lhs => rw [← List.take_append_drop 8 t, hk]
    generalize t.drop 8 = ds at ht hn
    subst ht
    obtain ⟨hne, hd⟩ := hn
    have hg := getdigits_from_number ds rest 0 hd (rest_not_digit rest hrest)
    cases ds with
    | nil => exact absurd rfl hne
    | cons d ds' =>
      have hdd : isdigit d = true := hd d (List.mem_cons_self _ _)
      simp only [zero_mul, zero_add, List.cons_append] at hg
      simp [diffopt_word, kw_filler, kw_context, getdigits, hdd, hg]
  rw [if_neg h2] at h
  by_cases h3 : t = "icase".toList
  · rw [if_pos h3] at h
    cases h
    subst h3
    simp [diffopt_word, kw_filler, kw_context, kw_icase]
  rw [if_neg h3] at h
  by_cases h4 : t = "iwhite".toList
  · rw [if_pos h4] at h
    cases h
    subst h4
    simp [diffopt_word, kw_filler, kw_context, kw_icase, kw_iwhite]
  rw [if_neg h4] at h
  exact absurd h (by simp)

theorem comma_not_in_keywords :
    ',' ∉ "filler".toList ∧ ',' ∉ "context:".toList ∧ ',' ∉ "icase".toList
      ∧ ',' ∉ "iwhite".toList := by
  decide

/-- A token that is neither empty nor recognized makes the chain of `if`s stop before a
character that is not a comma. -/
theorem diffopt_word_unknown (t rest : List Char) (r : Int × Nat)
    (ht : ',' ∉ t) (hrest : rest = [] ∨ ∃ q, rest = ',' :: q)
    (h : token_step t r = none) :
    ∃ c q, (diffopt_word (t ++ rest) r.1 r.2).1 = c :: q ∧ c ≠ ',' := by
  unfold token_step at h
  have h0 : t ≠ [] := by
    intro e; rw [if_pos e] at h; exact absurd h (by simp)
  rw [if_neg h0] at h
  have h1 : t ≠ "filler".toList := by
    intro e; rw [if_pos e] at h; exact absurd h (by simp)
  rw [if_neg h1] at h
  have h2 : ¬ context_token t := by
    intro e; rw [if_pos e] at h; exact absurd h (by simp)
  rw [if_neg h2] at h
  have h3 : t ≠ "icase".toList := by
    intro e; rw [if_pos e] at h; exact absurd h (by simp)
  rw [if_neg h3] at h
  have h4 : t ≠ "iwhite".toList := by
    intro e; rw [if_pos e] at h; exact absurd h (by simp)
  obtain ⟨k1, k2, k3, k4⟩ := comma_not_in_keywords
  unfold diffopt_word
  by_cases c1 : (t ++ rest).take 6 = "filler".toList
  · rw [if_pos c1]
    obtain ⟨hl, hp⟩ := keyword_in_token "filler".toList t rest k1 hrest c1
    exact keyword_not_token "filler".toList t rest ht hl hp h1
  rw [if_neg c1]
  by_cases c2 : (t ++ rest).take 8 = "context:".toList
      ∧ isdigit ((t ++ rest).getD 8 NUL) = true
  · rw [if_pos c2]
    obtain ⟨hl, hp⟩ := keyword_in_token "context:".toList t rest k2 hrest c2.1
    have hl8 : 8 ≤ t.length := hl
    have hp8 : t.take 8 = "context:".toList := hp
    have hdig := c2.2
    rw [List.getD_eq_getElem?_getD, ← List.head?_drop,
      List.drop_append_of_le_length hl8] at hdig
    simp only
    rw [List.drop_append_of_le_length hl8]
    have hmem : ∀ c ∈ t.drop 8, c ≠ ',' := by
      intro c hc e
      apply ht
      rw [← e]
      exact List.mem_of_mem_drop hc
    have hctx : ¬ is_number (t.drop 8) := fun hn => h2 ⟨hp8, hn⟩
    generalize t.drop 8 = u at hdig hmem hctx
    have hu : u = u.takeWhile isdigit ++ u.dropWhile isdigit :=
      (List.takeWhile_append_dropWhile isdigit u).symm
    cases hd : u.dropWhile isdigit with
    | nil =>
      exfalso
      apply hctx
      have hall := List.dropWhile_eq_nil_iff.1 hd
      refine ⟨?_, hall⟩
      intro e
      subst e
      rcases hrest with e | ⟨q, e⟩ <;> subst e <;> simp at hdig
      · exact absurd hdig (by decide)
      · exact absurd hdig (by decide)
    | cons c q =>
      have hc : isdigit c = false := by
        have := List.head_dropWhile_not isdigit u (by rw [hd]; simp)
        simpa [hd] using this
      have hg := getdigits_from_number (u.takeWhile isdigit) (c :: q ++ rest) 0
        (fun x hx => List.mem_takeWhile_imp hx)
        (fun x y e => by
          rw [List.cons_append] at e
          rw [← (List.cons.inj e).1]; exact hc)
      refine ⟨c, q ++ rest, ?_, ?_⟩
      · unfold getdigits
        conv_lhs => rw [hu, hd, List.append_assoc]
        rw [hg]
        rfl
      · apply hmem
        rw [hu, hd]
        simp
  rw [if_neg c2]
  by_cases c3 : (t ++ rest).take 5 = "icase".toList
  · rw [if_pos c3]
    obtain ⟨hl, hp⟩ := keyword_in_token "icase".toList t rest k3 hrest c3
    exact keyword_not_token "icase".toList t rest ht hl hp h3
  rw [if_neg c3]
  by_cases c4 : (t ++ rest).take 6 = "iwhite".toList
  · rw [if_pos c4]
    obtain ⟨hl, hp⟩ := keyword_in_token "iwhite".toList t rest k4 hrest c4
    exact keyword_not_token "iwhite".toList t rest ht hl hp h4
  rw [if_neg c4]
  cases ht0 : t with
  | nil => exact absurd ht0 h0
  | cons c q =>
    refine ⟨c, q ++ rest, rfl, ?_⟩
    intro e
    apply ht
    rw [ht0, e]
    exact List.mem_cons_self _ _

/-- The tokens of a value: the text before the first comma, and the tokens of the text
after it. -/
theorem split_commas_eq (p : List Char) :
    split_commas p = p.takeWhile (fun c => decide (c ≠ ',')) ::
      (match p.dropWhile (fun c => decide (c ≠ ',')) with
        | [] => []
        | _ :: q => split_commas q) := by
  induction p with
  | nil => rfl
  | cons c cs ih =>
    by_cases hc : c = ','
    · subst hc
      simp [split_commas, List.takeWhile_cons, List.dropWhile_cons]
    · simp only [split_commas, hc, if_false, List.takeWhile_cons, List.dropWhile_cons,
        decide_not, Bool.not_eq_true', decide_eq_false_iff_not, not_false_eq_true, if_true]
      rw [ih]
      simp only [decide_not]

theorem dropWhile_comma (p : List Char) :
    p.dropWhile (fun c => decide (c ≠ ',')) = []
      ∨ ∃ q, p.dropWhile (fun c => decide (c ≠ ',')) = ',' :: q := by
  induction p with
  | nil => exact Or.inl rfl
  | cons c cs ih =>
    by_cases hc : c = ','
    · subst hc
      exact Or.inr ⟨cs, by simp [List.dropWhile_cons]⟩
    · have : (c :: cs).dropWhile (fun c => decide (c ≠ ','))
          = cs.dropWhile (fun c => decide (c ≠ ',')) := by
        simp [List.dropWhile_cons, hc]
      rw [this]
      exact ih

theorem takeWhile_no_comma (p : List Char) :
    ',' ∉ p.takeWhile (fun c => decide (c ≠ ',')) := by
  intro h
  have := List.mem_takeWhile_imp h
  simp at this

/-- The loop of `diffopt_changed`, with enough fuel, gives the meaning of the tokens of
the value. -/
theorem diffopt_loop_tokens (fuel : Nat) :
    ∀ (p : List Char) (r : Int × Nat), p.length ≤ fuel →
      diffopt_loop fuel p r.1 r.2 = tokens_fold (split_commas p) r := by
  induction fuel with
  | zero =>
    intro p r h
    have : p = [] := List.length_eq_zero.1 (Nat.le_zero.1 h)
    subst this
    simp [diffopt_loop, split_commas, tokens_fold, token_step]
  | succ n ih =>
    intro p r h
    by_cases hp : p = []
    · subst hp
      simp [diffopt_loop, split_commas, tokens_fold, token_step]
    · have hsplit := split_commas_eq p
      have happ := List.takeWhile_append_dropWhile (fun c => decide (c ≠ ',')) p
      have hrest := dropWhile_comma p
      have ht := takeWhile_no_comma p
      generalize p.takeWhile (fun c => decide (c ≠ ',')) = t at hsplit happ ht
      generalize p.dropWhile (fun c => decide (c ≠ ',')) = rest at hsplit happ hrest
      rw [hsplit]
      simp only [diffopt_loop, hp, if_false, tokens_fold]
      cases hstep : token_step t r with
      | none =>
        obtain ⟨c, q, hw, hc⟩ := diffopt_word_unknown t rest r ht hrest hstep
        rw [happ] at hw
        simp only [hw, hc, ne_eq, not_false_eq_true, if_true]
      | some r1 =>
        have hw := diffopt_word_token t rest r r1 hrest hstep
        rw [happ] at hw
        rw [hw]
        rcases hrest with e | ⟨q, e⟩
        · subst e
          simp [tokens_fold]
        · subst e
          simp only [ne_eq, not_true_eq_false, if_false]
          apply ih
          have := congrArg List.length happ
          simp at this
          omega

theorem token_step_none (t : List Char) (r : Int × Nat) (h0 : t ≠ [])
    (h : ¬ recognized t) : token_step t r = none := by
  unfold recognized at h
  simp only [not_or] at h
  unfold token_step
  rw [if_neg h0, if_neg h.1, if_neg h.2.2.2, if_neg h.2.1, if_neg h.2.2.1]

theorem tokens_fold_unknown (ts : List (List Char)) :
    ∀ r : Int × Nat, (∃ t ∈ ts, t ≠ [] ∧ ¬ recognized t) → tokens_fold ts r = none := by
  induction ts with
  | nil => intro r ⟨t, ht, _⟩; exact absurd ht (List.not_mem_nil _)
  | cons a tl ih =>
    intro r ⟨t, ht, h0, hr⟩
    simp only [tokens_fold]
    cases hs : token_step a r with
    | none => rfl
    | some r1 =>
      simp only
      rcases List.mem_cons.1 ht with e | e
      · subst e
        rw [token_step_none t r h0 hr] at hs
        exact absurd hs (by simp)
      · exact ih r1 ⟨t, e, h0, hr⟩

/-- Claim C24: for every value of the option that has a token which is not empty and is
not one of `filler`, `icase`, `iwhite` and `context:<digits>`, `diffopt_changed`
returns `FAIL` and changes nothing: the flags, the context and the invalid flag (and
the other statics) are as before. -/
theorem C24_unknown_token_fails (S : DiffState) (p_dip : List Char)
    (h : ∃ t ∈ split_commas p_dip, t ≠ [] ∧ ¬ recognized t) :
    diffopt_changed S p_dip = (S, false) := by
  unfold diffopt_changed
  have := diffopt_loop_tokens p_dip.length p_dip (6, 0) (le_refl _)
  simp only at this
  rw [this, tokens_fold_unknown _ _ h]

theorem C24_witness :
    (∃ t ∈ split_commas "filler,context:x,icase".toList, t ≠ [] ∧ ¬ recognized t)
      ∧ split_commas "filler,context:x,icase".toList
          = ["filler".toList, "context:x".toList, "icase".toList]
      ∧ diffopt_changed (state_of 2 three_blocks false) "filler,context:x,icase".toList
          = (state_of 2 three_blocks false, false) :=
  ⟨⟨"context:x".toList, by decide, by decide, by decide⟩, by decide,
    C24_unknown_token_fails (state_of 2 three_blocks false) "filler,context:x,icase".toList
      ⟨"context:x".toList, by decide, by decide, by decide⟩⟩

theorem digit_ge (c : Char) (h : isdigit c = true) : 48 ≤ c.toNat := by
  unfold isdigit at h
  simp only [Bool.and_eq_true, decide_eq_true_eq] at h
  have h1 : '0' ≤ c := h.1
  exact h1

theorem decimal_nonneg (ds : List Char) (h : ∀ c ∈ ds, isdigit c = true) : 0 ≤ decimal ds := by
  induction ds with
  | nil => simp [decimal]
  | cons c cs ih =>
    have h1 := digit_ge c (h c (List.mem_cons_self _ _))
    have h2 := ih (fun x hx => h x (List.mem_cons_of_mem _ hx))
    simp only [decimal]
    have h3 : (0 : Int) ≤ ((c.toNat : Int) - 48) * 10 ^ cs.length :=
      mul_nonneg (by omega) (by positivity)
    omega

theorem flag_bits (fl : Nat) (h : fl < 8) :
    (fl ||| DIFF_FILLER < 8 ∧ fl ||| DIFF_ICASE < 8 ∧ fl ||| DIFF_IWHITE < 8)
      ∧ ((fl ||| DIFF_FILLER) &&& DIFF_FILLER ≠ 0
        ∧ ((fl ||| DIFF_FILLER) &&& DIFF_ICASE ≠ 0 ↔ fl &&& DIFF_ICASE ≠ 0)
        ∧ ((fl ||| DIFF_FILLER) &&& DIFF_IWHITE ≠ 0 ↔ fl &&& DIFF_IWHITE ≠ 0))
      ∧ ((fl ||| DIFF_ICASE) &&& DIFF_ICASE ≠ 0
        ∧ ((fl ||| DIFF_ICASE) &&& DIFF_FILLER ≠ 0 ↔ fl &&& DIFF_FILLER ≠ 0)
        ∧ ((fl ||| DIFF_ICASE) &&& DIFF_IWHITE ≠ 0 ↔ fl &&& DIFF_IWHITE ≠ 0))
      ∧ ((fl ||| DIFF_IWHITE) &&& DIFF_IWHITE ≠ 0
        ∧ ((fl ||| DIFF_IWHITE) &&& DIFF_FILLER ≠ 0 ↔ fl &&& DIFF_FILLER ≠ 0)
        ∧ ((fl ||| DIFF_IWHITE) &&& DIFF_ICASE ≠ 0 ↔ fl &&& DIFF_ICASE ≠ 0)) := by
  interval_cases fl <;> decide

/-- The meaning of a list of tokens that are empty or recognized, with context numbers
that fit in an `int`: no error, each flag is set when it was set before or its token
occurs, and the context is that of the last `context:` token. -/
theorem tokens_fold_recognized (ts : List (List Char)) :
    ∀ r : Int × Nat, r.2 < 8 →
      (∀ t ∈ ts, t ≠ [] → recognized t) →
      (∀ t ∈ ts, context_token t → decimal (t.drop 8) < 2147483648) →
      ∃ r1, tokens_fold ts r = some r1 ∧ r1.2 < 8
        ∧ (r1.2 &&& DIFF_FILLER ≠ 0 ↔ (r.2 &&& DIFF_FILLER ≠ 0 ∨ "filler".toList ∈ ts))
        ∧ (r1.2 &&& DIFF_ICASE ≠ 0 ↔ (r.2 &&& DIFF_ICASE ≠ 0 ∨ "icase".toList ∈ ts))
        ∧ (r1.2 &&& DIFF_IWHITE ≠ 0 ↔ (r.2 &&& DIFF_IWHITE ≠ 0 ∨ "iwhite".toList ∈ ts))
        ∧ r1.1 = ts.foldl
            (fun c t => if t.take 8 = "context:".toList then decimal (t.drop 8) else c) r.1 := by
  induction ts with
  | nil =>
    intro r hr _ _
    exact ⟨r, rfl, hr, by simp, by simp, by simp, rfl⟩
  | cons a tl ih =>
    intro r hr hrec hfit
    have hrec1 : ∀ t ∈ tl, t ≠ [] → recognized t :=
      fun t ht => hrec t (List.mem_cons_of_mem _ ht)
    have hfit1 : ∀ t ∈ tl, context_token t → decimal (t.drop 8) < 2147483648 :=
      fun t ht => hfit t (List.mem_cons_of_mem _ ht)
    obtain ⟨⟨b1, b2, b3⟩, ⟨f1, f2, f3⟩, ⟨i1, i2, i3⟩, ⟨w1, w2, w3⟩⟩ := flag_bits r.2 hr
    simp only [tokens_fold, List.foldl_cons, List.mem_cons]
    by_cases h0 : a = []
    · subst h0
      obtain ⟨r1, e, hlt, hF, hI, hW, hC⟩ := ih r hr hrec1 hfit1
      refine ⟨r1, ?_, hlt, ?_, ?_, ?_, ?_⟩
      · simp only [token_step, if_true]; exact e
      · rw [hF]; simp [kw_filler]
      · rw [hI]; simp [kw_icase]
      · rw [hW]; simp [kw_iwhite]
      · rw [hC]; simp [kw_context]
    · have hra := hrec a (List.mem_cons_self _ _) h0
      rcases hra with e | e | e | e
      · -- filler
        subst e
        obtain ⟨r1, e1, hlt, hF, hI, hW, hC⟩ := ih (r.1, r.2 ||| DIFF_FILLER) b1 hrec1 hfit1
        refine ⟨r1, ?_, hlt, ?_, ?_, ?_, ?_⟩
        · simp only [token_step, h0, if_false, if_true]; exact e1
        · rw [hF]; simp [f1]
        · rw [hI]; simp only [f2]; simp [kw_filler, kw_icase]
        · rw [hW]; simp only [f3]; simp [kw_filler, kw_iwhite]
        · rw [hC]; simp [kw_filler, kw_context]
      · -- icase
        subst e
        have nc : ¬ context_token "icase".toList := by decide
        obtain ⟨r1, e1, hlt, hF, hI, hW, hC⟩ := ih (r.1, r.2 ||| DIFF_ICASE) b2 hrec1 hfit1
        refine ⟨r1, ?_, hlt, ?_, ?_, ?_, ?_⟩
        · simp only [token_step, h0, if_false, nc]
          rw [if_neg (by decide)]
          simp only [if_true]
          exact e1
        · rw [hF]; simp only [i2]; simp [kw_filler, kw_icase]
        · rw [hI]; simp [i1]
        · rw [hW]; simp only [i3]; simp [kw_icase, kw_iwhite]
        · rw [hC]; simp [kw_icase, kw_context]
      · -- iwhite
        subst e
        have nc : ¬ context_token "iwhite".toList := by decide
        obtain ⟨r1, e1, hlt, hF, hI, hW, hC⟩ := ih (r.1, r.2 ||| DIFF_IWHITE) b3 hrec1 hfit1
        refine ⟨r1, ?_, hlt, ?_, ?_, ?_, ?_⟩
        · simp only [token_step, h0, if_false, nc]
          rw [if_neg (by decide), if_neg (by decide)]
          simp only [if_true]
          exact e1
        · rw [hF]; simp only [w2]; simp [kw_filler, kw_iwhite]
        · rw [hI]; simp only [w3]; simp [kw_icase, kw_iwhite]
        · rw [hW]; simp [w1]
        · rw [hC]; simp [kw_iwhite, kw_context]
      · -- context:<digits>
        have hk := e.1
        have hn := e.2
        have hv := hfit a (List.mem_cons_self _ _) e
        have hv0 := decimal_nonneg (a.drop 8) hn.2
        have nf : a ≠ "filler".toList := by
          intro ef; rw [ef] at hk; exact absurd hk (by decide)
        have ni : a ≠ "icase".toList := by
          intro ef; rw [ef] at hk; exact absurd hk (by decide)
        have nw : a ≠ "iwhite".toList := by
          intro ef; rw [ef] at hk; exact absurd hk (by decide)
        obtain ⟨r1, e1, hlt, hF, hI, hW, hC⟩ :=
          ih (int_of_long (decimal (a.drop 8)), r.2) hr hrec1 hfit1
        refine ⟨r1, ?_, hlt, ?_, ?_, ?_, ?_⟩
        · simp only [token_step, h0, if_false, nf, e, if_true]; exact e1
        · rw [hF]; simp only [kw_filler] at nf ⊢; simp [Ne.symm nf]
        · rw [hI]; simp only [kw_icase] at ni ⊢; simp [Ne.symm ni]
        · rw [hW]; simp only [kw_iwhite] at nw ⊢; simp [Ne.symm nw]
        · rw [hC, hk, int_of_long_fits _ hv0 hv]; simp

/-- Claim C25 fails as stated: the option `context:4294967302` is one recognized
token and `diffopt_changed` returns `OK`, but the context is not 4294967302: line 1315
stores the number in the `int` `diff_context_new`, which cannot hold it (6 is left). -/
theorem C25_counterexample :
    (∀ t ∈ split_commas "context:4294967302".toList, recognized t)
      ∧ (diffopt_changed (state_of 2 three_blocks false) "context:4294967302".toList).2 = true
      ∧ last_context (split_commas "context:4294967302".toList) = 4294967302
      ∧ (diffopt_changed (state_of 2 three_blocks false)
          "context:4294967302".toList).1.diff_context = 6
      ∧ (diffopt_changed (state_of 2 three_blocks false)
          "context:4294967302".toList).1.diff_context
        ≠ last_context (split_commas "context:4294967302".toList) :=
  ⟨by decide, by decide, by decide, by decide, by decide⟩

/-- Claim C25, as amended: for every value of the option whose tokens are the recognized
tokens `filler`, `icase`, `iwhite` and `context:<digits>` (empty tokens are allowed)
and whose context numbers fit in an `int` (they are below 2^31), `diffopt_changed`
returns `OK`; afterwards each of `FILLER`, `ICASE`, `IWHITE` is set exactly when its
token occurs, and the context is the number of the last `context:` token, or 6 when
there is none. -/
theorem C25_recognized_tokens_set_options (S : DiffState) (p_dip : List Char)
    (h : ∀ t ∈ split_commas p_dip, t ≠ [] → recognized t)
    (hfit : ∀ t ∈ split_commas p_dip, context_token t → decimal (t.drop 8) < 2147483648) :
    (diffopt_changed S p_dip).2 = true
      ∧ ((diffopt_changed S p_dip).1.diff_flags &&& DIFF_FILLER ≠ 0
          ↔ "filler".toList ∈ split_commas p_dip)
      ∧ ((diffopt_changed S p_dip).1.diff_flags &&& DIFF_ICASE ≠ 0
          ↔ "icase".toList ∈ split_commas p_dip)
      ∧ ((diffopt_changed S p_dip).1.diff_flags &&& DIFF_IWHITE ≠ 0
          ↔ "iwhite".toList ∈ split_commas p_dip)
      ∧ (diffopt_changed S p_dip).1.diff_context = last_context (split_commas p_dip) := by
  obtain ⟨r1, e, _, hF, hI, hW, hC⟩ :=
    tokens_fold_recognized (split_commas p_dip) (6, 0) (by decide) h hfit
  have hl := diffopt_loop_tokens p_dip.length p_dip (6, 0) (le_refl _)
  simp only at hl
  unfold diffopt_changed
  rw [hl, e]
  simp only
  refine ⟨trivial, ?_, ?_, ?_, ?_⟩
  · rw [hF]; simp
  · rw [hI]; simp
  · rw [hW]; simp
  · rw [hC]; rfl

theorem C25_witness :
    ((∀ t ∈ split_commas "icase,context:3,filler,context:12".toList, t ≠ [] → recognized t)
        ∧ split_commas "icase,context:3,filler,context:12".toList
          = ["icase".toList, "context:3".toList, "filler".toList, "context:12".toList])
      ∧ ((diffopt_changed (state_of 2 three_blocks false)
            "icase,context:3,filler,context:12".toList).2 = true
        ∧ ((diffopt_changed (state_of 2 three_blocks false)
              "icase,context:3,filler,context:12".toList).1.diff_flags &&& DIFF_FILLER ≠ 0
            ↔ "filler".toList ∈ split_commas "icase,context:3,filler,context:12".toList)
        ∧ ((diffopt_changed (state_of 2 three_blocks false)
              "icase,context:3,filler,context:12".toList).1.diff_flags &&& DIFF_ICASE ≠ 0
            ↔ "icase".toList ∈ split_commas "icase,context:3,filler,context:12".toList)
        ∧ ((diffopt_changed (state_of 2 three_blocks false)
              "icase,context:3,filler,context:12".toList).1.diff_flags &&& DIFF_IWHITE ≠ 0
            ↔ "iwhite".toList ∈ split_commas "icase,context:3,filler,context:12".toList)
        ∧ (diffopt_changed (state_of 2 three_blocks false)
              "icase,context:3,filler,context:12".toList).1.diff_context
            = last_context (split_commas "icase,context:3,filler,context:12".toList))
      ∧ (diffopt_changed (state_of 2 three_blocks false)
            "icase,context:3,filler,context:12".toList).1.diff_flags = 3
      ∧ (diffopt_changed (state_of 2 three_blocks false)
            "icase,context:3,filler,context:12".toList).1.diff_context = 12
      ∧ (diffopt_changed (state_of 2 three_blocks false) "".toList).1.diff_context = 6 :=
  ⟨⟨by decide, by decide⟩,
    C25_recognized_tokens_set_options (state_of 2 three_blocks false)
      "icase,context:3,filler,context:12".toList (by decide) (by decide),
    by decide, by decide, by decide⟩

/-! ## The edit tracker: a deletion inside a block -/

/-- Case 3 of `diff_mark_adjust`: `c` lines are deleted inside the block `b`. -/
theorem adjust_step_delete_inside (H : Host) (diffbuf : Nat → Option buf_T) (fl idx : Nat)
    (line1 line2 c : Int) (b : diff_T) (next : Option diff_T) (hc : 0 < c)
    (hline : line2 = line1 + c - 1)
    (h1 : b.df_lnum idx < line1) (h2 : b.df_lnum idx + b.df_count idx - 1 ≥ line2) :
    adjust_step H diffbuf fl idx line2 (- c) 0 line1 c b next
      = some (adjust_others diffbuf idx 0 0 (b.setCount idx (b.df_count idx - c)),
          line1, c) := by
  unfold adjust_step
  simp only
  have e : (if c + 0 ≠ 0 then (1 : Int) else 0) = 1 := by rw [if_pos]; omega
  rw [e, if_pos (by omega), if_neg (by omega)]
  unfold touch_block
  have a1 : c > 0 := hc
  have a2 : ¬ (b.df_lnum idx ≥ line1) := by omega
  have a3 : ¬ (b.df_lnum idx + b.df_count idx - 1 < line2) := by omega
  simp only [a1, a2, a3, if_true, if_false, Bool.false_eq_true]

/-- The fields of a block after case 3: only `count[idx]` has changed. -/
theorem delete_inside_fields (diffbuf : Nat → Option buf_T) (idx : Nat) (c : Int)
    (b : diff_T) :
    (adjust_others diffbuf idx 0 0 (b.setCount idx (b.df_count idx - c))).df_count idx
        = b.df_count idx - c
      ∧ (∀ i, (adjust_others diffbuf idx 0 0
            (b.setCount idx (b.df_count idx - c))).df_lnum i = b.df_lnum i)
      ∧ (∀ i, i ≠ idx → (adjust_others diffbuf idx 0 0
            (b.setCount idx (b.df_count idx - c))).df_count i = b.df_count i) := by
  unfold adjust_others
  refine ⟨?_, ?_, ?_⟩
  · rw [for_slots_count]
    simp [diff_T.setCount]
  · intro i
    rw [for_slots_lnum]
    simp [diff_T.setCount]
  · intro i hi
    rw [for_slots_count]
    simp [diff_T.setCount, hi]

/-- Claim C28: in a list that is ordered with gaps and well formed, a notification that
deletes the `c = line2 - line1 + 1 > 0` lines `line1 .. line2` of buffer `idx` inside
the block `b` (`b.start[idx] < line1` and `b.start[idx] + b.count[idx] - 1 >= line2`)
leaves in the place of `b` a block whose `count[idx]` is smaller by exactly `c`, and
whose start in every buffer and count in every other buffer are those of `b`; the
blocks before it are unchanged and the blocks after it are moved up by `c` lines in
`idx` (both swept of all-zero blocks). -/
theorem C28_deletion_inside_block (H : Host) (S : DiffState) (curbuf : buf_T)
    (line1 line2 amount c : Int) (pre post : List diff_T) (b : diff_T)
    (hidx : diff_buf_idx S.diffbuf curbuf ≠ DB_COUNT)
    (hlist : S.first_diff = pre ++ b :: post)
    (hgap : ordered_with_gap S.diffbuf S.first_diff)
    (hwf : well_formed S.diffbuf S.first_diff)
    (hc : 0 < c) (hline : line2 = line1 + c - 1) (hmax : line2 ≠ MAXLNUM)
    (h1 : b.df_lnum (diff_buf_idx S.diffbuf curbuf) < line1)
    (h2 : b.df_lnum (diff_buf_idx S.diffbuf curbuf)
        + b.df_count (diff_buf_idx S.diffbuf curbuf) - 1 ≥ line2) :
    ∃ b', (diff_mark_adjust H S curbuf line1 line2 amount (- c)).first_diff
        = sweep S.diffbuf pre ++ b'
          :: sweep S.diffbuf (post.map (shifted (diff_buf_idx S.diffbuf curbuf) (- c)))
      ∧ b'.df_count (diff_buf_idx S.diffbuf curbuf)
          = b.df_count (diff_buf_idx S.diffbuf curbuf) - c
      ∧ (∀ i, b'.df_lnum i = b.df_lnum i)
      ∧ (∀ i, i ≠ diff_buf_idx S.diffbuf curbuf → b'.df_count i = b.df_count i) := by
  obtain ⟨hlt, hpart⟩ := diff_buf_idx_participating S.diffbuf curbuf hidx
  generalize hidxdef : diff_buf_idx S.diffbuf curbuf = idx at *
  rw [hlist] at hgap hwf
  have hcnt : ∀ a ∈ pre ++ b :: post, 0 ≤ a.df_count idx :=
    fun a ha => (hwf a ha idx hlt hpart).2
  have hgapb : ordered_with_gap S.diffbuf (b :: post) := by
    clear hwf hcnt hlist
    induction pre with
    | nil => exact hgap
    | cons a tl ih => exact ih (ordered_with_gap_tail _ _ _ hgap)
  have habove := ends_above S.diffbuf idx hlt hpart b post pre hgap
    (fun a ha => hcnt a (List.mem_append_left _ ha))
  have hbelow := starts_below S.diffbuf idx hlt hpart (b.df_lnum idx + b.df_count idx)
    post b hgapb
    (fun a ha => hcnt a (List.mem_append_right _ (List.mem_cons_of_mem _ ha)))
    (le_refl _)
  obtain ⟨hbc, hbl, hbo⟩ := delete_inside_fields S.diffbuf idx c b
  -- the blocks above the deletion
  obtain ⟨done', dprev', hw, hl, hinv⟩ := walk_above H S.diffbuf S.diff_flags S.diff_busy idx
    line2 (- c) 0 line1 c hlt hpart hmax (b :: post) pre [] none hgap
    (fun a ha => by
      have h3 := habove a ha
      have h4 := hcnt a (List.mem_append_left _ ha)
      constructor <;> omega)
    (fun p hp => by cases hp)
  -- the block that holds the deleted lines
  have hstep := adjust_step_delete_inside H S.diffbuf S.diff_flags idx line1 line2 c b
    post.head? hc hline h1 h2
  have hmerge := merge_or_advance_apart S.diffbuf idx done' dprev' []
    (adjust_others S.diffbuf idx 0 0 (b.setCount idx (b.df_count idx - c)))
    (fun p hp => by rw [hbl]; have := hinv p hp b rfl; omega)
  -- the blocks below the deletion
  have hpost := walk_delete_below H S.diffbuf S.diff_flags S.diff_busy idx
    line2 c line1 hlt hpart hc hline post (done' ++ dprev'.toList ++ [])
    (adjust_others S.diffbuf idx 0 0 (b.setCount idx (b.df_count idx - c)))
    (ordered_with_gap_tail _ _ _ hgapb)
    (fun a ha => by
      have h3 := hbelow a ha
      have h4 := hcnt a (List.mem_append_right _ (List.mem_cons_of_mem _ ha))
      constructor <;> omega)
    (by rw [hbl, hbc]; omega)
    (fun a ha => by
      cases post with
      | nil => simp at ha
      | cons x tl =>
        simp at ha; subst ha
        have := hbelow _ (List.mem_cons_self _ _)
        rw [hbl, hbc]; omega)
  have hdel : deleted_of line2 (- c) = c := by
    simp [deleted_of, hmax]; omega
  have hins : inserted_of line2 amount (- c) = 0 := by
    simp [inserted_of, hmax]; omega
  have hidx' : idx ≠ DB_COUNT := by omega
  have hwalk : adjust_walk H S.diffbuf S.diff_flags S.diff_busy idx line2
      (- c) 0 done' dprev' line1 c (b :: post)
      = (pre ++ adjust_others S.diffbuf idx 0 0 (b.setCount idx (b.df_count idx - c))
          :: post.map (shifted idx (- c)), false) := by
    rw [adjust_walk, create_block_none_of_touching H S.diffbuf S.diff_busy idx _ 0 dprev'
      line1 c b (by omega) hmax]
    simp only [hstep, hmerge, hpost]
    rw [List.append_nil, hl]
    simp
  have hkeep : all_zero S.diffbuf
      (adjust_others S.diffbuf idx 0 0 (b.setCount idx (b.df_count idx - c))) = false :=
    all_zero_of_some_count _ _ ⟨idx, hlt, hpart, by rw [hbc]; omega⟩
  refine ⟨adjust_others S.diffbuf idx 0 0 (b.setCount idx (b.df_count idx - c)),
    ?_, hbc, hbl, hbo⟩
  rw [diff_mark_adjust_list, hidxdef, if_neg hidx', hdel, hins, hlist, hw, hwalk]
  simp only [Bool.false_eq_true, if_false]
  rw [sweep_append]
  simp only [sweep, hkeep, Bool.false_eq_true, if_false]

theorem C28_witness :
    (∃ b', (diff_mark_adjust (host_of []) (state_of 2 inside_blocks false) 0 11 12 MAXLNUM
          (- 2)).first_diff
        = sweep (slots 2) [block_of [3, 3] [2, 0]] ++ b'
          :: sweep (slots 2) ([block_of [20, 18] [1, 1]].map (shifted 0 (- 2)))
      ∧ b'.df_count 0 = (block_of [10, 8] [4, 1]).df_count 0 - 2
      ∧ (∀ i, b'.df_lnum i = (block_of [10, 8] [4, 1]).df_lnum i)
      ∧ (∀ i, i ≠ 0 → b'.df_count i = (block_of [10, 8] [4, 1]).df_count i))
      ∧ ((diff_mark_adjust (host_of []) (state_of 2 inside_blocks false) 0 11 12 MAXLNUM
          (- 2)).first_diff.map diff_T.view
        = [([3, 3, 0, 0], [2, 0, 0, 0]), ([10, 8, 0, 0], [2, 1, 0, 0]),
            ([18, 18, 0, 0], [1, 1, 0, 0])]) :=
  ⟨C28_deletion_inside_block (host_of []) (state_of 2 inside_blocks false) 0 11 12 MAXLNUM 2
      [block_of [3, 3] [2, 0]] [block_of [20, 18] [1, 1]] (block_of [10, 8] [4, 1])
      (by decide) rfl (by decide) (by decide) (by decide) (by decide) (by decide)
      (by decide) (by decide),
    by decide⟩

/-! ## The edit tracker: a change between two blocks -/

theorem ordered_with_gap_front (diffbuf : Nat → Option buf_T) (post : List diff_T)
    (pre : List diff_T) :
    ordered_with_gap diffbuf (pre ++ post) → ordered_with_gap diffbuf pre := by
  induction pre with
  | nil => intro _; trivial
  | cons a tl ih =>
    intro h
    cases tl with
    | nil => trivial
    | cons b tl' =>
      exact ⟨h.1, ih (ordered_with_gap_tail _ _ _ h)⟩

theorem ordered_with_gap_back (diffbuf : Nat → Option buf_T) (post : List diff_T)
    (pre : List diff_T) :
    ordered_with_gap diffbuf (pre ++ post) → ordered_with_gap diffbuf post := by
  induction pre with
  | nil => intro h; exact h
  | cons a tl ih => intro h; exact ih (ordered_with_gap_tail _ _ _ h)

/-- In an ordered list with counts that are not negative, every block ends above the
end of the last block. -/
theorem ends_above_last (diffbuf : Nat → Option buf_T) (idx : Nat) (hidx : idx < DB_COUNT)
    (hpart : participating diffbuf idx = true) (x : Int) (pre : List diff_T) :
    ordered_with_gap diffbuf pre → (∀ a ∈ pre, 0 ≤ a.df_count idx) →
      (∀ p, pre.getLast? = some p → p.df_lnum idx + p.df_count idx < x) →
      ∀ a ∈ pre, a.df_lnum idx + a.df_count idx < x := by
  induction pre with
  | nil => intro _ _ _ a ha; simp at ha
  | cons c tl ih =>
    intro hgap hcount hlast a ha
    cases tl with
    | nil =>
      simp at ha; subst ha
      exact hlast a rfl
    | cons d tl' =>
      have hrec := ih (ordered_with_gap_tail _ _ _ hgap)
        (fun a ha => hcount a (List.mem_cons_of_mem _ ha))
        (fun p hp => hlast p (by rw [List.getLast?_cons_cons]; exact hp))
      rcases List.mem_cons.1 ha with h | h
      · subst h
        have h1 := ordered_with_gap_head _ _ _ _ hgap idx hidx hpart
        have h2 := hrec d (List.mem_cons_self _ _)
        have h3 := hcount d (List.mem_cons_of_mem _ (List.mem_cons_self _ _))
        omega
      · exact hrec a h

theorem shifted_zero (idx : Nat) (b : diff_T) : shifted idx 0 b = b := by
  cases b with
  | mk l c =>
    simp only [shifted, diff_T.setLnum, diff_T.mk.injEq, and_true]
    funext j
    by_cases h : j = idx
    · subst h; simp
    · simp [h]

theorem map_shifted_zero (idx : Nat) (l : List diff_T) : l.map (shifted idx 0) = l := by
  induction l with
  | nil => rfl
  | cons a tl ih => rw [List.map_cons, ih, shifted_zero]

theorem create_block_none_of_above (H : Host) (diffbuf : Nat → Option buf_T)
    (busy : Bool) (idx : Nat) (line2 inserted : Int) (dprev : Option diff_T)
    (line1 deleted : Int) (dp : diff_T)
    (h1 : ¬ (dp.df_lnum idx - 1 > line2)) (h2 : ¬ (dp.df_lnum idx > line1)) :
    create_block H diffbuf busy idx line2 inserted dprev line1 deleted (some dp)
      = some [] := by
  simp [create_block, h1, h2]

/-- The block that is linked between `dprev` and `dp` when the change touches neither
and `ex_diffgetput` is not busy. -/
theorem create_block_new (H : Host) (diffbuf : Nat → Option buf_T) (idx : Nat)
    (line2 inserted : Int) (dprev : Option diff_T) (line1 deleted : Int)
    (dp : Option diff_T) (g : diff_T) (halloc : H.alloc = some g)
    (hdp : ∀ c, dp = some c →
      c.df_lnum idx - 1 > line2 ∨ (line2 = MAXLNUM ∧ c.df_lnum idx > line1))
    (hprev : ∀ p, dprev = some p → p.df_lnum idx + p.df_count idx < line1) :
    create_block H diffbuf false idx line2 inserted dprev line1 deleted dp
      = some [new_block diffbuf idx line1 inserted deleted dprev g] := by
  have ha : after_dprev idx line1 dprev = true := by
    cases dprev with
    | none => rfl
    | some p => simpa [after_dprev] using hprev p rfl
  unfold create_block diff_alloc_new
  rw [halloc, ha]
  cases dp with
  | none => simp
  | some c =>
    rcases hdp c rfl with h | h
    · simp [h]
    · simp [h.1, h.2]

/-- The fields of the new block. -/
theorem new_block_fields (diffbuf : Nat → Option buf_T) (idx : Nat)
    (line1 inserted deleted : Int) (dprev : Option diff_T) (g : diff_T) :
    (new_block diffbuf idx line1 inserted deleted dprev g).df_lnum idx = line1
      ∧ (new_block diffbuf idx line1 inserted deleted dprev g).df_count idx = inserted
      ∧ ∀ i, i < DB_COUNT → i ≠ idx → participating diffbuf i = true →
        (new_block diffbuf idx line1 inserted deleted dprev g).df_count i = deleted
          ∧ (new_block diffbuf idx line1 inserted deleted dprev g).df_lnum i
            = match dprev with
              | none => line1
              | some p =>
                line1 + (p.df_lnum i + p.df_count i) - (p.df_lnum idx + p.df_count idx) := by
  unfold new_block
  refine ⟨?_, ?_, ?_⟩
  · rw [for_slots_lnum]
    simp [diff_T.setLnum, diff_T.setCount]
  · rw [for_slots_count]
    simp [diff_T.setLnum, diff_T.setCount]
  · intro i hi hne hp
    rw [for_slots_lnum, for_slots_count]
    cases dprev <;> simp [hi, hne, hp]

/-- The loop over blocks that end above the change, for every kind of notification:
they are left as they are, and `dprev` is the last of them. -/
theorem walk_above_all (H : Host) (diffbuf : Nat → Option buf_T) (fl : Nat) (busy : Bool)
    (idx : Nat) (line2 amount_after inserted line1 deleted : Int)
    (hidx : idx < DB_COUNT) (hpart : participating diffbuf idx = true)
    (rest pre : List diff_T) :
    ∀ (done : List diff_T) (dprev : Option diff_T),
      ordered_with_gap diffbuf (pre ++ rest) →
      (∀ a ∈ pre, a.df_lnum idx + a.df_count idx < line1 ∧ ¬ (a.df_lnum idx - 1 > line2)
        ∧ ¬ (a.df_lnum idx > line1)) →
      (∀ p, dprev = some p → ∀ a, (pre ++ rest).head? = some a →
        p.df_lnum idx + p.df_count idx < a.df_lnum idx) →
      ∃ done' dprev',
        adjust_walk H diffbuf fl busy idx line2 amount_after inserted done dprev line1
            deleted (pre ++ rest)
          = adjust_walk H diffbuf fl busy idx line2 amount_after inserted done' dprev' line1
            deleted rest
        ∧ done' ++ dprev'.toList = done ++ dprev.toList ++ pre
        ∧ dprev' = (match pre.getLast? with
            | some a => some a
            | none => dprev) := by
  induction pre with
  | nil =>
    intro done dprev _ _ _
    exact ⟨done, dprev, rfl, by simp, rfl⟩
  | cons a tl ih =>
    intro done dprev hgap hpre hinv
    obtain ⟨ha1, ha2, ha3⟩ := hpre a (List.mem_cons_self _ _)
    have hmerge := merge_or_advance_apart diffbuf idx done dprev [] a
      (fun p hp => by have := hinv p hp a rfl; omega)
    obtain ⟨done', dprev', hw, hl, hlast⟩ := ih (done ++ dprev.toList ++ []) (some a)
      (ordered_with_gap_tail _ _ _ hgap)
      (fun b hb => hpre b (List.mem_cons_of_mem _ hb))
      (fun p hp b hb => by
        cases hp
        cases hts : tl ++ rest with
        | nil => rw [hts] at hb; simp at hb
        | cons b_next tl_next =>
          rw [hts] at hb
          simp at hb; subst hb
          have hgap2 : ordered_with_gap diffbuf (a :: b_next :: tl_next) := by
            have := hgap
            rw [List.cons_append, hts] at this
            exact this
          exact ordered_with_gap_head _ _ _ _ hgap2 idx hidx hpart)
    refine ⟨done', dprev', ?_, ?_, ?_⟩
    · rw [List.cons_append, adjust_walk,
        create_block_none_of_above H diffbuf busy idx line2 inserted dprev line1 deleted a
          ha2 ha3]
      simp only [adjust_step_above H diffbuf fl idx line2 amount_after inserted line1 deleted
        a _ ha1, hmerge]
      exact hw
    · rw [hl]; simp
    · rw [hlast]
      cases tl with
      | nil => rfl
      | cons d tl' =>
        rw [List.getLast?_cons_cons]
        cases hq : (d :: tl').getLast? with
        | none => simp at hq
        | some q => rfl

/-- A round of the loop for a block that starts more than one line below `line2`: it is
moved by `amount_after`, or the loop is left when `amount_after` is zero. -/
theorem adjust_step_beyond (H : Host) (diffbuf : Nat → Option buf_T) (fl idx : Nat)
    (line2 k inserted line1 deleted : Int) (dp : diff_T) (next : Option diff_T)
    (h1 : line1 ≤ line2 + 1) (h2 : line2 < dp.df_lnum idx - 1) (hc : 0 ≤ dp.df_count idx) :
    adjust_step H diffbuf fl idx line2 k inserted line1 deleted dp next
      = if k = 0 then none else some (shifted idx k dp, line1, deleted) := by
  unfold adjust_step
  simp only
  have a1 : dp.df_lnum idx + dp.df_count idx - 1 ≥ line1 - 1 := by omega
  have a2 : dp.df_lnum idx - (if deleted + inserted ≠ 0 then (1 : Int) else 0) > line2 := by
    split <;> omega
  rw [if_pos a1, if_pos a2]
  rfl

/-- The loop over the blocks below a change with `amount_after` not zero: each is moved
by `amount_after`, and no block is created. -/
theorem walk_shift_below (H : Host) (diffbuf : Nat → Option buf_T) (fl : Nat)
    (busy : Bool) (idx : Nat) (line2 k inserted line1 deleted : Int)
    (hidx : idx < DB_COUNT) (hpart : participating diffbuf idx = true) (hk : k ≠ 0)
    (h1 : line1 ≤ line2 + 1) (h2 : line1 ≤ line2 + 1 + k) (post : List diff_T) :
    ∀ (done : List diff_T) (p : diff_T),
      ordered_with_gap diffbuf post →
      (∀ b ∈ post, line2 < b.df_lnum idx - 1 ∧ 0 ≤ b.df_count idx) →
      line1 ≤ p.df_lnum idx + p.df_count idx →
      (∀ b, post.head? = some b → p.df_lnum idx + p.df_count idx < b.df_lnum idx + k) →
      adjust_walk H diffbuf fl busy idx line2 k inserted done (some p) line1 deleted post
        = (done ++ p :: post.map (shifted idx k), false) := by
  induction post with
  | nil =>
    intro done p _ _ hle _
    rw [adjust_walk, create_block_none_of_not_after _ _ _ _ _ _ _ _ _ _
      (after_dprev_false idx line1 p hle)]
    simp
  | cons dp tl ih =>
    intro done p hgap hpost hle hinv
    obtain ⟨hb1, hb2⟩ := hpost dp (List.mem_cons_self _ _)
    have hl : (shifted idx k dp).df_lnum idx = dp.df_lnum idx + k := by
      simp [shifted, diff_T.setLnum]
    have hcnt : (shifted idx k dp).df_count idx = dp.df_count idx := by
      simp [shifted, diff_T.setLnum]
    have hmerge := merge_or_advance_apart diffbuf idx done (some p) []
      (shifted idx k dp)
      (fun q hq => by cases hq; rw [hl]; have := hinv dp rfl; omega)
    rw [adjust_walk, create_block_none_of_not_after _ _ _ _ _ _ _ _ _ _
      (after_dprev_false idx line1 p hle)]
    simp only [adjust_step_beyond H diffbuf fl idx line2 k inserted line1 deleted dp _ h1 hb1
      hb2, if_neg hk, hmerge]
    rw [ih (done ++ (some p).toList ++ []) (shifted idx k dp)
      (ordered_with_gap_tail _ _ _ hgap)
      (fun b hb => hpost b (List.mem_cons_of_mem _ hb))
      (by rw [hl, hcnt]; omega)
      (fun b hb => by
        cases tl with
        | nil => simp at hb
        | cons b_next tl_next =>
          simp at hb; subst hb
          have := ordered_with_gap_head _ _ _ _ hgap idx hidx hpart
          rw [hl, hcnt]; omega)]
    simp

/-- The list when the loop of `diff_mark_adjust` is left, for a change that lies between
the last block of `pre` and the first block of `post` and touches neither. -/
theorem walk_between (H : Host) (diffbuf : Nat → Option buf_T) (fl idx : Nat)
    (line1 line2 amount amount_after : Int) (pre post : List diff_T) (g : diff_T)
    (hlt : idx < DB_COUNT) (hpart : participating diffbuf idx = true)
    (halloc : H.alloc = some g)
    (hgap : ordered_with_gap diffbuf (pre ++ post))
    (hcnt : ∀ b ∈ pre ++ post, 0 ≤ b.df_count idx)
    (hmaxl : ∀ b ∈ pre ++ post, b.df_lnum idx ≤ MAXLNUM)
    (hins : line2 = MAXLNUM → 0 < amount)
    (hrange : line2 ≠ MAXLNUM → line1 ≤ line2 + 1 ∧ line1 ≤ line2 + 1 + amount_after)
    (hprev : ∀ p, pre.getLast? = some p → p.df_lnum idx + p.df_count idx < line1)
    (hcur : ∀ c, post.head? = some c →
      c.df_lnum idx - 1 > line2 ∨ (line2 = MAXLNUM ∧ c.df_lnum idx > line1)) :
    adjust_walk H diffbuf fl false idx line2 amount_after
        (inserted_of line2 amount amount_after) [] none line1 (deleted_of line2 amount_after)
        (pre ++ post)
      = (pre ++ new_block diffbuf idx line1 (inserted_of line2 amount amount_after)
            (deleted_of line2 amount_after) pre.getLast? g
          :: post.map (shifted idx (if line2 = MAXLNUM then amount else amount_after)),
        false) := by
  have hpre := ends_above_last diffbuf idx hlt hpart line1 pre
    (ordered_with_gap_front _ _ _ hgap)
    (fun a ha => hcnt a (List.mem_append_left _ ha)) hprev
  have hgapp := ordered_with_gap_back _ _ _ hgap
  -- the blocks above the change
  obtain ⟨done', dprev', hw, hl, hlast⟩ := walk_above_all H diffbuf fl false idx
    line2 amount_after (inserted_of line2 amount amount_after) line1
    (deleted_of line2 amount_after) hlt hpart post pre [] none hgap
    (fun a ha => by
      have h3 := hpre a ha
      have h4 := hcnt a (List.mem_append_left _ ha)
      have h5 := hmaxl a (List.mem_append_left _ ha)
      refine ⟨h3, ?_, by omega⟩
      by_cases hm : line2 = MAXLNUM
      · omega
      · have := (hrange hm).1; omega)
    (fun p hp => by cases hp)
  have hd : dprev' = pre.getLast? := by
    rw [hlast]; cases pre.getLast? <;> rfl
  subst hd
  have hl' : done' ++ pre.getLast?.toList = pre := by
    rw [hl]; simp
  rw [hw]
  have hnew := create_block_new H diffbuf idx line2 (inserted_of line2 amount amount_after)
    pre.getLast? line1 (deleted_of line2 amount_after) post.head? g halloc hcur hprev
  cases post with
  | nil =>
    simp only [List.head?_nil] at hnew
    rw [adjust_walk, hnew]
    simp only [List.map_nil]
    rw [hl']
  | cons cur tl =>
    simp only [List.head?_cons] at hnew
    have hc0 := hcnt cur (List.mem_append_right _ (List.mem_cons_self _ _))
    have hm0 := hmaxl cur (List.mem_append_right _ (List.mem_cons_self _ _))
    have hcur0 := hcur cur rfl
    by_cases hm : line2 = MAXLNUM
    · -- a pure insertion
      subst hm
      have hn := hins rfl
      have hi : inserted_of MAXLNUM amount amount_after = amount := by simp [inserted_of]
      have hdl : deleted_of MAXLNUM amount_after = 0 := by simp [deleted_of]
      rw [hi, hdl] at hnew ⊢
      simp only [if_true]
      have hstart : line1 < cur.df_lnum idx := by
        rcases hcur0 with h | h
        · omega
        · exact h.2
      obtain ⟨dp', hstep, -, hshift⟩ := adjust_step_insert H diffbuf fl idx amount_after
        amount line1 cur tl.head? hn hm0
      have hdp' : dp' = shifted idx amount cur := hshift hstart hc0
      subst hdp'
      have hls : (shifted idx amount cur).df_lnum idx = cur.df_lnum idx + amount := by
        simp [shifted, diff_T.setLnum]
      have hcs : (shifted idx amount cur).df_count idx = cur.df_count idx := by
        simp [shifted, diff_T.setLnum]
      have hmerge := merge_or_advance_apart diffbuf idx done' pre.getLast?
        [new_block diffbuf idx line1 amount 0 pre.getLast? g] (shifted idx amount cur)
        (fun p hp => by rw [hls]; have := hprev p hp; omega)
      have hbelow := starts_below diffbuf idx hlt hpart (cur.df_lnum idx) tl cur hgapp
        (fun b hb => hcnt b (List.mem_append_right _ (List.mem_cons_of_mem _ hb)))
        (by omega)
      obtain ⟨F, hwt, hF⟩ := walk_insert_below H diffbuf fl false idx amount_after amount
        line1 hlt hpart hn (Or.inl (by rw [halloc]; rfl)) tl
        (done' ++ pre.getLast?.toList ++ [new_block diffbuf idx line1 amount 0 pre.getLast? g])
        (some (shifted idx amount cur))
        (ordered_with_gap_tail _ _ _ hgapp)
        (fun b hb => ⟨hmaxl b (List.mem_append_right _ (List.mem_cons_of_mem _ hb)),
          by have := hbelow b hb; omega,
          hcnt b (List.mem_append_right _ (List.mem_cons_of_mem _ hb))⟩)
        (fun p hp b hb => by
          cases hp
          cases tl with
          | nil => simp at hb
          | cons b' tl' =>
            simp at hb; subst hb
            have := ordered_with_gap_head _ _ _ _ hgapp idx hlt hpart
            rw [hls, hcs]; omega)
      have hFnil : F = [] := hF _ rfl (by rw [hls, hcs]; omega)
      subst hFnil
      rw [adjust_walk, hnew]
      simp only [hstep, hmerge, hwt]
      rw [hl']
      simp
    · -- a change of the lines line1 .. line2
      obtain ⟨hr1, hr2⟩ := hrange hm
      have hstart : line2 < cur.df_lnum idx - 1 := by
        rcases hcur0 with h | h
        · omega
        · exact absurd h.1 hm
      simp only [hm, if_false]
      have hstep := adjust_step_beyond H diffbuf fl idx line2 amount_after
        (inserted_of line2 amount amount_after) line1 (deleted_of line2 amount_after) cur
        tl.head? hr1 hstart hc0
      by_cases hk : amount_after = 0
      · rw [if_pos hk] at hstep
        rw [adjust_walk, hnew]
        simp only [hstep]
        rw [hl', hk, map_shifted_zero]
        simp
      · rw [if_neg hk] at hstep
        have hls : (shifted idx amount_after cur).df_lnum idx
            = cur.df_lnum idx + amount_after := by
          simp [shifted, diff_T.setLnum]
        have hcs : (shifted idx amount_after cur).df_count idx = cur.df_count idx := by
          simp [shifted, diff_T.setLnum]
        have hmerge := merge_or_advance_apart diffbuf idx done' pre.getLast?
          [new_block diffbuf idx line1 (inserted_of line2 amount amount_after)
            (deleted_of line2 amount_after) pre.getLast? g] (shifted idx amount_after cur)
          (fun p hp => by rw [hls]; have := hprev p hp; omega)
        have hbelow := starts_below diffbuf idx hlt hpart (cur.df_lnum idx) tl cur hgapp
          (fun b hb => hcnt b (List.mem_append_right _ (List.mem_cons_of_mem _ hb)))
          (by omega)
        have hwt := walk_shift_below H diffbuf fl false idx line2 amount_after
          (inserted_of line2 amount amount_after) line1 (deleted_of line2 amount_after)
          hlt hpart hk hr1 hr2 tl
          (done' ++ pre.getLast?.toList
            ++ [new_block diffbuf idx line1 (inserted_of line2 amount amount_after)
              (deleted_of line2 amount_after) pre.getLast? g])
          (shifted idx amount_after cur)
          (ordered_with_gap_tail _ _ _ hgapp)
          (fun b hb => ⟨by have := hbelow b hb; omega,
            hcnt b (List.mem_append_right _ (List.mem_cons_of_mem _ hb))⟩)
          (by rw [hls, hcs]; omega)
          (fun b hb => by
            cases tl with
            | nil => simp at hb
            | cons b' tl' =>
              simp at hb; subst hb
              have := ordered_with_gap_head _ _ _ _ hgapp idx hlt hpart
              rw [hls, hcs]; omega)
        rw [adjust_walk, hnew]
        simp only [hstep, hmerge, hwt]
        rw [hl']
        simp

/-- Claim C27: `busy` is false, allocation succeeds, and the list, ordered with gaps and
well formed, is `pre ++ post`, where the last block of `pre` (`prev`, if any) has
`prev.start[idx] + prev.count[idx] < line1` and the first block of `post` (`cur`, if
any) has `cur.start[idx] - 1 > line2`, or `cur.start[idx] > line1` for a pure
insertion.  Then `diff_mark_adjust` links exactly one new block `nb` between `pre` and
`post` (this is the list when the loop is left), with `start[idx] = line1`,
`count[idx] = inserted`, and for every other participating `i` `count[i] = deleted` and
`start[i] = line1 + (prev.start[i] + prev.count[i]) - (prev.start[idx] + prev.count[idx])`
(`line1` without `prev`); the blocks of `post` are moved by the shift of the
notification.  The final sweep unlinks all-zero blocks; when `nb` and the old blocks
have a count that is not zero, the new list is exactly `pre ++ nb :: post` (moved). -/
theorem C27_change_between_blocks_links_new_block (H : Host) (S : DiffState)
    (curbuf : buf_T) (line1 line2 amount amount_after : Int) (pre post : List diff_T)
    (g : diff_T)
    (hidx : diff_buf_idx S.diffbuf curbuf ≠ DB_COUNT)
    (hbusy : S.diff_busy = false)
    (halloc : H.alloc = some g)
    (hlist : S.first_diff = pre ++ post)
    (hgap : ordered_with_gap S.diffbuf S.first_diff)
    (hwf : well_formed S.diffbuf S.first_diff)
    (hmaxl : ∀ b ∈ S.first_diff, b.df_lnum (diff_buf_idx S.diffbuf curbuf) ≤ MAXLNUM)
    (hins : line2 = MAXLNUM → 0 < amount)
    (hrange : line2 ≠ MAXLNUM → line1 ≤ line2 + 1 ∧ line1 ≤ line2 + 1 + amount_after)
    (hprev : ∀ p, pre.getLast? = some p →
      p.df_lnum (diff_buf_idx S.diffbuf curbuf) + p.df_count (diff_buf_idx S.diffbuf curbuf)
        < line1)
    (hcur : ∀ c, post.head? = some c →
      c.df_lnum (diff_buf_idx S.diffbuf curbuf) - 1 > line2
        ∨ (line2 = MAXLNUM ∧ c.df_lnum (diff_buf_idx S.diffbuf curbuf) > line1)) :
    ∃ nb,
      adjust_walk H S.diffbuf S.diff_flags S.diff_busy (diff_buf_idx S.diffbuf curbuf) line2
          amount_after (inserted_of line2 amount amount_after) [] none line1
          (deleted_of line2 amount_after) S.first_diff
          = (pre ++ nb :: post.map (shifted (diff_buf_idx S.diffbuf curbuf)
              (if line2 = MAXLNUM then amount else amount_after)), false)
        ∧ (diff_mark_adjust H S curbuf line1 line2 amount amount_after).first_diff
          = sweep S.diffbuf (pre ++ nb :: post.map (shifted (diff_buf_idx S.diffbuf curbuf)
              (if line2 = MAXLNUM then amount else amount_after)))
        ∧ (some_count S.diffbuf nb → (∀ b ∈ S.first_diff, some_count S.diffbuf b) →
            (diff_mark_adjust H S curbuf line1 line2 amount amount_after).first_diff
              = pre ++ nb :: post.map (shifted (diff_buf_idx S.diffbuf curbuf)
                  (if line2 = MAXLNUM then amount else amount_after)))
        ∧ nb.df_lnum (diff_buf_idx S.diffbuf curbuf) = line1
        ∧ nb.df_count (diff_buf_idx S.diffbuf curbuf) = inserted_of line2 amount amount_after
        ∧ ∀ i, i < DB_COUNT → i ≠ diff_buf_idx S.diffbuf curbuf →
            participating S.diffbuf i = true →
            nb.df_count i = deleted_of line2 amount_after
              ∧ nb.df_lnum i = match pre.getLast? with
                | none => line1
                | some p => line1 + (p.df_lnum i + p.df_count i)
                    - (p.df_lnum (diff_buf_idx S.diffbuf curbuf)
                      + p.df_count (diff_buf_idx S.diffbuf curbuf)) := by
  obtain ⟨hlt, hpart⟩ := diff_buf_idx_participating S.diffbuf curbuf hidx
  generalize hidxdef : diff_buf_idx S.diffbuf curbuf = idx at *
  rw [hlist] at hgap hwf hmaxl
  have hwalk := walk_between H S.diffbuf S.diff_flags idx line1 line2 amount amount_after
    pre post g hlt hpart halloc hgap (fun b hb => (hwf b hb idx hlt hpart).2) hmaxl hins
    hrange hprev hcur
  obtain ⟨f1, f2, f3⟩ := new_block_fields S.diffbuf idx line1
    (inserted_of line2 amount amount_after) (deleted_of line2 amount_after) pre.getLast? g
  have hidx' : idx ≠ DB_COUNT := by omega
  have hfinal : (diff_mark_adjust H S curbuf line1 line2 amount amount_after).first_diff
      = sweep S.diffbuf (pre ++ new_block S.diffbuf idx line1
          (inserted_of line2 amount amount_after) (deleted_of line2 amount_after)
          pre.getLast? g
        :: post.map (shifted idx (if line2 = MAXLNUM then amount else amount_after))) := by
    rw [diff_mark_adjust_list, hidxdef, if_neg hidx', hbusy, hlist, hwalk]
    simp
  refine ⟨_, by rw [hbusy, hlist]; exact hwalk, hfinal, ?_, f1, f2, f3⟩
  intro hnb hall
  rw [hfinal]
  apply sweep_eq_self
  intro b hb
  rw [hlist] at hall
  rcases List.mem_append.1 hb with h | h
  · exact all_zero_of_some_count _ _ (hall b (List.mem_append_left _ h))
  · rcases List.mem_cons.1 h with h | h
    · rw [h]; exact all_zero_of_some_count _ _ hnb
    · obtain ⟨c, hc, rfl⟩ := List.mem_map.1 h
      rw [all_zero_shifted]
      exact all_zero_of_some_count _ _ (hall c (List.mem_append_right _ hc))

theorem C27_witness :
    (∃ nb,
      adjust_walk (host_of []) (slots 2) DIFF_FILLER false 0 17 (- 2) 0 [] none 16 2
          inside_blocks
          = ([block_of [3, 3] [2, 0], block_of [10, 8] [4, 1]] ++ nb
              :: [block_of [20, 18] [1, 1]].map (shifted 0 (- 2)), false)
        ∧ (diff_mark_adjust (host_of []) (state_of 2 inside_blocks false) 0 16 17 MAXLNUM
          (- 2)).first_diff
          = sweep (slots 2) ([block_of [3, 3] [2, 0], block_of [10, 8] [4, 1]] ++ nb
              :: [block_of [20, 18] [1, 1]].map (shifted 0 (- 2)))
        ∧ (some_count (slots 2) nb
            → (∀ b ∈ inside_blocks, some_count (slots 2) b) →
            (diff_mark_adjust (host_of []) (state_of 2 inside_blocks false) 0 16 17 MAXLNUM
                (- 2)).first_diff
              = [block_of [3, 3] [2, 0], block_of [10, 8] [4, 1]] ++ nb
                :: [block_of [20, 18] [1, 1]].map (shifted 0 (- 2)))
        ∧ nb.df_lnum 0 = 16
        ∧ nb.df_count 0 = 0
        ∧ ∀ i, i < DB_COUNT → i ≠ 0 → participating (slots 2) i = true →
            nb.df_count i = 2
              ∧ nb.df_lnum i = 16 + ((block_of [10, 8] [4, 1]).df_lnum i
                  + (block_of [10, 8] [4, 1]).df_count i)
                - ((block_of [10, 8] [4, 1]).df_lnum 0
                  + (block_of [10, 8] [4, 1]).df_count 0))
      ∧ (diff_mark_adjust (host_of []) (state_of 2 inside_blocks false) 0 16 17 MAXLNUM
          (- 2)).first_diff.map diff_T.view
        = [([3, 3, 0, 0], [2, 0, 0, 0]), ([10, 8, 0, 0], [4, 1, 0, 0]),
            ([16, 11, 0, 0], [0, 2, 0, 0]), ([18, 18, 0, 0], [1, 1, 0, 0])]
      ∧ (diff_mark_adjust (host_of []) (state_of 2 inside_blocks false) 0 7 MAXLNUM 3
          0).first_diff.map diff_T.view
        = [([3, 3, 0, 0], [2, 0, 0, 0]), ([7, 5, 0, 0], [3, 0, 0, 0]),
            ([13, 8, 0, 0], [4, 1, 0, 0]), ([23, 18, 0, 0], [1, 1, 0, 0])] :=
  ⟨C27_change_between_blocks_links_new_block (host_of []) (state_of 2 inside_blocks false)
      0 16 17 MAXLNUM (- 2) [block_of [3, 3] [2, 0], block_of [10, 8] [4, 1]]
      [block_of [20, 18] [1, 1]] (block_of [] []) (by decide) rfl rfl rfl (by decide)
      (by decide) (by decide) (by decide) (by decide)
      (fun p hp => by
        simp only [List.getLast?_cons_cons, List.getLast?_singleton, Option.some.injEq] at hp
        subst hp
        decide)
      (fun c hc => by
        simp only [List.head?_cons, Option.some.injEq] at hc
        subst hc
        exact Or.inl (by decide)),
    by decide, by decide⟩

/-! ## Transfers that change the number of lines -/

/-- Claim C29 fails on the code.  Two buffers, A = `a1`, `X`, `g`, `Y`, `a5` and
B = `a1`, `P`, `Q`, `g`, `Z`, `a5` (current), the blocks `{start=[2,2], count=[1,2]}`
and `{start=[4,5], count=[1,1]}` (one unchanged line apart), `:2,3diffget`.  The first
block is transferred, B loses one line (`added = -1`), so the second block should
become `{start=[4,4], count=[1,1]}`.  The code makes it `{start=[1,2], count=[4,-2]}`:
the call `mark_adjust(lnum, lnum + count, ...)` (line 1615) names line 4 of B as
changed, and `diff_mark_adjust` takes the second block as touched.  With `:2,3diffput`
from B into A (`added = 1`) the second block is moved by one line, as claimed. -/
theorem C29_following_block_one_line_below_not_shifted :
    ordered_with_gap (slots 2) near_blocks ∧ well_formed (slots 2) near_blocks
      ∧ (ex_diffgetput (host_of []) (editor_of near_blocks_bufs 2 near_blocks 1)
            ⟨cmdidx_T.CMD_diffget, [], 2, 3, 2⟩).map
          (fun E => (E.lines 1, E.diff.first_diff.map diff_T.view))
        = some (lines_of ["a1", "X", "g", "Z", "a5"], [([1, 2, 0, 0], [4, -2, 0, 0])])
      ∧ (shifted 1 (-1) (block_of [4, 5] [1, 1])).view = ([4, 4, 0, 0], [1, 1, 0, 0])
      ∧ (ex_diffgetput (host_of []) (editor_of near_blocks_bufs 2 near_blocks 1)
            ⟨cmdidx_T.CMD_diffput, [], 2, 3, 2⟩).map
          (fun E => (E.lines 0, E.diff.first_diff.map diff_T.view))
        = some (lines_of ["a1", "P", "Q", "g", "Y", "a5"], [([5, 5, 0, 0], [1, 1, 0, 0])]) :=
  ⟨by decide, by decide, by decide, by decide, by decide⟩

/-- Claim C30 fails on the code.  Three buffers, A = `a1`, `X`, `a3` (current),
B = `a1`, `P`, `Q`, `R`, `a3` and C = `a1`, `U`, `V`, `a3`, one block
`{start=[2,2,2], count=[1,3,2]}`, `:2diffput 1` (into B).  One line is copied and C
differs from A, so the block is retained and should become
`{start=[2,2,2], count=[1,1,2]}`.  The code leaves `count = [0,0,1]`: the call
`mark_adjust(2, 5, MAXLNUM, -2)` makes `diff_mark_adjust` take case 4 ("delete all
lines of diff") and add `deleted - count[to] = -1` to the counts of A and C, and line
1630 then copies the changed `count[from] = 0`.  A transfer that keeps the number of
lines (B = `a1`, `P`, `a3`, C = `a1`, `U`, `a3`) leaves the block as claimed. -/
theorem C30_retained_block_counts_after_shrinking_transfer :
    (ex_diffgetput (host_of retained_bufs) (editor_of retained_bufs 3 retained_blocks 0)
          ⟨cmdidx_T.CMD_diffput, "1".toList, 2, 2, 1⟩).map
        (fun E => (E.lines 1, E.diff.first_diff.map diff_T.view))
      = some (lines_of ["a1", "X", "a3"], [([2, 2, 2, 0], [0, 0, 1, 0])])
      ∧ (diff_equal_entry ((host_of retained_bufs).on (fun b => retained_bufs.getD b []))
          (slots 3) DIFF_FILLER (block_of [2, 2, 2] [1, 3, 2]) 0 2 = false)
      ∧ (mark_adjust ((host_of retained_bufs).on (fun b =>
              [lines_of ["a1", "X", "a3"], lines_of ["a1", "X", "a3"],
                lines_of ["a1", "U", "V", "a3"]].getD b []))
            (state_of 3 retained_blocks true) 1 2 (2 + 3) MAXLNUM (-2)).first_diff.map
          diff_T.view
        = [([2, 2, 2, 0], [0, 0, 1, 0])]
      ∧ (ex_diffgetput (host_of same_size_bufs)
            (editor_of same_size_bufs 3 [block_of [2, 2, 2] [1, 1, 1]] 0)
            ⟨cmdidx_T.CMD_diffput, "1".toList, 2, 2, 1⟩).map
          (fun E => (E.lines 1, E.diff.first_diff.map diff_T.view))
        = some (lines_of ["a1", "X", "a3"], [([2, 2, 2, 0], [1, 1, 1, 0])]) :=
  ⟨by decide, by decide, by decide, by decide⟩

/-! ## The comparator of a line with itself -/

theorem STRCMP_self (s : List Char) : STRCMP s s = 0 := by
  induction s with
  | nil => rfl
  | cons c cs ih => simp [STRCMP, ih]

theorem STRICMP_self (s : List Char) : STRICMP s s = 0 := by
  induction s with
  | nil => rfl
  | cons c cs ih => simp [STRICMP, ih]

/-- The loop of `diff_cmp` on a line and itself runs to the end of the line, whatever the
width of its characters. -/
theorem diff_cmp_loop_self (H : Host) (fuel : Nat) :
    ∀ s : List Char, s.length ≤ fuel → diff_cmp_loop H fuel s s = ([], []) := by
  induction fuel with
  | zero =>
    intro s hs
    cases s with
    | nil => rfl
    | cons c r => simp at hs
  | succ n ih =>
    intro s hs
    cases s with
    | nil => rfl
    | cons c r =>
      have hr : r.length ≤ n := by simpa using hs
      rw [diff_cmp_loop]
      split
      · rename_i hw
        apply ih
        have hc : vim_iswhite c = true := by simpa using hw
        have : skipwhite (c :: r) = skipwhite r := by simp [skipwhite, hc]
        rw [this]
        exact le_trans (skipwhite_length_le r) hr
      · simp only [ne_eq, not_true_eq_false, if_false, false_and]
        split
        · apply ih
          rename_i hl
          have : ((c :: r).drop (H.mb_ptr2len_check (c :: r))).length ≤ r.length := by
            rw [List.length_drop]
            simp only [List.length_cons]
            omega
          exact le_trans this hr
        · exact ih r hr

/-- Claim C34: `diff_cmp(s, s)` is zero for every line `s`, every flag word (so for
each combination of `ICASE` and `IWHITE`) and every host (so also when every character
is one byte); in particular two empty lines compare equal. -/
theorem C34_diff_cmp_reflexive (H : Host) (diff_flags : Nat) (s : List Char) :
    diff_cmp H diff_flags s s = 0 ∧ diff_cmp H diff_flags [] [] = 0 := by
  have h : ∀ t : List Char, diff_cmp H diff_flags t t = 0 := by
    intro t
    unfold diff_cmp
    split
    · exact STRCMP_self t
    · split
      · exact STRICMP_self t
      · simp only [diff_cmp_loop_self H t.length t (le_refl _)]
        simp [skipwhite]
  exact ⟨h s, h []⟩

/-! ## The fold query and the padded ranges -/

/-- When the list that `diff_infold` looks at (rebuilt first when stale) is empty, the
result is `FALSE`. -/
theorem diff_infold_empty (H : Host) (S : DiffState) (wp : win_T) (lnum : Int)
    (h : (diff_infold H S wp lnum).1.first_diff = []) :
    (diff_infold H S wp lnum).2 = false := by
  unfold diff_infold at h ⊢
  by_cases h1 : (!wp.w_p_diff) = true
  · rw [if_pos h1]
  · rw [if_neg h1] at h ⊢
    by_cases h2 : (infold_slots S.diffbuf wp.w_buffer).1 = -1
        ∨ (infold_slots S.diffbuf wp.w_buffer).2 = false
    · rw [if_pos h2]
    · rw [if_neg h2] at h ⊢
      simp only at h ⊢
      generalize (if S.diff_invalid = true then ex_diffupdate H S else S) = S1 at h ⊢
      by_cases h3 : S1.first_diff.isEmpty = true
      · rw [if_pos h3]
      · rw [if_neg h3] at h
        simp only at h
        rw [h] at h3
        exact absurd rfl h3

theorem diff_infold_state (H : Host) (S : DiffState) (wp : win_T) (lnum : Int)
    (hinv : S.diff_invalid = false) : (diff_infold H S wp lnum).1 = S := by
  unfold diff_infold
  split
  · rfl
  · split
    · rfl
    · simp only [hinv, Bool.false_eq_true, if_false]
      split <;> rfl

theorem away_iff_outside (idx : Nat) (context lnum : Int) (l : List diff_T) :
    away_from_blocks idx context lnum l ↔ ∀ b ∈ l, ¬ in_padded_range idx context lnum b := by
  unfold away_from_blocks in_padded_range
  constructor
  · intro h b hb
    have := h b hb
    omega
  · intro h b hb
    have := h b hb
    omega

/-- Claim C33: `diff_infold` returns `FALSE` whenever the block list (rebuilt first when
it is stale) is empty; and for a window in diff mode on the buffer of slot `idx`, with
another buffer taking part, and an up-to-date list that is not empty and is ordered by
`start[idx]`, it returns `TRUE` exactly when `lnum` lies outside the padded range
`[start[idx] - context, start[idx] + count[idx] + context)` of every block. -/
theorem C33_infold_false_on_empty_else_outside_padded_ranges (H : Host) (S : DiffState)
    (wp : win_T) (lnum : Int) :
    ((diff_infold H S wp lnum).1.first_diff = [] → (diff_infold H S wp lnum).2 = false)
      ∧ (S.diff_invalid = false → S.first_diff = [] → (diff_infold H S wp lnum).2 = false)
      ∧ (∀ idx, wp.w_p_diff = true → S.diff_invalid = false → idx < DB_COUNT →
          S.diffbuf idx = some wp.w_buffer →
          (∀ j, j < DB_COUNT → S.diffbuf j = some wp.w_buffer → j = idx) →
          (∃ j, j < DB_COUNT ∧ j ≠ idx ∧ participating S.diffbuf j = true) →
          starts_ordered idx S.first_diff → S.first_diff ≠ [] →
          ((diff_infold H S wp lnum).2 = true
            ↔ ∀ b ∈ S.first_diff, ¬ in_padded_range idx S.diff_context lnum b)) := by
  refine ⟨diff_infold_empty H S wp lnum, ?_, ?_⟩
  · intro hinv he
    apply diff_infold_empty
    rw [diff_infold_state H S wp lnum hinv]
    exact he
  · intro idx hw hinv hidx hbuf huniq hother hord hne
    rw [diff_infold_value H S wp lnum idx hw hinv hidx hbuf huniq hother]
    have : S.first_diff.isEmpty = false := by
      cases hl : S.first_diff with
      | nil => exact absurd hl hne
      | cons a t => rfl
    rw [this]
    simp only [Bool.false_eq_true, if_false]
    rw [infold_walk_iff idx S.diff_context lnum S.first_diff hord]
    exact away_iff_outside idx S.diff_context lnum S.first_diff

theorem C33_witness :
    ((diff_infold (host_of []) (state_of 3 [] false) (win_of 1) 9).2 = false)
      ∧ ((diff_infold (host_of []) (state_of 2 inside_blocks false) (win_of 1) 16).2 = true
          ↔ ∀ b ∈ (state_of 2 inside_blocks false).first_diff,
              ¬ in_padded_range 1 (state_of 2 inside_blocks false).diff_context 16 b)
      ∧ (diff_infold (host_of []) (state_of 2 inside_blocks false) (win_of 1) 25).2 = true
      ∧ (diff_infold (host_of []) (state_of 2 inside_blocks false) (win_of 1) 24).2 = false
      ∧ in_padded_range 1 6 24 (block_of [20, 18] [1, 1]) :=
  ⟨(C33_infold_false_on_empty_else_outside_padded_ranges (host_of []) (state_of 3 [] false)
      (win_of 1) 9).2.1 rfl rfl,
    (C33_infold_false_on_empty_else_outside_padded_ranges (host_of [])
      (state_of 2 inside_blocks false) (win_of 1) 16).2.2 1 rfl rfl (by decide) rfl
      (fun j hj h => by
        have hj4 : j < 4 := hj
        interval_cases j
        · exact absurd h (by decide)
        · rfl
        · exact absurd h (by decide)
        · exact absurd h (by decide))
      ⟨0, by decide⟩ (by decide) (fun h => by cases h),
    by decide, by decide, by decide⟩

/-! ## The normalizer changes a block uniformly -/

/-- The search loop stops at the first index that satisfies the test. -/
theorem find_idx_before (p : Nat → Bool) (n : Nat) :
    ∀ i j, i ≤ j → j < find_idx p n i → p j = false := by
  induction n with
  | zero =>
    intro i j h1 h2
    simp only [find_idx] at h2
    omega
  | succ n ih =>
    intro i j h1 h2
    simp only [find_idx] at h2
    split at h2
    · omega
    · rename_i hp
      by_cases e : j = i
      · subst e; simpa using hp
      · exact ih (i + 1) j (by omega) h2

/-- One line removed from a block: every participating buffer loses it. -/
theorem remove_line_fields (diffbuf : Nat → Option buf_T) (i_org : Nat) (bw : Bool)
    (dp : diff_T) (hmin : ∀ j, j < i_org → participating diffbuf j = false) :
    (∀ i, i < DB_COUNT → participating diffbuf i = true →
        (remove_line diffbuf i_org bw dp).df_lnum i
            = dp.df_lnum i + (if bw then 0 else 1)
          ∧ (remove_line diffbuf i_org bw dp).df_count i = dp.df_count i - 1)
      ∧ (∀ i, ¬ (i < DB_COUNT ∧ participating diffbuf i = true) →
        (remove_line diffbuf i_org bw dp).df_lnum i = dp.df_lnum i
          ∧ (remove_line diffbuf i_org bw dp).df_count i = dp.df_count i) := by
  unfold remove_line
  constructor
  · intro i hi hp
    have hge : i_org ≤ i := by
      by_contra hlt
      have := hmin i (by omega)
      rw [hp] at this
      exact absurd this (by simp)
    have c : i_org ≤ i ∧ i < DB_COUNT ∧ participating diffbuf i = true := ⟨hge, hi, hp⟩
    rw [for_slots_lnum, for_slots_count, if_pos c, if_pos c]
    cases bw <;> refine ⟨?_, ?_⟩ <;> simp
  · intro i hn
    have c : ¬ (i_org ≤ i ∧ i < DB_COUNT ∧ participating diffbuf i = true) :=
      fun h => hn ⟨h.2.1, h.2.2⟩
    rw [for_slots_lnum, for_slots_count, if_neg c, if_neg c]
    exact ⟨rfl, rfl⟩

/-- One direction of `diff_check_unchanged` removes the same number `t` of lines from
every participating buffer; when it removes a line, no participating count is negative
afterwards. -/
theorem trim_loop_uniform (H : Host) (diffbuf : Nat → Option buf_T) (fl i_org : Nat)
    (bw : Bool) (hi : i_org < DB_COUNT) (hp : participating diffbuf i_org = true)
    (hmin : ∀ j, j < i_org → participating diffbuf j = false) (fuel : Nat) :
    ∀ dp : diff_T, ∃ t : Int, 0 ≤ t
      ∧ (∀ i, i < DB_COUNT → participating diffbuf i = true →
          (trim_loop H diffbuf fl i_org bw fuel dp).1.df_lnum i
              = dp.df_lnum i + (if bw then 0 else t)
            ∧ (trim_loop H diffbuf fl i_org bw fuel dp).1.df_count i = dp.df_count i - t)
      ∧ (∀ i, ¬ (i < DB_COUNT ∧ participating diffbuf i = true) →
          (trim_loop H diffbuf fl i_org bw fuel dp).1.df_lnum i = dp.df_lnum i
            ∧ (trim_loop H diffbuf fl i_org bw fuel dp).1.df_count i = dp.df_count i)
      ∧ (t = 0 ∨ ∀ i, i < DB_COUNT → participating diffbuf i = true →
          0 ≤ (trim_loop H diffbuf fl i_org bw fuel dp).1.df_count i) := by
  have hstay : ∀ d : diff_T, ∃ t : Int, 0 ≤ t
      ∧ (∀ i, i < DB_COUNT → participating diffbuf i = true →
          d.df_lnum i = d.df_lnum i + (if bw then 0 else t)
            ∧ d.df_count i = d.df_count i - t)
      ∧ (∀ i, ¬ (i < DB_COUNT ∧ participating diffbuf i = true) →
          d.df_lnum i = d.df_lnum i ∧ d.df_count i = d.df_count i)
      ∧ (t = 0 ∨ ∀ i, i < DB_COUNT → participating diffbuf i = true → 0 ≤ d.df_count i) :=
    fun d => ⟨0, le_refl _, fun i _ _ => by cases bw <;> simp, fun i _ => ⟨rfl, rfl⟩,
      Or.inl rfl⟩
  induction fuel with
  | zero => intro dp; exact hstay dp
  | succ n ih =>
    intro dp
    rw [trim_loop]
    split
    · rename_i hpos
      simp only
      split
      · split
        · exact hstay dp
        · rename_i hm
          have hm' : first_mismatch H diffbuf fl i_org bw dp
              (ml_get_slot H diffbuf i_org
                (dp.df_lnum i_org + trim_off bw (dp.df_count i_org))) = DB_COUNT := by
            by_contra hc
            exact hm hc
          have hall := first_mismatch_none H diffbuf fl i_org bw dp _ hi hm'
          obtain ⟨r1, r2⟩ := remove_line_fields diffbuf i_org bw dp hmin
          obtain ⟨t, ht, u1, u2, u3⟩ := ih (remove_line diffbuf i_org bw dp)
          have hcount : ∀ i, i < DB_COUNT → participating diffbuf i = true →
              1 ≤ dp.df_count i := by
            intro i hi' hp'
            by_cases e : i = i_org
            · subst e; omega
            · have hge : i_org < i := by
                by_contra hlt
                have := hmin i (by omega)
                rw [hp'] at this
                exact absurd this (by simp)
              have := hall i hge hi' hp'
              omega
          refine ⟨t + 1, by omega, ?_, ?_, Or.inr ?_⟩
          · intro i hi' hp'
            obtain ⟨a1, a2⟩ := u1 i hi' hp'
            obtain ⟨b1, b2⟩ := r1 i hi' hp'
            rw [a1, a2, b1, b2]
            cases bw
            · simp only [Bool.false_eq_true, if_false]
              constructor <;> omega
            · simp only [if_true]
              constructor <;> omega
          · intro i hn
            obtain ⟨a1, a2⟩ := u2 i hn
            obtain ⟨b1, b2⟩ := r2 i hn
            rw [a1, a2, b1, b2]
            exact ⟨rfl, rfl⟩
          · intro i hi' hp'
            rcases u3 with h0 | hnn
            · obtain ⟨-, a2⟩ := u1 i hi' hp'
              obtain ⟨-, b2⟩ := r1 i hi' hp'
              have := hcount i hi' hp'
              rw [a2, b2, h0]
              omega
            · exact hnn i hi' hp'
      · exact hstay dp
    · exact hstay dp

/-- Claim C32: `diff_check_unchanged` changes a block uniformly.  There are `t_top` and
`t_bottom`, not negative, such that in every participating buffer `i` the new
`start[i]` is the old `start[i] + t_top` and the new `count[i]` is the old
`count[i] - t_top - t_bottom`; the entries of the other slots are untouched; when no
participating count was negative before, none is negative afterwards; hence
`count[i] - count[j]` is preserved for all participating `i`, `j`. -/
theorem C32_check_unchanged_is_uniform (H : Host) (diffbuf : Nat → Option buf_T)
    (diff_flags : Nat) (dp : diff_T) :
    ∃ t_top t_bottom : Int, 0 ≤ t_top ∧ 0 ≤ t_bottom
      ∧ (∀ i, i < DB_COUNT → participating diffbuf i = true →
          (diff_check_unchanged H diffbuf diff_flags dp).df_lnum i = dp.df_lnum i + t_top
            ∧ (diff_check_unchanged H diffbuf diff_flags dp).df_count i
              = dp.df_count i - t_top - t_bottom)
      ∧ (∀ i, ¬ (i < DB_COUNT ∧ participating diffbuf i = true) →
          (diff_check_unchanged H diffbuf diff_flags dp).df_lnum i = dp.df_lnum i
            ∧ (diff_check_unchanged H diffbuf diff_flags dp).df_count i = dp.df_count i)
      ∧ ((∀ i, i < DB_COUNT → participating diffbuf i = true → 0 ≤ dp.df_count i) →
          ∀ i, i < DB_COUNT → participating diffbuf i = true →
            0 ≤ (diff_check_unchanged H diffbuf diff_flags dp).df_count i)
      ∧ (∀ i j, i < DB_COUNT → j < DB_COUNT → participating diffbuf i = true →
          participating diffbuf j = true →
          (diff_check_unchanged H diffbuf diff_flags dp).df_count i
              - (diff_check_unchanged H diffbuf diff_flags dp).df_count j
            = dp.df_count i - dp.df_count j) := by
  have key : ∃ t_top t_bottom : Int, 0 ≤ t_top ∧ 0 ≤ t_bottom
      ∧ (∀ i, i < DB_COUNT → participating diffbuf i = true →
          (diff_check_unchanged H diffbuf diff_flags dp).df_lnum i = dp.df_lnum i + t_top
            ∧ (diff_check_unchanged H diffbuf diff_flags dp).df_count i
              = dp.df_count i - t_top - t_bottom)
      ∧ (∀ i, ¬ (i < DB_COUNT ∧ participating diffbuf i = true) →
          (diff_check_unchanged H diffbuf diff_flags dp).df_lnum i = dp.df_lnum i
            ∧ (diff_check_unchanged H diffbuf diff_flags dp).df_count i = dp.df_count i)
      ∧ ((∀ i, i < DB_COUNT → participating diffbuf i = true → 0 ≤ dp.df_count i) →
          ∀ i, i < DB_COUNT → participating diffbuf i = true →
            0 ≤ (diff_check_unchanged H diffbuf diff_flags dp).df_count i) := by
    have e : diff_check_unchanged H diffbuf diff_flags dp =
        if find_idx (participating diffbuf) DB_COUNT 0 = DB_COUNT then dp
        else
          if (trim_loop H diffbuf diff_flags (find_idx (participating diffbuf) DB_COUNT 0)
              false (dp.df_count (find_idx (participating diffbuf) DB_COUNT 0)).toNat dp).2
          then
            (trim_loop H diffbuf diff_flags (find_idx (participating diffbuf) DB_COUNT 0)
              false (dp.df_count (find_idx (participating diffbuf) DB_COUNT 0)).toNat dp).1
          else
            (trim_loop H diffbuf diff_flags (find_idx (participating diffbuf) DB_COUNT 0)
              true
              ((trim_loop H diffbuf diff_flags (find_idx (participating diffbuf) DB_COUNT 0)
                false (dp.df_count (find_idx (participating diffbuf) DB_COUNT 0)).toNat
                dp).1.df_count (find_idx (participating diffbuf) DB_COUNT 0)).toNat
              (trim_loop H diffbuf diff_flags (find_idx (participating diffbuf) DB_COUNT 0)
                false (dp.df_count (find_idx (participating diffbuf) DB_COUNT 0)).toNat
                dp).1).1 := rfl
    rw [e]
    have hmin : ∀ j, j < find_idx (participating diffbuf) DB_COUNT 0 →
        participating diffbuf j = false :=
      fun j hj => find_idx_before (participating diffbuf) DB_COUNT 0 j (Nat.zero_le _) hj
    have hle : find_idx (participating diffbuf) DB_COUNT 0 ≤ DB_COUNT := by
      have := find_idx_le (participating diffbuf) DB_COUNT 0
      omega
    have hfound : find_idx (participating diffbuf) DB_COUNT 0 ≠ DB_COUNT →
        participating diffbuf (find_idx (participating diffbuf) DB_COUNT 0) = true := by
      intro hne
      exact (find_idx_found (participating diffbuf) DB_COUNT 0 (by omega)).1
    generalize find_idx (participating diffbuf) DB_COUNT 0 = i_org at hmin hle hfound ⊢
    by_cases h0 : i_org = DB_COUNT
    · rw [if_pos h0]
      exact ⟨0, 0, le_refl _, le_refl _, fun i _ _ => by constructor <;> omega,
        fun i _ => ⟨rfl, rfl⟩, fun h => h⟩
    · rw [if_neg h0]
      have hlt : i_org < DB_COUNT := by omega
      have hp : participating diffbuf i_org = true := hfound h0
      obtain ⟨t1, ht1, u1, u2, u3⟩ := trim_loop_uniform H diffbuf diff_flags i_org false
        hlt hp hmin (dp.df_count i_org).toNat dp
      generalize trim_loop H diffbuf diff_flags i_org false (dp.df_count i_org).toNat dp
        = r1 at u1 u2 u3 ⊢
      by_cases hr : r1.2 = true
      · rw [if_pos hr]
        refine ⟨t1, 0, ht1, le_refl _, ?_, u2, ?_⟩
        · intro i hi' hp'
          obtain ⟨a1, a2⟩ := u1 i hi' hp'
          simp only [Bool.false_eq_true, if_false] at a1
          constructor <;> omega
        · intro hnn i hi' hp'
          rcases u3 with h | h
          · obtain ⟨-, a2⟩ := u1 i hi' hp'
            have := hnn i hi' hp'
            omega
          · exact h i hi' hp'
      · rw [if_neg hr]
        obtain ⟨t2, ht2, v1, v2, v3⟩ := trim_loop_uniform H diffbuf diff_flags i_org true
          hlt hp hmin (r1.1.df_count i_org).toNat r1.1
        generalize trim_loop H diffbuf diff_flags i_org true (r1.1.df_count i_org).toNat
          r1.1 = r2 at v1 v2 v3 ⊢
        refine ⟨t1, t2, ht1, ht2, ?_, ?_, ?_⟩
        · intro i hi' hp'
          obtain ⟨a1, a2⟩ := u1 i hi' hp'
          obtain ⟨b1, b2⟩ := v1 i hi' hp'
          simp only [Bool.false_eq_true, if_false] at a1
          simp only [if_true] at b1
          constructor <;> omega
        · intro i hn
          obtain ⟨a1, a2⟩ := u2 i hn
          obtain ⟨b1, b2⟩ := v2 i hn
          constructor <;> omega
        · intro hnn i hi' hp'
          rcases v3 with h | h
          · obtain ⟨-, b2⟩ := v1 i hi' hp'
            rcases u3 with h' | h'
            · obtain ⟨-, a2⟩ := u1 i hi' hp'
              have := hnn i hi' hp'
              omega
            · have := h' i hi' hp'
              omega
          · exact h i hi' hp'
  obtain ⟨t_top, t_bottom, h1, h2, h3, h4, h5⟩ := key
  refine ⟨t_top, t_bottom, h1, h2, h3, h4, h5, ?_⟩
  intro i j hi hj hpi hpj
  obtain ⟨-, a⟩ := h3 i hi hpi
  obtain ⟨-, b⟩ := h3 j hj hpj
  omega

theorem C32_witness :
    (∃ t_top t_bottom : Int, 0 ≤ t_top ∧ 0 ≤ t_bottom
      ∧ (∀ i, i < DB_COUNT → participating (slots 2) i = true →
          (diff_check_unchanged (host_of edge_bufs) (slots 2) DIFF_FILLER
              (block_of [1, 1] [3, 3])).df_lnum i
            = (block_of [1, 1] [3, 3]).df_lnum i + t_top
            ∧ (diff_check_unchanged (host_of edge_bufs) (slots 2) DIFF_FILLER
                (block_of [1, 1] [3, 3])).df_count i
              = (block_of [1, 1] [3, 3]).df_count i - t_top - t_bottom)
      ∧ (∀ i, ¬ (i < DB_COUNT ∧ participating (slots 2) i = true) →
          (diff_check_unchanged (host_of edge_bufs) (slots 2) DIFF_FILLER
              (block_of [1, 1] [3, 3])).df_lnum i
            = (block_of [1, 1] [3, 3]).df_lnum i
            ∧ (diff_check_unchanged (host_of edge_bufs) (slots 2) DIFF_FILLER
                (block_of [1, 1] [3, 3])).df_count i
              = (block_of [1, 1] [3, 3]).df_count i)
      ∧ ((∀ i, i < DB_COUNT → participating (slots 2) i = true →
            0 ≤ (block_of [1, 1] [3, 3]).df_count i) →
          ∀ i, i < DB_COUNT → participating (slots 2) i = true →
            0 ≤ (diff_check_unchanged (host_of edge_bufs) (slots 2) DIFF_FILLER
              (block_of [1, 1] [3, 3])).df_count i)
      ∧ (∀ i j, i < DB_COUNT → j < DB_COUNT → participating (slots 2) i = true →
          participating (slots 2) j = true →
          (diff_check_unchanged (host_of edge_bufs) (slots 2) DIFF_FILLER
              (block_of [1, 1] [3, 3])).df_count i
              - (diff_check_unchanged (host_of edge_bufs) (slots 2) DIFF_FILLER
                (block_of [1, 1] [3, 3])).df_count j
            = (block_of [1, 1] [3, 3]).df_count i - (block_of [1, 1] [3, 3]).df_count j))
      ∧ (diff_check_unchanged (host_of edge_bufs) (slots 2) DIFF_FILLER
          (block_of [1, 1] [3, 3])).view = ([2, 2, 0, 0], [1, 1, 0, 0])
      ∧ (diff_check_unchanged (host_of three_way) (slots 3) DIFF_FILLER
          (block_of [1, 1, 1] [1, 2, 3])).view = ([2, 2, 2, 0], [0, 1, 2, 0]) :=
  ⟨C32_check_unchanged_is_uniform (host_of edge_bufs) (slots 2) DIFF_FILLER
      (block_of [1, 1] [3, 3]),
    by decide, by decide⟩

/-! ## The parser: a hunk that overlaps existing blocks -/

/-- Lines 891-943 for a hunk that overlaps the block `dp` only (`dpl == dp`): the merged
block starts in the original buffer at the smaller of the two starts; its end is the
larger of the end of the hunk and the end of `dp` moved up by the lines that the start
was set back. -/
theorem merge_overlap_single (diffbuf : Nat → Option buf_T) (idx_orig idx_new : Nat)
    (h : Hunk) (notset : Bool) (dp : diff_T) (tl : List diff_T)
    (hlt : idx_orig < idx_new) (hp : participating diffbuf idx_orig = true) :
    (merge_overlap diffbuf idx_orig idx_new h notset dp tl 0).df_lnum idx_orig
        = min h.lnum_orig (dp.df_lnum idx_orig)
      ∧ (merge_overlap diffbuf idx_orig idx_new h notset dp tl 0).df_lnum idx_orig
          + (merge_overlap diffbuf idx_orig idx_new h notset dp tl 0).df_count idx_orig
        = max (h.lnum_orig + h.count_orig)
            (dp.df_lnum idx_orig + dp.df_count idx_orig
              - max (dp.df_lnum idx_orig - h.lnum_orig) 0) := by
  have hne : idx_orig ≠ idx_new := by omega
  have c1 : idx_orig ≤ idx_orig ∧ idx_orig < idx_new ∧ participating diffbuf idx_orig = true :=
    ⟨le_refl _, hlt, hp⟩
  have c2 : idx_orig ≤ idx_orig ∧ idx_orig < idx_new + (if notset = true then 0 else 1)
      ∧ participating diffbuf idx_orig = true := ⟨le_refl _, by omega, hp⟩
  unfold merge_overlap
  simp only [dpl_block]
  rw [for_slots_lnum, for_slots_count, if_pos c2, if_pos c2]
  simp only [min_def, max_def]
  cases notset <;> split_ifs <;>
    simp only [diff_T.setLnum, diff_T.setCount, for_slots_lnum, for_slots_count, if_pos c1,
      if_neg hne] at * <;> (try simp only [true_and]) <;> omega

/-- Lines 891-943 for a hunk that overlaps the blocks from `dp` to a later block `dpl`:
the merged block starts in the original buffer at the smaller of the two starts and
ends at the larger of the end of the hunk and the end of `dpl`. -/
theorem merge_overlap_several (diffbuf : Nat → Option buf_T) (idx_orig idx_new : Nat)
    (h : Hunk) (notset : Bool) (dp dpl : diff_T) (tl : List diff_T) (n : Nat)
    (hlt : idx_orig < idx_new) (hp : participating diffbuf idx_orig = true)
    (hn : tl.get? n = some dpl) :
    (merge_overlap diffbuf idx_orig idx_new h notset dp tl (n + 1)).df_lnum idx_orig
        = min h.lnum_orig (dp.df_lnum idx_orig)
      ∧ (merge_overlap diffbuf idx_orig idx_new h notset dp tl (n + 1)).df_lnum idx_orig
          + (merge_overlap diffbuf idx_orig idx_new h notset dp tl (n + 1)).df_count idx_orig
        = max (h.lnum_orig + h.count_orig) (dpl.df_lnum idx_orig + dpl.df_count idx_orig) := by
  have hne : idx_orig ≠ idx_new := by omega
  have c1 : idx_orig ≤ idx_orig ∧ idx_orig < idx_new ∧ participating diffbuf idx_orig = true :=
    ⟨le_refl _, hlt, hp⟩
  have c2 : idx_orig ≤ idx_orig ∧ idx_orig < idx_new + (if notset = true then 0 else 1)
      ∧ participating diffbuf idx_orig = true := ⟨le_refl _, by omega, hp⟩
  have hg : ∀ d : diff_T, tl.getD n d = dpl := by
    intro d
    rw [List.getD_eq_getElem?_getD, ← List.get?_eq_getElem?, hn]
    rfl
  unfold merge_overlap
  simp only [dpl_block, hg]
  rw [for_slots_lnum, for_slots_count, if_pos c2, if_pos c2]
  simp only [min_def, max_def]
  cases notset <;> split_ifs <;>
    simp only [diff_T.setLnum, diff_T.setCount, for_slots_lnum, for_slots_count, if_pos c1,
      if_neg hne] at * <;> (try simp only [true_and]) <;> omega

theorem last_overlap_le (idx_orig : Nat) (h : Hunk) (tl : List diff_T) :
    last_overlap idx_orig h tl ≤ tl.length := by
  induction tl with
  | nil => simp [last_overlap]
  | cons nx tl ih =>
    simp only [last_overlap, List.length_cons]
    split <;> omega

/-- A round of `diff_read` for a hunk that overlaps or touches the block `dp` at the
cursor: `dp` and the `k` blocks after it up to the last overlap are replaced by one
block, so the list gets shorter by `k`. -/
theorem read_line_overlap (H : Host) (diffbuf : Nat → Option buf_T) (idx_orig idx_new : Nat)
    (st : ReadState) (linebuf : List Char) (h : Hunk) (dp : diff_T) (tl : List diff_T)
    (hparse : parse_hunk linebuf = some h)
    (hskip : (skip_before idx_orig idx_new h.lnum_orig st.done st.notset st.rest).rest
      = dp :: tl)
    (h1 : h.lnum_orig ≤ dp.df_lnum idx_orig + dp.df_count idx_orig)
    (h2 : h.lnum_orig + h.count_orig ≥ dp.df_lnum idx_orig) :
    (read_line H diffbuf idx_orig idx_new st linebuf).2 = false
      ∧ (read_line H diffbuf idx_orig idx_new st linebuf).1.done
        = (skip_before idx_orig idx_new h.lnum_orig st.done st.notset st.rest).done
      ∧ (read_line H diffbuf idx_orig idx_new st linebuf).1.rest
        = merge_overlap diffbuf idx_orig idx_new h
            (skip_before idx_orig idx_new h.lnum_orig st.done st.notset st.rest).notset
            dp tl (last_overlap idx_orig h tl)
          :: tl.drop (last_overlap idx_orig h tl)
      ∧ ((read_line H diffbuf idx_orig idx_new st linebuf).1.rest.length : Int)
        = ((dp :: tl).length : Int) - (last_overlap idx_orig h tl : Int) := by
  have hk := last_overlap_le idx_orig h tl
  unfold read_line
  rw [hparse]
  simp only [hskip]
  rw [if_pos ⟨h1, h2⟩]
  refine ⟨rfl, rfl, rfl, ?_⟩
  simp only [List.length_cons, List.length_drop]
  omega

/-- Claim C31 fails on the code.  Three buffers of seven lines, B differs from A in the
lines 4 to 6 and C differs from A in the lines 2 and 3.  `ex_diffupdate` reads
`4,6c4,6` for A and B, which gives the block `{start=[4,4], count=[3,3]}`, and then
`2,3c2,3` for A and C.  This hunk touches the block (`2 + 2 >= 4`), so the block should
become the reference range from `min(2, 4) = 2` to `max(2 + 2, 4 + 3) = 7`, that is
`count = 5`.  The code leaves `{start=[2,2,2], count=[3,3,3]}`, which ends at 5: when
the hunk starts before the block and no later block overlaps, `dpl` is `dp`, whose start
was just set back (line 903) while its count was not yet changed, so the end computed
at lines 919-931 is two lines short.  When the hunk ends at or after the end of the
block (`2,6c2,6`), does not start before it (`5,8c5,8`), or overlaps a later block too,
the merged block is as claimed. -/
theorem C31_merged_block_too_short_when_hunk_starts_before_single_block :
    ((ex_diffupdate overlap_host (state_of 3 [] false)).first_diff.map diff_T.view
        = [([2, 2, 2, 0], [3, 3, 3, 0])])
      ∧ ((diff_read overlap_host (state_of 3 [] false) 0 1
            (some overlap_diff_AB)).first_diff.map diff_T.view
          = [([4, 4, 0, 0], [3, 3, 0, 0])])
      ∧ ((diff_read overlap_host (state_of 3 [block_of [4, 4] [3, 3]] false) 0 2
            (some overlap_diff_AC)).first_diff.map
            (fun b => (b.df_lnum 0, b.df_lnum 0 + b.df_count 0))
          = [(2, 5)])
      ∧ (min (2 : Int) 4, max ((2 : Int) + 2) (4 + 3)) = (2, 7)
      ∧ ((diff_read overlap_host (state_of 3 [block_of [4, 4] [3, 3]] false) 0 2
            (some (lines_of ["2,6c2,6"]))).first_diff.map
            (fun b => (b.df_lnum 0, b.df_lnum 0 + b.df_count 0))
          = [(2, 7)])
      ∧ ((diff_read overlap_host (state_of 3 [block_of [4, 4] [3, 3]] false) 0 2
            (some (lines_of ["5,8c5,8"]))).first_diff.map
            (fun b => (b.df_lnum 0, b.df_lnum 0 + b.df_count 0))
          = [(4, 9)])
      ∧ ((diff_read overlap_host
            (state_of 3 [block_of [4, 4] [1, 1], block_of [7, 7] [3, 3]] false) 0 2
            (some (lines_of ["2,7c2,7"]))).first_diff.map
            (fun b => (b.df_lnum 0, b.df_lnum 0 + b.df_count 0))
          = [(2, 10)]) :=
  ⟨by decide, by decide, by decide, by decide, by decide, by decide, by decide⟩

end VimDiff
